import Mathlib

/-!
# gstvaapidecoder.c: the incremental parse / reassembly / dispatch engine

A shallow embedding of `gst-libs/gst/vaapi/gstvaapidecoder.c`.

* Pointers to GObject data become values.  `ps->current_frame` and the
  `base_frame` argument of `do_parse` alias in `decode_step`; the embedding of
  `decode_step` writes the frame returned by `do_parse` back into the parser
  state at once, which is what the aliasing does in C.
* The codec class (`GstVaapiDecoderClass`) is a record of hook functions.  A
  hook gets and returns the part of the decoder a codec subclass reaches
  through the API of this file (`gst_vaapi_decoder_push_frame`,
  `gst_vaapi_decoder_ensure_context`) together with its own private state.
* The two loops of `decode_step` and the loop of
  `gst_vaapi_decoder_get_surface` take a fuel argument; `none` means the fuel
  ran out, never a result of the C code.
* Every hook call and every entry into `do_decode` is appended to a ghost
  `log`, which no definition ever reads.
* The `guint` fields (unit size and offset, `output_offset`) are natural
  numbers, values below 2^32 standing for themselves; the one addition made on
  them, `output_offset += size` in `do_parse`, is taken modulo 2^32.
* Reference counts, debug output and allocation failure are left out, and so
  is the presentation timestamp latched on the frame (no property below reads
  it).
-/

namespace GstVaapi

/-- Modelled from the spec: the status enumeration of `gstvaapidecoder.h`, which
is not among the sources.  `SUCCESS`, `ERROR_ALLOCATION_FAILED`,
`ERROR_NO_DATA` (spec: NeedMoreInput), `ERROR_NO_SURFACE` and
`ERROR_INVALID_PARAMETER` occur in `gstvaapidecoder.c`; `ERROR_BITSTREAM_PARSER`
stands for the spec's ParseError and `ERROR_UNKNOWN` for its DecodeError. -/
inductive GstVaapiDecoderStatus
  | SUCCESS
  | ERROR_ALLOCATION_FAILED
  | ERROR_NO_DATA
  | ERROR_NO_SURFACE
  | ERROR_INVALID_PARAMETER
  | ERROR_BITSTREAM_PARSER
  | ERROR_UNKNOWN
  deriving DecidableEq, Repr

open GstVaapiDecoderStatus

/-- Modelled from the spec: a `GstBuffer` (spec: CompressedChunk), a GStreamer
type.  `data = none` is a NULL data pointer; `eos` is `GST_BUFFER_FLAG_EOS`. -/
structure GstBuffer where
  data : Option (List Nat)
  eos : Bool
  deriving DecidableEq, Repr

/-- The macro `GST_BUFFER_SIZE`. -/
def GstBuffer.size (b : GstBuffer) : Nat :=
  match b.data with
  | some bytes => bytes.length
  | none => 0

/-- The buffer made by `gst_buffer_new()`: no data, no flags. -/
def gst_buffer_new : GstBuffer :=
  { data := none, eos := false }

/-- Modelled from the spec: a `GstAdapter` (spec §4.1, ByteAccumulator), GStreamer
library code.  `id` is the identity of the object (its address in C), `data`
the unconsumed bytes. -/
structure GstAdapter where
  id : Nat
  data : List Nat
  deriving DecidableEq, Repr

/-- Modelled from the spec: `gst_adapter_available`, the unconsumed byte count. -/
def gst_adapter_available (a : GstAdapter) : Nat :=
  a.data.length

/-- Modelled from the spec: `gst_adapter_push`, appending the bytes of a chunk.  A
NULL buffer is rejected by the library and nothing is appended. -/
def gst_adapter_push (a : GstAdapter) (buf : Option (List Nat)) : GstAdapter :=
  match buf with
  | some bytes => { a with data := a.data ++ bytes }
  | none => a

/-- Modelled from the spec: `gst_adapter_take_buffer`, removing and returning the
first `n` bytes.  The library returns NULL and removes nothing when `n` is zero
or exceeds the available count. -/
def gst_adapter_take_buffer (a : GstAdapter) (n : Nat) : Option (List Nat) × GstAdapter :=
  if n = 0 ∨ a.data.length < n then (none, a)
  else (some (a.data.take n), { a with data := a.data.drop n })

/-- Modelled from the spec: a `GstVaapiDecoderUnit` (spec: CodedUnit, size, offset
and flags), declared in a header that is not among the sources.  The four
booleans are the flag bits read by `GST_VAAPI_DECODER_UNIT_IS_FRAME_START`,
`..._IS_FRAME_END`, `..._IS_SLICE` and `..._IS_SKIPPED`. -/
structure GstVaapiDecoderUnit where
  size : Nat
  offset : Nat
  frame_start : Bool
  frame_end : Bool
  slice : Bool
  skipped : Bool
  deriving DecidableEq, Repr

/-- Modelled from the spec: a `GstVaapiDecoderFrame` (spec: FrameAssembly),
declared in a header that is not among the sources. -/
structure GstVaapiDecoderFrame where
  units : List GstVaapiDecoderUnit
  output_offset : Nat
  prev_slice : Option GstVaapiDecoderUnit
  deriving DecidableEq, Repr

/-- The frame made by `gst_vaapi_decoder_frame_new()`: no unit, offset zero, no
slice seen. -/
def gst_vaapi_decoder_frame_new : GstVaapiDecoderFrame :=
  { units := [], output_offset := 0, prev_slice := none }

/-- A `GstVideoCodecFrame`: the user-data anchor holding the decoder frame, and
the payload attached on completion. -/
structure GstVideoCodecFrame where
  user_data : Option GstVaapiDecoderFrame
  input_buffer : Option (List Nat)
  deriving DecidableEq, Repr

/-- The zeroed frame descriptor of `g_slice_new0(GstVideoCodecFrame)`. -/
def g_slice_new0 : GstVideoCodecFrame :=
  { user_data := none, input_buffer := none }

/-- The `GstVaapiParserState` fields used in `gstvaapidecoder.c`.
`current_adapter` holds the identity of the adapter seen by the last parse. -/
structure GstVaapiParserState where
  current_frame : Option GstVideoCodecFrame
  current_adapter : Option Nat
  input_adapter : GstAdapter
  output_adapter : GstAdapter
  input_offset2 : Int
  pending_unit : Option GstVaapiDecoderUnit
  deriving DecidableEq, Repr

/-- One entry of the ghost log. -/
inductive Event
  | parse (data : List Nat) (at_eos : Bool) (status : GstVaapiDecoderStatus)
      (unit : Option GstVaapiDecoderUnit)
  | do_decode (frame : GstVideoCodecFrame)
  | start_frame (unit : GstVaapiDecoderUnit) (status : GstVaapiDecoderStatus)
  | decode (unit : GstVaapiDecoderUnit) (status : GstVaapiDecoderStatus)
  | end_frame (status : GstVaapiDecoderStatus)
  deriving DecidableEq, Repr

/-- What a codec hook can reach: the private state `codec` of the subclass, the
hardware context (`none` when there is none, else its count of free surfaces,
`gst_vaapi_context_get_surface_count`) and the queue of decoded frames, to which
a hook appends through `gst_vaapi_decoder_push_frame`. -/
structure CodecView (σ : Type) where
  codec : σ
  context : Option Nat
  frames : List GstVideoCodecFrame

/-- What the `parse` hook hands back: `SUCCESS` with the unit stored through its
last argument, or a status other than `SUCCESS` (a unit stored with it is
released by `do_parse` unseen). -/
inductive ParseResult
  | success (unit : GstVaapiDecoderUnit)
  | failure (status : GstVaapiDecoderStatus) (h : status ≠ SUCCESS)

/-- The status a parse result stands for. -/
def ParseResult.status : ParseResult → GstVaapiDecoderStatus
  | .success _ => SUCCESS
  | .failure s _ => s

/-- The unit a parse result carries. -/
def ParseResult.unit : ParseResult → Option GstVaapiDecoderUnit
  | .success u => some u
  | .failure _ _ => none

/-- The hook table `GstVaapiDecoderClass` (spec §6); `start_frame` and
`end_frame` may be absent. -/
structure GstVaapiDecoderClass (σ : Type) where
  parse : CodecView σ → GstAdapter → Bool → ParseResult × CodecView σ
  start_frame : Option (CodecView σ → GstVaapiDecoderUnit → GstVaapiDecoderStatus × CodecView σ)
  decode : CodecView σ → GstVaapiDecoderUnit → GstVaapiDecoderStatus × CodecView σ
  end_frame : Option (CodecView σ → GstVaapiDecoderStatus × CodecView σ)

/-- A `GstVaapiDecoder` with its private part flattened: `buffers` is the Input
Queue, `frames` the Output Queue, `log` the ghost log. -/
structure GstVaapiDecoder (σ : Type) where
  codec : σ
  context : Option Nat
  buffers : List GstBuffer
  frames : List GstVideoCodecFrame
  parser_state : GstVaapiParserState
  log : List Event

/-- The part of the decoder handed to a hook. -/
def GstVaapiDecoder.view {σ : Type} (d : GstVaapiDecoder σ) : CodecView σ :=
  { codec := d.codec, context := d.context, frames := d.frames }

/-- Store back what a hook returned. -/
def GstVaapiDecoder.setView {σ : Type} (d : GstVaapiDecoder σ) (v : CodecView σ) :
    GstVaapiDecoder σ :=
  { d with codec := v.codec, context := v.context, frames := v.frames }

/-- Record an event in the ghost log. -/
def GstVaapiDecoder.record {σ : Type} (d : GstVaapiDecoder σ) (e : Event) :
    GstVaapiDecoder σ :=
  { d with log := d.log ++ [e] }

/-- The state set up by `parser_state_init` and `gst_vaapi_decoder_init`: two
fresh adapters, empty queues, no context. -/
def gst_vaapi_decoder_init {σ : Type} (codec : σ) : GstVaapiDecoder σ :=
  { codec := codec
    context := none
    buffers := []
    frames := []
    parser_state :=
      { current_frame := none
        current_adapter := none
        input_adapter := { id := 0, data := [] }
        output_adapter := { id := 1, data := [] }
        input_offset2 := 0
        pending_unit := none }
    log := [] }

/-- `parser_state_get_pending_unit`: hand out the pending unit and clear it. -/
def parser_state_get_pending_unit (ps : GstVaapiParserState) (_adapter : GstAdapter) :
    Option GstVaapiDecoderUnit × GstVaapiParserState :=
  (ps.pending_unit, { ps with pending_unit := none })

/-- `parser_state_set_pending_unit`. -/
def parser_state_set_pending_unit (ps : GstVaapiParserState) (_adapter : GstAdapter)
    (unit : GstVaapiDecoderUnit) : GstVaapiParserState :=
  { ps with pending_unit := some unit }

/-- `parser_state_prepare`: reset the continuity state when the adapter is not
the one of the previous call. -/
def parser_state_prepare (ps : GstVaapiParserState) (adapter : GstAdapter) :
    GstVaapiParserState :=
  if ps.current_adapter ≠ some adapter.id then
    { ps with current_adapter := some adapter.id, input_offset2 := -1 }
  else ps

/-- `push_buffer`: queue a chunk, or an EOS-flagged empty buffer for NULL. -/
def push_buffer {σ : Type} (decoder : GstVaapiDecoder σ) (buffer : Option GstBuffer) :
    Bool × GstVaapiDecoder σ :=
  let buffer := match buffer with
    | some b => b
    | none => { gst_buffer_new with eos := true }
  (true, { decoder with buffers := decoder.buffers ++ [buffer] })

/-- `pop_buffer`: take the head of the Input Queue. -/
def pop_buffer {σ : Type} (decoder : GstVaapiDecoder σ) :
    Option GstBuffer × GstVaapiDecoder σ :=
  match decoder.buffers with
  | [] => (none, decoder)
  | b :: rest => (some b, { decoder with buffers := rest })

/-- What `do_parse` returns, with its two out-parameters and the frame it was
given. -/
structure DoParseResult (σ : Type) where
  status : GstVaapiDecoderStatus
  decoder : GstVaapiDecoder σ
  base_frame : GstVideoCodecFrame
  got_unit_size : Nat
  got_frame : Bool

/-- The block at label `got_unit` of `do_parse` up to the frame-end test: give
the unit its offset, put it in front of the list, advance `output_offset`,
remember a slice.  `output_offset` and `size` are `guint`, so
`frame->output_offset += unit->size` wraps at 2^32. -/
def got_unit (frame : GstVaapiDecoderFrame) (unit : GstVaapiDecoderUnit) :
    GstVaapiDecoderFrame :=
  let unit := { unit with offset := frame.output_offset }
  { units := unit :: frame.units
    output_offset := (frame.output_offset + unit.size) % 4294967296
    prev_slice := if unit.slice then some unit else frame.prev_slice }

/-- The statement at label `got_frame` of `do_parse`: reverse the unit list. -/
def got_frame (frame : GstVaapiDecoderFrame) : GstVaapiDecoderFrame :=
  { frame with units := frame.units.reverse }

/-- `do_parse`. -/
def do_parse {σ : Type} (klass : GstVaapiDecoderClass σ) (decoder : GstVaapiDecoder σ)
    (base_frame : GstVideoCodecFrame) (adapter : GstAdapter) (at_eos : Bool) :
    DoParseResult σ :=
  let frame := match base_frame.user_data with
    | some f => f
    | none => gst_vaapi_decoder_frame_new
  let ps := parser_state_prepare decoder.parser_state adapter
  let (unit, ps) := parser_state_get_pending_unit ps adapter
  match unit with
  | some unit =>
    let frame := got_unit frame unit
    let done := unit.frame_end
    let frame := if done then got_frame frame else frame
    { status := SUCCESS
      decoder := { decoder with parser_state := ps }
      base_frame := { base_frame with user_data := some frame }
      got_unit_size := unit.size
      got_frame := done }
  | none =>
    let (res, view) := klass.parse decoder.view adapter at_eos
    let decoder := (decoder.setView view).record
      (Event.parse adapter.data at_eos res.status res.unit)
    match res with
    | .failure status _ =>
      let base_frame := { base_frame with user_data := some frame }
      { status := status
        decoder := { decoder with
          parser_state := { ps with current_frame := some base_frame } }
        base_frame := base_frame
        got_unit_size := 0
        got_frame := false }
    | .success unit =>
      if unit.frame_start && frame.prev_slice.isSome then
        let ps := parser_state_set_pending_unit ps adapter unit
        let base_frame := { base_frame with user_data := some (got_frame frame) }
        { status := SUCCESS
          decoder := { decoder with
            parser_state := { ps with current_frame := some base_frame } }
          base_frame := base_frame
          got_unit_size := 0
          got_frame := true }
      else
        let frame := got_unit frame unit
        let done := unit.frame_end
        let frame := if done then got_frame frame else frame
        let base_frame := { base_frame with user_data := some frame }
        { status := SUCCESS
          decoder := { decoder with
            parser_state := { ps with current_frame := some base_frame } }
          base_frame := base_frame
          got_unit_size := unit.size
          got_frame := done }

/-- The first loop of `do_decode`: call `start_frame` on the first unit flagged
slice, then leave the loop (by `return` on failure, by `break` otherwise). -/
def do_decode_start_frame {σ : Type}
    (start_frame : CodecView σ → GstVaapiDecoderUnit → GstVaapiDecoderStatus × CodecView σ)
    (decoder : GstVaapiDecoder σ) :
    List GstVaapiDecoderUnit → GstVaapiDecoderStatus × GstVaapiDecoder σ
  | [] => (SUCCESS, decoder)
  | unit :: l =>
    if unit.slice then
      let (status, view) := start_frame decoder.view unit
      (status, (decoder.setView view).record (Event.start_frame unit status))
    else do_decode_start_frame start_frame decoder l

/-- The second loop of `do_decode`: call `decode` on every unit not flagged
skipped, returning at the first status other than `SUCCESS`. -/
def do_decode_units {σ : Type}
    (decode : CodecView σ → GstVaapiDecoderUnit → GstVaapiDecoderStatus × CodecView σ)
    (decoder : GstVaapiDecoder σ) :
    List GstVaapiDecoderUnit → GstVaapiDecoderStatus × GstVaapiDecoder σ
  | [] => (SUCCESS, decoder)
  | unit :: l =>
    if unit.skipped then do_decode_units decode decoder l
    else
      let (status, view) := decode decoder.view unit
      let decoder := (decoder.setView view).record (Event.decode unit status)
      if status ≠ SUCCESS then (status, decoder)
      else do_decode_units decode decoder l

/-- The units of the decoder frame anchored on a codec frame.  Every caller
passes a frame whose anchor is set (`gst_vaapi_decoder_decode` rejects a NULL
anchor, `decode_step` passes a frame that went through `do_parse`); a NULL
anchor is read as a frame without units. -/
def frame_units (base_frame : GstVideoCodecFrame) : List GstVaapiDecoderUnit :=
  match base_frame.user_data with
  | some frame => frame.units
  | none => []

/-- `do_decode`. -/
def do_decode {σ : Type} (klass : GstVaapiDecoderClass σ) (decoder : GstVaapiDecoder σ)
    (base_frame : GstVideoCodecFrame) : GstVaapiDecoderStatus × GstVaapiDecoder σ :=
  let decoder := { decoder with
    parser_state := { decoder.parser_state with current_frame := some base_frame } }
  let decoder := decoder.record (Event.do_decode base_frame)
  let (status, decoder) := match klass.start_frame with
    | some start_frame => do_decode_start_frame start_frame decoder (frame_units base_frame)
    | none => (SUCCESS, decoder)
  if status ≠ SUCCESS then (status, decoder)
  else
    let (status, decoder) := do_decode_units klass.decode decoder (frame_units base_frame)
    if status ≠ SUCCESS then (status, decoder)
    else
      match klass.end_frame with
      | some end_frame =>
        let (status, view) := end_frame decoder.view
        let decoder := (decoder.setView view).record (Event.end_frame status)
        if status ≠ SUCCESS then (status, decoder)
        else (SUCCESS, decoder)
      | none => (SUCCESS, decoder)

/-- `gst_vaapi_decoder_check_status`. -/
def gst_vaapi_decoder_check_status {σ : Type} (decoder : GstVaapiDecoder σ) :
    GstVaapiDecoderStatus :=
  match decoder.context with
  | some surface_count => if surface_count < 1 then ERROR_NO_SURFACE else SUCCESS
  | none => SUCCESS

/-- Lines 266 to 271 of `decode_step`: the current frame, or a zeroed descriptor
when there is none. -/
def current_frame_or_new (ps : GstVaapiParserState) : GstVideoCodecFrame :=
  match ps.current_frame with
  | some f => f
  | none => g_slice_new0

/-- Lines 279 to 287 of `decode_step`: when a unit size was reported, move that
many bytes from the input adapter to the output adapter. -/
def decode_step_take_unit {σ : Type} (decoder : GstVaapiDecoder σ) (got_unit_size : Nat) :
    GstVaapiDecoder σ :=
  if got_unit_size > 0 then
    let ps := decoder.parser_state
    let (buffer, input_adapter) := gst_adapter_take_buffer ps.input_adapter got_unit_size
    { decoder with parser_state := { ps with
        input_adapter := input_adapter
        output_adapter := gst_adapter_push ps.output_adapter buffer } }
  else decoder

/-- Lines 289 to 299 of `decode_step`: attach everything in the output adapter
to the current frame as its payload, run `do_decode` on it, release it and
clear the current frame. -/
def decode_step_got_frame {σ : Type} (klass : GstVaapiDecoderClass σ)
    (decoder : GstVaapiDecoder σ) (current_frame : GstVideoCodecFrame) :
    GstVaapiDecoderStatus × GstVaapiDecoder σ :=
  let ps := decoder.parser_state
  let (buffer, output_adapter) :=
    gst_adapter_take_buffer ps.output_adapter (gst_adapter_available ps.output_adapter)
  let current_frame := { current_frame with input_buffer := buffer }
  let decoder := { decoder with parser_state := { ps with
      output_adapter := output_adapter
      current_frame := some current_frame } }
  let (status, decoder) := do_decode klass decoder current_frame
  (status, { decoder with
    parser_state := { decoder.parser_state with current_frame := none } })

/-- Lines 266 to 274 of `decode_step`: make sure there is a current frame and
call `do_parse` on it with the input adapter.  `ps->current_frame` is the frame
`do_parse` works on, so the frame it returns is the current frame afterwards. -/
def decode_step_parse {σ : Type} (klass : GstVaapiDecoderClass σ) (decoder : GstVaapiDecoder σ)
    (at_eos : Bool) : DoParseResult σ :=
  let current_frame := current_frame_or_new decoder.parser_state
  let decoder := { decoder with
    parser_state := { decoder.parser_state with current_frame := some current_frame } }
  let r := do_parse klass decoder current_frame decoder.parser_state.input_adapter at_eos
  { r with decoder := { r.decoder with
      parser_state := { r.decoder.parser_state with current_frame := some r.base_frame } } }

/-- One pass through the body of the inner loop of `decode_step`. -/
def decode_step_body {σ : Type} (klass : GstVaapiDecoderClass σ) (decoder : GstVaapiDecoder σ)
    (at_eos : Bool) : GstVaapiDecoderStatus × GstVaapiDecoder σ :=
  let r := decode_step_parse klass decoder at_eos
  if r.status ≠ SUCCESS then (r.status, r.decoder)
  else
    let decoder := decode_step_take_unit r.decoder r.got_unit_size
    if r.got_frame then decode_step_got_frame klass decoder r.base_frame
    else (SUCCESS, decoder)

/-- The inner loop of `decode_step`: repeat the body while it succeeds and the
input adapter still holds bytes. -/
def decode_step_inner {σ : Type} (klass : GstVaapiDecoderClass σ) (at_eos : Bool) :
    Nat → GstVaapiDecoder σ → Option (GstVaapiDecoderStatus × GstVaapiDecoder σ)
  | 0, _ => none
  | fuel + 1, decoder =>
    let (status, decoder) := decode_step_body klass decoder at_eos
    if status = SUCCESS ∧ gst_adapter_available decoder.parser_state.input_adapter > 0 then
      decode_step_inner klass at_eos fuel decoder
    else some (status, decoder)

/-- The outer loop of `decode_step`: pop a chunk, feed the input adapter unless
the chunk is the EOS sentinel, run the inner loop, and go round again while the
status is `ERROR_NO_DATA`. -/
def decode_step_outer {σ : Type} (klass : GstVaapiDecoderClass σ) :
    Nat → GstVaapiDecoder σ → Option (GstVaapiDecoderStatus × GstVaapiDecoder σ)
  | 0, _ => none
  | fuel + 1, decoder =>
    match pop_buffer decoder with
    | (none, decoder) => some (ERROR_NO_DATA, decoder)
    | (some buffer, decoder) =>
      let at_eos := buffer.eos
      let decoder :=
        if !at_eos then
          { decoder with parser_state := { decoder.parser_state with
              input_adapter :=
                gst_adapter_push decoder.parser_state.input_adapter (some (buffer.data.getD [])) } }
        else decoder
      match decode_step_inner klass at_eos (fuel + 1) decoder with
      | none => none
      | some (status, decoder) =>
        if status = ERROR_NO_DATA then decode_step_outer klass fuel decoder
        else some (status, decoder)

/-- `decode_step`. -/
def decode_step {σ : Type} (klass : GstVaapiDecoderClass σ) (fuel : Nat)
    (decoder : GstVaapiDecoder σ) : Option (GstVaapiDecoderStatus × GstVaapiDecoder σ) :=
  let status := gst_vaapi_decoder_check_status decoder
  if status ≠ SUCCESS then some (status, decoder)
  else decode_step_outer klass fuel decoder

/-- `push_frame`: queue a decoded frame. -/
def push_frame {σ : Type} (decoder : GstVaapiDecoder σ) (frame : GstVideoCodecFrame) :
    GstVaapiDecoder σ :=
  { decoder with frames := decoder.frames ++ [frame] }

/-- `pop_frame`: take the head of the Output Queue. -/
def pop_frame {σ : Type} (decoder : GstVaapiDecoder σ) :
    Option GstVideoCodecFrame × GstVaapiDecoder σ :=
  match decoder.frames with
  | [] => (none, decoder)
  | f :: rest => (some f, { decoder with frames := rest })

/-- `gst_vaapi_decoder_push_frame`, the entry a codec hook uses. -/
def gst_vaapi_decoder_push_frame {σ : Type} (view : CodecView σ) (frame : GstVideoCodecFrame) :
    CodecView σ :=
  { view with frames := view.frames ++ [frame] }

/-- `gst_vaapi_decoder_put_buffer` on a valid decoder (spec: submit). -/
def gst_vaapi_decoder_put_buffer {σ : Type} (decoder : GstVaapiDecoder σ)
    (buf : Option GstBuffer) : Bool × GstVaapiDecoder σ :=
  match buf with
  | some b =>
    if b.data.isNone ∨ b.size ≤ 0 then (true, decoder)
    else push_buffer decoder (some b)
  | none => push_buffer decoder none

/-- The loop of `gst_vaapi_decoder_get_surface`: run `decode_step` until its
status is not `SUCCESS`. -/
def get_surface_loop {σ : Type} (klass : GstVaapiDecoderClass σ) :
    Nat → GstVaapiDecoder σ → Option (GstVaapiDecoderStatus × GstVaapiDecoder σ)
  | 0, _ => none
  | fuel + 1, decoder =>
    match decode_step klass (fuel + 1) decoder with
    | none => none
    | some (status, decoder) =>
      if status = SUCCESS then get_surface_loop klass fuel decoder
      else some (status, decoder)

/-- What a pull returns: the status, the frame taken from the Output Queue (for
`gst_vaapi_decoder_get_surface` the caller is handed the surface proxy anchored
on it), and the decoder afterwards. -/
structure PullResult (σ : Type) where
  status : GstVaapiDecoderStatus
  out : Option GstVideoCodecFrame
  decoder : GstVaapiDecoder σ

/-- `gst_vaapi_decoder_get_surface` on a valid decoder and a non-NULL out
pointer (spec: pull_surface). -/
def gst_vaapi_decoder_get_surface {σ : Type} (klass : GstVaapiDecoderClass σ) (fuel : Nat)
    (decoder : GstVaapiDecoder σ) : Option (PullResult σ) :=
  match pop_frame decoder with
  | (some frame, decoder) =>
    some { status := SUCCESS, out := some frame, decoder := decoder }
  | (none, decoder) =>
    match get_surface_loop klass fuel decoder with
    | none => none
    | some (status, decoder) =>
      match pop_frame decoder with
      | (some frame, decoder) =>
        some { status := SUCCESS, out := some frame, decoder := decoder }
      | (none, decoder) =>
        some { status := if status = SUCCESS then ERROR_NO_DATA else status
               out := none
               decoder := decoder }

/-- `gst_vaapi_decoder_get_frame` on a valid decoder and a non-NULL out pointer
(spec: pull_frame). -/
def gst_vaapi_decoder_get_frame {σ : Type} (decoder : GstVaapiDecoder σ) : PullResult σ :=
  match pop_frame decoder with
  | (none, decoder) => { status := ERROR_NO_DATA, out := none, decoder := decoder }
  | (some out_frame, decoder) =>
    { status := SUCCESS, out := some out_frame, decoder := decoder }

/-- `gst_vaapi_decoder_parse` with valid arguments. -/
def gst_vaapi_decoder_parse {σ : Type} (klass : GstVaapiDecoderClass σ)
    (decoder : GstVaapiDecoder σ) (base_frame : GstVideoCodecFrame) (adapter : GstAdapter)
    (at_eos : Bool) : DoParseResult σ :=
  do_parse klass decoder base_frame adapter at_eos

/-- `gst_vaapi_decoder_decode` on a valid decoder and a non-NULL frame. -/
def gst_vaapi_decoder_decode {σ : Type} (klass : GstVaapiDecoderClass σ)
    (decoder : GstVaapiDecoder σ) (frame : GstVideoCodecFrame) :
    GstVaapiDecoderStatus × GstVaapiDecoder σ :=
  if frame.user_data.isNone then (ERROR_INVALID_PARAMETER, decoder)
  else
    let status := gst_vaapi_decoder_check_status decoder
    if status ≠ SUCCESS then (status, decoder)
    else do_decode klass decoder frame

/-! ## Definitions used to state the properties -/

/-- The statuses carried by a log entry; an entry into `do_decode` has none. -/
def Event.status? : Event → Option GstVaapiDecoderStatus
  | .parse _ _ s _ => some s
  | .do_decode _ => none
  | .start_frame _ s => some s
  | .decode _ s => some s
  | .end_frame s => some s

/-- The frames handed to `do_decode`, in order, as recorded in a log. -/
def dispatched : List Event → List GstVideoCodecFrame
  | [] => []
  | .do_decode frame :: rest => frame :: dispatched rest
  | _ :: rest => dispatched rest

/-- The entries a run added to the log it started from. -/
def new_events (before after : List Event) : List Event :=
  after.drop before.length

/-- Spec §4.2, steps 2 to 5: the unit one parse call appends to the frame, if
any.  A pending unit is appended without asking the hook; a unit returned by
the hook is appended unless it is flagged frame-start while the frame already
has a last slice. -/
def appended_unit {σ : Type} (klass : GstVaapiDecoderClass σ) (decoder : GstVaapiDecoder σ)
    (base_frame : GstVideoCodecFrame) (adapter : GstAdapter) (at_eos : Bool) :
    Option GstVaapiDecoderUnit :=
  match decoder.parser_state.pending_unit with
  | some u => some u
  | none =>
    match (klass.parse decoder.view adapter at_eos).1 with
    | .failure _ _ => none
    | .success u =>
      let has_slice := match base_frame.user_data with
        | some f => f.prev_slice.isSome
        | none => false
      if u.frame_start && has_slice then none else some u

/-- The outcome of a sequence of `do_parse` calls on one frame. -/
structure ParseRun (σ : Type) where
  decoder : GstVaapiDecoder σ
  base_frame : GstVideoCodecFrame
  got_frame : Bool
  appended : List GstVaapiDecoderUnit

/-- Call `do_parse` on one frame with the given adapters and EOS flags, one call
after the other, up to and including the first call that reports a frame;
`appended` collects what the spec says each call appends. -/
def do_parse_calls {σ : Type} (klass : GstVaapiDecoderClass σ) :
    List (GstAdapter × Bool) → GstVaapiDecoder σ → GstVideoCodecFrame → ParseRun σ
  | [], decoder, base_frame =>
    { decoder := decoder, base_frame := base_frame, got_frame := false, appended := [] }
  | (adapter, at_eos) :: rest, decoder, base_frame =>
    let r := do_parse klass decoder base_frame adapter at_eos
    let app := (appended_unit klass decoder base_frame adapter at_eos).toList
    if r.got_frame then
      { decoder := r.decoder, base_frame := r.base_frame, got_frame := true, appended := app }
    else
      let run := do_parse_calls klass rest r.decoder r.base_frame
      { run with appended := app ++ run.appended }

/-- The units of a list with offsets set to the running sum of the sizes before
them, starting from `start`. -/
def with_offsets : Nat → List GstVaapiDecoderUnit → List GstVaapiDecoderUnit
  | _, [] => []
  | start, u :: rest => { u with offset := start } :: with_offsets (start + u.size) rest

/-- The sum of the sizes of a list of units. -/
def total_size (units : List GstVaapiDecoderUnit) : Nat :=
  (units.map (fun u => u.size)).sum

/-- The units of a list with the offsets `guint` arithmetic gives them: the
running sum of the sizes before them, starting from `start` and reduced modulo
2^32 after every addition. -/
def with_guint_offsets : Nat → List GstVaapiDecoderUnit → List GstVaapiDecoderUnit
  | _, [] => []
  | start, u :: rest =>
    { u with offset := start } :: with_guint_offsets ((start + u.size) % 4294967296) rest

/-- The sum of `start` and the sizes of a list of units in `guint` arithmetic. -/
def guint_total : Nat → List GstVaapiDecoderUnit → Nat
  | start, [] => start
  | start, u :: rest => guint_total ((start + u.size) % 4294967296) rest

/-- A call of one of the three decode-dispatch hooks. -/
inductive HookCall
  | start_frame (unit : GstVaapiDecoderUnit)
  | decode (unit : GstVaapiDecoderUnit)
  | end_frame
  deriving DecidableEq, Repr

/-- The log entry of a hook call that returned `status`. -/
def HookCall.event (status : GstVaapiDecoderStatus) : HookCall → Event
  | .start_frame u => Event.start_frame u status
  | .decode u => Event.decode u status
  | .end_frame => Event.end_frame status

/-- A hook call ready to be made: which call it is, and the hook applied to its
argument. -/
abbrev BoundCall (σ : Type) : Type :=
  HookCall × (CodecView σ → GstVaapiDecoderStatus × CodecView σ)

/-- Spec §4.3: the calls `do_decode` is to make for a frame, in order, when none
of them fails: `start_frame` on the first unit flagged slice when that hook
exists and there is such a unit, `decode` on every unit not flagged skipped,
`end_frame` when that hook exists. -/
def planned_calls {σ : Type} (klass : GstVaapiDecoderClass σ)
    (units : List GstVaapiDecoderUnit) : List (BoundCall σ) :=
  (match klass.start_frame with
    | some start_frame =>
      ((units.find? (fun u => u.slice)).map
        (fun u => (HookCall.start_frame u, fun view => start_frame view u))).toList
    | none => [])
  ++ (units.filter (fun u => !u.skipped)).map
      (fun u => (HookCall.decode u, fun view => klass.decode view u))
  ++ (match klass.end_frame with
    | some end_frame => [(HookCall.end_frame, end_frame)]
    | none => [])

/-- Make one hook call and record it. -/
def run_call {σ : Type} (decoder : GstVaapiDecoder σ) (c : BoundCall σ) :
    GstVaapiDecoderStatus × GstVaapiDecoder σ :=
  let (status, view) := c.2 decoder.view
  (status, (decoder.setView view).record (c.1.event status))

/-- Spec §4.3: make the calls of a list in order, stopping after the first one
whose status is not `SUCCESS`; that status is the result, `SUCCESS` when every
call succeeds. -/
def run_calls {σ : Type} :
    List (BoundCall σ) → GstVaapiDecoder σ → GstVaapiDecoderStatus × GstVaapiDecoder σ
  | [], decoder => (SUCCESS, decoder)
  | c :: rest, decoder =>
    let (status, decoder) := run_call decoder c
    if status ≠ SUCCESS then (status, decoder)
    else run_calls rest decoder

/-- The decoder as the hooks of `do_decode` first see it: the frame is made
current and the entry into `do_decode` is on the log. -/
def do_decode_entry {σ : Type} (decoder : GstVaapiDecoder σ) (base_frame : GstVideoCodecFrame) :
    GstVaapiDecoder σ :=
  ({ decoder with
      parser_state := { decoder.parser_state with current_frame := some base_frame } }).record
    (Event.do_decode base_frame)

/-- Every status carried by an entry of `es` satisfies `ok`. -/
def StatusesIn (es : List Event) (ok : GstVaapiDecoderStatus → Prop) : Prop :=
  ∀ e ∈ es, ∀ s, e.status? = some s → ok s

/-- The outcome of one parse call on the frame under construction, apart from
what the hook does to its own state. -/
structure ParseCore where
  status : GstVaapiDecoderStatus
  got_unit_size : Nat
  got_frame : Bool
  frame : GstVaapiDecoderFrame
  pending_unit : Option GstVaapiDecoderUnit

/-- Appending a unit to a frame, closing the frame when the unit is flagged
frame-end. -/
def append_core (frame : GstVaapiDecoderFrame) (u : GstVaapiDecoderUnit) : ParseCore :=
  { status := SUCCESS
    got_unit_size := u.size
    got_frame := u.frame_end
    frame := if u.frame_end then got_frame (got_unit frame u) else got_unit frame u
    pending_unit := none }

/-- Spec §4.2 as a function of the pending unit, of what the parse hook returns
when asked, and of the frame under construction. -/
def parse_core (pending : Option GstVaapiDecoderUnit) (res : ParseResult)
    (frame : GstVaapiDecoderFrame) : ParseCore :=
  match pending with
  | some u => append_core frame u
  | none =>
    match res with
    | .failure status _ =>
      { status := status, got_unit_size := 0, got_frame := false, frame := frame
        pending_unit := none }
    | .success u =>
      if u.frame_start && frame.prev_slice.isSome then
        { status := SUCCESS, got_unit_size := 0, got_frame := true, frame := got_frame frame
          pending_unit := some u }
      else append_core frame u

/-- The decoder frame anchored on the current frame, a new one when there is no
current frame or nothing is anchored on it. -/
def current_decoder_frame (ps : GstVaapiParserState) : GstVaapiDecoderFrame :=
  (current_frame_or_new ps).user_data.getD gst_vaapi_decoder_frame_new

/-- The payload attached to a completed frame: everything in the output
adapter, NULL when it is empty. -/
def payload_of (bytes : List Nat) : Option (List Nat) :=
  if bytes = [] then none else some bytes

/-- Pull with `gst_vaapi_decoder_get_surface` again and again until a pull
returns a status other than `SUCCESS`; the result is the decoder then. -/
def pull_until_stop {σ : Type} (klass : GstVaapiDecoderClass σ) :
    Nat → GstVaapiDecoder σ → Option (GstVaapiDecoder σ)
  | 0, _ => none
  | fuel + 1, decoder =>
    match gst_vaapi_decoder_get_surface klass (fuel + 1) decoder with
    | none => none
    | some r =>
      if r.status = SUCCESS then pull_until_stop klass fuel r.decoder
      else some r.decoder

/-- The result of the parse hook depends on the unconsumed input bytes only:
it is `P` of those bytes, whatever the state of the codec and the EOS flag. -/
def ParsesByBytes {σ : Type} (klass : GstVaapiDecoderClass σ) (P : List Nat → ParseResult) :
    Prop :=
  ∀ view adapter at_eos, (klass.parse view adapter at_eos).1 = P adapter.data

/-- The parser reports `ERROR_NO_DATA` until a whole unit is available, and then
returns that unit, which is not empty and lies within the bytes available, for
every extension of those bytes. -/
def WholeUnits (P : List Nat → ParseResult) : Prop :=
  ∀ bytes,
    (∃ h, P bytes = ParseResult.failure ERROR_NO_DATA h)
    ∨ (∃ u, P bytes = ParseResult.success u ∧ 0 < u.size ∧ u.size ≤ bytes.length
        ∧ ∀ more, P (bytes ++ more) = ParseResult.success u)

/-- Every decode-dispatch hook succeeds. -/
def DecodeSucceeds {σ : Type} (klass : GstVaapiDecoderClass σ) : Prop :=
  (∀ view u, (klass.decode view u).1 = SUCCESS)
  ∧ (∀ start_frame, klass.start_frame = some start_frame →
      ∀ view u, (start_frame view u).1 = SUCCESS)
  ∧ (∀ end_frame, klass.end_frame = some end_frame → ∀ view, (end_frame view).1 = SUCCESS)

/-- No hook uses up the last free surface: a hook entered with no context or
with a free surface leaves no context or a free surface. -/
def KeepsSurface {σ : Type} (klass : GstVaapiDecoderClass σ) : Prop :=
  (∀ view adapter at_eos, view.context ≠ some 0 →
      (klass.parse view adapter at_eos).2.context ≠ some 0)
  ∧ (∀ view u, view.context ≠ some 0 → (klass.decode view u).2.context ≠ some 0)
  ∧ (∀ start_frame, klass.start_frame = some start_frame →
      ∀ view u, view.context ≠ some 0 → (start_frame view u).2.context ≠ some 0)
  ∧ (∀ end_frame, klass.end_frame = some end_frame →
      ∀ view, view.context ≠ some 0 → (end_frame view).2.context ≠ some 0)

/-- The part of the parser state that frame assembly depends on: the bytes in
the two adapters, the decoder frame under construction and the pending unit. -/
structure Assembly where
  input : List Nat
  output : List Nat
  frame : GstVaapiDecoderFrame
  pending_unit : Option GstVaapiDecoderUnit

/-- The assembly state held in a parser state. -/
def assembly_of (ps : GstVaapiParserState) : Assembly :=
  { input := ps.input_adapter.data
    output := ps.output_adapter.data
    frame := current_decoder_frame ps
    pending_unit := ps.pending_unit }

/-- More bytes arrive in the input adapter. -/
def Assembly.push (S : Assembly) (more : List Nat) : Assembly :=
  { S with input := S.input ++ more }

/-- A chunk is popped from the Input Queue: its bytes arrive, unless it is the
EOS sentinel. -/
def Assembly.feed (S : Assembly) (b : GstBuffer) : Assembly :=
  if b.eos then S else S.push (b.data.getD [])

/-- One pass through the body of the inner loop of `decode_step` on the
assembly state, for a parser that is a function `P` of the input bytes and
decode hooks that succeed: `none` when the parse fails, else the next state
and the frame handed to `do_decode`, if one was completed. -/
def assembly_step (P : List Nat → ParseResult) (S : Assembly) :
    Option (Assembly × Option GstVideoCodecFrame) :=
  let c := parse_core S.pending_unit (P S.input) S.frame
  if c.status ≠ SUCCESS then none
  else
    let moved := 0 < c.got_unit_size ∧ c.got_unit_size ≤ S.input.length
    let input := if moved then S.input.drop c.got_unit_size else S.input
    let output := if moved then S.output ++ S.input.take c.got_unit_size else S.output
    if c.got_frame then
      some ({ input := input, output := [], frame := gst_vaapi_decoder_frame_new
              pending_unit := c.pending_unit },
            some { user_data := some c.frame, input_buffer := payload_of output })
    else
      some ({ input := input, output := output, frame := c.frame
              pending_unit := c.pending_unit }, none)

/-- A pending unit is not empty and its bytes are in the input adapter. -/
def Assembly.Ready (S : Assembly) : Prop :=
  ∀ u, S.pending_unit = some u → 0 < u.size ∧ u.size ≤ S.input.length

/-- A bound on the number of steps left before the parser needs more input. -/
def Assembly.measure (S : Assembly) : Nat :=
  2 * S.input.length + (if S.pending_unit.isSome then 0 else 1)

/-- Several steps in a row, with the frames completed on the way. -/
inductive Steps (P : List Nat → ParseResult) :
    Assembly → List GstVideoCodecFrame → Assembly → Prop
  | refl (S : Assembly) : Steps P S [] S
  | step {S S1 S2 : Assembly} {o : Option GstVideoCodecFrame} {fs : List GstVideoCodecFrame} :
      assembly_step P S = some (S1, o) → Steps P S1 fs S2 → Steps P S (o.toList ++ fs) S2

/-- Chunks fed one after the other, each followed by steps until the parser
needs more input. -/
inductive Feed (P : List Nat → ParseResult) :
    Assembly → List GstBuffer → List GstVideoCodecFrame → Assembly → Prop
  | nil (S : Assembly) : Feed P S [] [] S
  | cons {S S1 S2 : Assembly} {b : GstBuffer} {rest : List GstBuffer}
      {fs1 fs2 : List GstVideoCodecFrame} :
      Steps P (S.feed b) fs1 S1 → assembly_step P S1 = none → Feed P S1 rest fs2 S2 →
      Feed P S (b :: rest) (fs1 ++ fs2) S2

/-- Lines 257 to 264 of `decode_step`: the decoder once the chunk at the head of
the Input Queue is popped and, unless it is the EOS sentinel, pushed on the
input adapter.  This is the state in which the inner loop starts. -/
def decode_step_feed {σ : Type} (decoder : GstVaapiDecoder σ) (buffer : GstBuffer) :
    GstVaapiDecoder σ :=
  let decoder := (pop_buffer decoder).2
  if !buffer.eos then
    { decoder with parser_state := { decoder.parser_state with
        input_adapter :=
          gst_adapter_push decoder.parser_state.input_adapter (some (buffer.data.getD [])) } }
  else decoder

/-- Every unit the parse hook returns is no larger than the bytes available in
the adapter it was given. -/
def UnitsFit {σ : Type} (klass : GstVaapiDecoderClass σ) : Prop :=
  ∀ (view : CodecView σ) (adapter : GstAdapter) (at_eos : Bool) (u : GstVaapiDecoderUnit)
    (view2 : CodecView σ),
    klass.parse view adapter at_eos = (ParseResult.success u, view2) →
    u.size ≤ gst_adapter_available adapter

/-- The number of bytes of a payload; a NULL payload has none. -/
def payload_size (payload : Option (List Nat)) : Nat :=
  (payload.getD []).length

/-- The bytes in the output adapter are those of the units of the frame under
construction: their count is the sum of the sizes of its units, and the frame's
`output_offset` is that sum modulo 2^32; and a pending unit is no larger than
the bytes in the input adapter. -/
def Conserved (ps : GstVaapiParserState) : Prop :=
  gst_adapter_available ps.output_adapter = total_size (current_decoder_frame ps).units
  ∧ (current_decoder_frame ps).output_offset
      = total_size (current_decoder_frame ps).units % 4294967296
  ∧ ∀ u, ps.pending_unit = some u → u.size ≤ gst_adapter_available ps.input_adapter

/-- The states of an engine driven through submit and pull: a fresh engine, and
from there by `gst_vaapi_decoder_put_buffer`, by popping a chunk and feeding the
input adapter at the top of the outer loop of `decode_step`, by one pass through
the body of its inner loop, and by popping a frame off the Output Queue. -/
inductive Reachable {σ : Type} (klass : GstVaapiDecoderClass σ) (codec : σ) :
    GstVaapiDecoder σ → Prop
  | fresh : Reachable klass codec (gst_vaapi_decoder_init codec)
  | submit (d : GstVaapiDecoder σ) (buf : Option GstBuffer) :
      Reachable klass codec d → Reachable klass codec (gst_vaapi_decoder_put_buffer d buf).2
  | feed (d : GstVaapiDecoder σ) (b : GstBuffer) :
      Reachable klass codec d → d.buffers.head? = some b →
      Reachable klass codec (decode_step_feed d b)
  | pass (d : GstVaapiDecoder σ) (at_eos : Bool) :
      Reachable klass codec d → Reachable klass codec (decode_step_body klass d at_eos).2
  | pull (d : GstVaapiDecoder σ) :
      Reachable klass codec d → Reachable klass codec (pop_frame d).2

/-- The decoder at the top of the inner loop of `decode_step` after `n` passes
through its body that each succeeded and left bytes in the input adapter, so
that the loop went round again; `none` when one of these passes ends the
loop. -/
def inner_passes {σ : Type} (klass : GstVaapiDecoderClass σ) (at_eos : Bool) :
    Nat → GstVaapiDecoder σ → Option (GstVaapiDecoder σ)
  | 0, decoder => some decoder
  | n + 1, decoder =>
    if (decode_step_body klass decoder at_eos).1 = SUCCESS
        ∧ gst_adapter_available
            (decode_step_body klass decoder at_eos).2.parser_state.input_adapter > 0 then
      inner_passes klass at_eos n (decode_step_body klass decoder at_eos).2
    else none

/-- The decoder at the top of the outer loop of `decode_step` after `m` rounds
that each popped a chunk and ended with `ERROR_NO_DATA`, so that the loop went
round again; `fuel` bounds the passes of the inner loop of each round. -/
def outer_rounds {σ : Type} (klass : GstVaapiDecoderClass σ) (fuel : Nat) :
    Nat → GstVaapiDecoder σ → Option (GstVaapiDecoder σ)
  | 0, decoder => some decoder
  | m + 1, decoder =>
    match decoder.buffers with
    | [] => none
    | b :: _ =>
      match decode_step_inner klass b.eos fuel (decode_step_feed decoder b) with
      | none => none
      | some (status, decoder) =>
        if status = ERROR_NO_DATA then outer_rounds klass fuel m decoder else none

/-- The decoder after `k` decode steps of the loop of
`gst_vaapi_decoder_get_surface` that each returned `SUCCESS`, so that the loop
went round again; `fuel` is the fuel of each step. -/
def pull_steps {σ : Type} (klass : GstVaapiDecoderClass σ) (fuel : Nat) :
    Nat → GstVaapiDecoder σ → Option (GstVaapiDecoder σ)
  | 0, decoder => some decoder
  | k + 1, decoder =>
    match decode_step klass fuel decoder with
    | none => none
    | some (status, decoder) =>
      if status = SUCCESS then pull_steps klass fuel k decoder else none

/-! ## A small codec for concrete runs

Every unit is two bytes long, a tag and one byte of body; the tag carries the
flags: bit 0 frame-start, bit 1 frame-end, bit 2 slice, bit 3 skipped.  A tag of
255 is a syntax error. -/

/-- The unit announced by a tag byte. -/
def toy_unit (tag : Nat) : GstVaapiDecoderUnit :=
  { size := 2
    offset := 0
    frame_start := tag % 2 = 1
    frame_end := tag / 2 % 2 = 1
    slice := tag / 4 % 2 = 1
    skipped := tag / 8 % 2 = 1 }

/-- The parser of the small codec: a unit once the two bytes are there. -/
def toy_parse_bytes : List Nat → ParseResult
  | tag :: _ :: _ =>
    if tag = 255 then .failure ERROR_BITSTREAM_PARSER (by decide) else .success (toy_unit tag)
  | _ => .failure ERROR_NO_DATA (by decide)

/-- The hooks of the small codec.  `on_end` is what `end_frame` does to the part
of the decoder it can reach. -/
def toy_klass (on_end : CodecView Unit → CodecView Unit) : GstVaapiDecoderClass Unit :=
  { parse := fun view adapter _ => (toy_parse_bytes adapter.data, view)
    start_frame := some (fun view _ => (SUCCESS, view))
    decode := fun view _ => (SUCCESS, view)
    end_frame := some (fun view => (SUCCESS, on_end view)) }

/-- An `end_frame` that queues the decoded frame. -/
def toy_push (view : CodecView Unit) : CodecView Unit :=
  gst_vaapi_decoder_push_frame view g_slice_new0

/-- An `end_frame` that takes the last free surface of the context. -/
def toy_take_surface (view : CodecView Unit) : CodecView Unit :=
  { view with context := some 0 }

/-- A non-empty chunk without the EOS flag. -/
def chunk (bytes : List Nat) : Option GstBuffer :=
  some { data := some bytes, eos := false }

/-- Submit chunks one after the other. -/
def put_buffers {σ : Type} (decoder : GstVaapiDecoder σ) :
    List (Option GstBuffer) → GstVaapiDecoder σ
  | [] => decoder
  | b :: rest => put_buffers (gst_vaapi_decoder_put_buffer decoder b).2 rest

/-- A frame under construction that holds two slices, latest first. -/
def toy_two_slices : GstVideoCodecFrame :=
  { user_data := some (got_unit (got_unit gst_vaapi_decoder_frame_new (toy_unit 4)) (toy_unit 4))
    input_buffer := none }

/-- The frame of `toy_two_slices` once completed: the two slices in stream
order. -/
def toy_two_slices_done : GstVideoCodecFrame :=
  { user_data := some
      { units := [{ toy_unit 4 with offset := 0 }, { toy_unit 4 with offset := 2 }]
        output_offset := 4
        prev_slice := some { toy_unit 4 with offset := 2 } }
    input_buffer := none }

/-- A fresh decoder whose parser state holds a pending frame-start unit. -/
def toy_pending : GstVaapiDecoder Unit :=
  { gst_vaapi_decoder_init () with
    parser_state :=
      { (gst_vaapi_decoder_init ()).parser_state with pending_unit := some (toy_unit 1) } }

/-- Four parse calls: a slice, nothing yet, a skipped slice, a closing slice. -/
def toy_calls : List (GstAdapter × Bool) :=
  [({ id := 0, data := [4, 7] }, false), ({ id := 0, data := [12] }, false),
   ({ id := 0, data := [12, 8] }, false), ({ id := 0, data := [6, 9] }, false)]

/-- A fresh decoder whose hardware context has no free surface. -/
def toy_no_surface : GstVaapiDecoder Unit :=
  { gst_vaapi_decoder_init () with context := some 0 }

/-- A fresh decoder with one chunk queued: a single slice that closes its
frame. -/
def toy_one_frame_queued : GstVaapiDecoder Unit :=
  put_buffers (gst_vaapi_decoder_init ()) [chunk [6, 0]]

/-- A fresh decoder with one decoded frame in the Output Queue. -/
def toy_decoded : GstVaapiDecoder Unit :=
  push_frame (gst_vaapi_decoder_init ()) g_slice_new0

/-- A fresh decoder with one chunk queued: a slice that closes its frame,
followed by a syntax error. -/
def toy_error_queued : GstVaapiDecoder Unit :=
  put_buffers (gst_vaapi_decoder_init ()) [chunk [6, 0, 255, 0]]

/-- The decoder after a pull on one queued chunk that holds a single slice:
the slice sits in the current frame, which is still open. -/
def toy_partial : GstVaapiDecoder Unit :=
  ((gst_vaapi_decoder_get_surface (toy_klass id) 3
      (put_buffers (gst_vaapi_decoder_init ()) [chunk [4, 0]])).map
    (fun r => r.decoder)).getD (gst_vaapi_decoder_init ())

/-- A codec whose parser hands out everything left in the adapter as one
closing slice once the end of the stream is signalled. -/
def toy_flushing_klass : GstVaapiDecoderClass Unit :=
  { toy_klass id with
    parse := fun view adapter at_eos =>
      if at_eos then
        (.success { size := adapter.data.length, offset := 0, frame_start := false
                    frame_end := true, slice := true, skipped := false }, view)
      else (toy_parse_bytes adapter.data, view) }

/-- The parser of the small codec without the syntax error: every pair of bytes
is a unit. -/
def toy_whole_units : List Nat → ParseResult
  | tag :: _ :: _ => .success (toy_unit tag)
  | _ => .failure ERROR_NO_DATA (by decide)

/-- The small codec without the syntax error.  `on_end` is what `end_frame`
does to the part of the decoder it can reach. -/
def toy_units_klass (on_end : CodecView Unit → CodecView Unit) : GstVaapiDecoderClass Unit :=
  { toy_klass on_end with
    parse := fun view adapter _ => (toy_whole_units adapter.data, view) }

/-- The parser of a length-prefixed variant of the small codec: the byte after
the tag is the size the unit announces for itself. -/
def toy_sized_parse : List Nat → ParseResult
  | tag :: size :: _ => .success { toy_unit tag with size := size }
  | _ => .failure ERROR_NO_DATA (by decide)

/-- The small codec with length-prefixed units. -/
def toy_sized_klass : GstVaapiDecoderClass Unit :=
  { toy_klass id with
    parse := fun view adapter _ => (toy_sized_parse adapter.data, view) }

/-- Two parse calls on a length-prefixed stream: a slice and a closing slice,
both announcing a size of zero. -/
def toy_empty_calls : List (GstAdapter × Bool) :=
  [({ id := 0, data := [4, 0] }, false), ({ id := 0, data := [6, 0] }, false)]

/-- Two parse calls on a length-prefixed stream: a slice of three bytes and a
closing slice of five. -/
def toy_sized_calls : List (GstAdapter × Bool) :=
  [({ id := 0, data := [4, 3, 0] }, false), ({ id := 0, data := [6, 5, 0, 0, 0] }, false)]

/-- The small codec with a `decode` hook that always fails. -/
def toy_broken_klass : GstVaapiDecoderClass Unit :=
  { toy_klass id with decode := fun view _ => (ERROR_UNKNOWN, view) }

/-- The decoder of `toy_partial`, whose current frame holds one slice, with one
more chunk queued: a slice that closes the frame. -/
def toy_partial_closing : GstVaapiDecoder Unit :=
  put_buffers toy_partial [chunk [6, 0]]

/-- The decoder of `toy_partial`, whose current frame holds one slice, with one
more chunk queued: a syntax error. -/
def toy_partial_error : GstVaapiDecoder Unit :=
  put_buffers toy_partial [chunk [255, 0]]

/-- Three parse calls on a length-prefixed stream whose units announce the sizes
4294967295, 2 and 1; the third unit closes the frame. -/
def toy_wrap_calls : List (GstAdapter × Bool) :=
  [({ id := 0, data := [4, 4294967295] }, false), ({ id := 0, data := [4, 2] }, false),
   ({ id := 0, data := [6, 1] }, false)]

/-- An open slice of `size` bytes. -/
def toy_bulk_unit (size : Nat) : GstVaapiDecoderUnit :=
  { size := size, offset := 0, frame_start := false, frame_end := false, slice := true,
    skipped := false }

/-- A codec whose parser hands out all the bytes in the adapter as one open
slice, at most 4294967295 of them at a time. -/
def toy_bulk_klass : GstVaapiDecoderClass Unit :=
  { toy_klass id with
    parse := fun view adapter _ =>
      if adapter.data = [] then (.failure ERROR_NO_DATA (by decide), view)
      else (.success (toy_bulk_unit (min adapter.data.length 4294967295)), view) }

/-- A fresh engine after a chunk of `bytes` was submitted and fed to the input
adapter. -/
def toy_bulk_fed (bytes : List Nat) : GstVaapiDecoder Unit :=
  decode_step_feed (gst_vaapi_decoder_put_buffer (gst_vaapi_decoder_init ()) (chunk bytes)).2
    { data := some bytes, eos := false }

/-- The engine of `toy_bulk_fed` after one pass through the body of the inner
loop with the bulk parser. -/
def toy_bulk_parsed (bytes : List Nat) : GstVaapiDecoder Unit :=
  (decode_step_body toy_bulk_klass (toy_bulk_fed bytes) false).2

/-- The engine of `toy_bulk_parsed` after a chunk of two more bytes was
submitted and fed to the input adapter. -/
def toy_bulk_fed_again (bytes : List Nat) : GstVaapiDecoder Unit :=
  decode_step_feed (gst_vaapi_decoder_put_buffer (toy_bulk_parsed bytes) (chunk [0, 0])).2
    { data := some [0, 0], eos := false }

/-- The engine of `toy_bulk_fed_again` after one more pass through the body of
the inner loop with the bulk parser. -/
def toy_bulk_state (bytes : List Nat) : GstVaapiDecoder Unit :=
  (decode_step_body toy_bulk_klass (toy_bulk_fed_again bytes) false).2

/-- A completed frame of three units: a skipped unit that is no slice, a slice,
and a slice that closes the frame. -/
def toy_skipped_frame : GstVideoCodecFrame :=
  { user_data := some
      { units := [{ toy_unit 8 with offset := 0 }, { toy_unit 4 with offset := 2 },
                  { toy_unit 6 with offset := 4 }]
        output_offset := 6
        prev_slice := some { toy_unit 6 with offset := 4 } }
    input_buffer := some [8, 0, 4, 0, 6, 0] }

/-- A fresh decoder with two chunks queued: half a unit, then the rest of that
unit, a slice, followed by a syntax error. -/
def toy_error_later : GstVaapiDecoder Unit :=
  put_buffers (gst_vaapi_decoder_init ()) [chunk [4], chunk [0, 255, 0]]

/-- The decoder after a pull on one queued chunk that holds a slice and one more
byte: the slice sits in the current frame, which is still open, and the byte is
left in the input adapter. -/
def toy_partial_rest : GstVaapiDecoder Unit :=
  ((gst_vaapi_decoder_get_surface (toy_klass id) 3
      (put_buffers (gst_vaapi_decoder_init ()) [chunk [4, 0, 9]])).map
    (fun r => r.decoder)).getD (gst_vaapi_decoder_init ())

/-- A codec whose parser, once the end of the stream is signalled, hands out
everything left in the adapter as one unit flagged frame-start and
frame-end. -/
def toy_restart_klass : GstVaapiDecoderClass Unit :=
  { toy_klass id with
    parse := fun view adapter at_eos =>
      if at_eos then
        (.success { size := adapter.data.length, offset := 0, frame_start := true
                    frame_end := true, slice := true, skipped := false }, view)
      else (toy_parse_bytes adapter.data, view) }

/-! ## Theorems -/

@[simp] theorem parser_state_prepare_pending_unit (ps : GstVaapiParserState) (a : GstAdapter) :
    (parser_state_prepare ps a).pending_unit = ps.pending_unit := by
  unfold parser_state_prepare; split <;> rfl

/-- The result of `do_parse` when a unit is pending. -/
theorem do_parse_of_pending {σ : Type} (klass : GstVaapiDecoderClass σ)
    (decoder : GstVaapiDecoder σ) (base_frame : GstVideoCodecFrame) (adapter : GstAdapter)
    (at_eos : Bool) (u : GstVaapiDecoderUnit)
    (hpending : decoder.parser_state.pending_unit = some u) :
    do_parse klass decoder base_frame adapter at_eos =
      { status := SUCCESS
        decoder := { decoder with parser_state :=
          { (parser_state_prepare decoder.parser_state adapter) with pending_unit := none } }
        base_frame := { base_frame with user_data := some (if u.frame_end then
            got_frame (got_unit (base_frame.user_data.getD gst_vaapi_decoder_frame_new) u)
           else got_unit (base_frame.user_data.getD gst_vaapi_decoder_frame_new) u) }
        got_unit_size := u.size
        got_frame := u.frame_end } := by
  have h2 : (parser_state_prepare decoder.parser_state adapter).pending_unit = some u := by
    simpa using hpending
  unfold do_parse
  simp only [parser_state_get_pending_unit, h2]
  cases base_frame.user_data <;> rfl

/-- The result of `do_parse` when no unit is pending. -/
theorem do_parse_of_no_pending {σ : Type} (klass : GstVaapiDecoderClass σ)
    (decoder : GstVaapiDecoder σ) (base_frame : GstVideoCodecFrame) (adapter : GstAdapter)
    (at_eos : Bool)
    (hpending : decoder.parser_state.pending_unit = none) :
    do_parse klass decoder base_frame adapter at_eos =
      let frame := base_frame.user_data.getD gst_vaapi_decoder_frame_new
      let ps := parser_state_prepare decoder.parser_state adapter
      let res := (klass.parse decoder.view adapter at_eos).1
      let view := (klass.parse decoder.view adapter at_eos).2
      let decoder := (decoder.setView view).record
        (Event.parse adapter.data at_eos res.status res.unit)
      match res with
      | .failure status _ =>
        let base_frame := { base_frame with user_data := some frame }
        { status := status
          decoder := { decoder with
            parser_state := { ps with current_frame := some base_frame } }
          base_frame := base_frame
          got_unit_size := 0
          got_frame := false }
      | .success unit =>
        if unit.frame_start && frame.prev_slice.isSome then
          let base_frame := { base_frame with user_data := some (got_frame frame) }
          { status := SUCCESS
            decoder := { decoder with
              parser_state := { ps with current_frame := some base_frame, pending_unit := some unit } }
            base_frame := base_frame
            got_unit_size := 0
            got_frame := true }
        else
          let frame := if unit.frame_end then got_frame (got_unit frame unit) else got_unit frame unit
          let base_frame := { base_frame with user_data := some frame }
          { status := SUCCESS
            decoder := { decoder with
              parser_state := { ps with current_frame := some base_frame } }
            base_frame := base_frame
            got_unit_size := unit.size
            got_frame := unit.frame_end } := by
  have h2 : (parser_state_prepare decoder.parser_state adapter).pending_unit = none := by
    simpa using hpending
  have h3 : ({ (parser_state_prepare decoder.parser_state adapter) with pending_unit := none } :
      GstVaapiParserState) = parser_state_prepare decoder.parser_state adapter := by
    cases h : parser_state_prepare decoder.parser_state adapter
    simp_all
  unfold do_parse
  simp only [parser_state_get_pending_unit, h2, h3, parser_state_set_pending_unit]
  cases base_frame.user_data <;> rfl

theorem with_offsets_append (start : Nat) (xs ys : List GstVaapiDecoderUnit) :
    with_offsets start (xs ++ ys) = with_offsets start xs ++ with_offsets (start + total_size xs) ys := by
  induction xs generalizing start with
  | nil => simp [with_offsets, total_size]
  | cons x xs ih =>
    simp [with_offsets, total_size, ih, Nat.add_assoc]

theorem with_offsets_length (start : Nat) (xs : List GstVaapiDecoderUnit) :
    (with_offsets start xs).length = xs.length := by
  induction xs generalizing start with
  | nil => rfl
  | cons x xs ih => simp [with_offsets, ih]

theorem with_offsets_get (start : Nat) (xs : List GstVaapiDecoderUnit) (i : Nat)
    (h : i < (with_offsets start xs).length) :
    ((with_offsets start xs).get ⟨i, h⟩).offset = start + total_size (xs.take i) := by
  induction xs generalizing start i with
  | nil => simp [with_offsets] at h
  | cons x xs ih =>
    cases i with
    | zero => simp [with_offsets, total_size]
    | succ i =>
      simp only [with_offsets, List.get_eq_getElem, List.getElem_cons_succ, List.take_succ_cons]
      have h2 : i < (with_offsets (start + x.size) xs).length := by
        simpa [with_offsets] using h
      have := ih (start + x.size) i h2
      simp only [List.get_eq_getElem] at this
      rw [this]
      simp [total_size, Nat.add_assoc]

theorem with_guint_offsets_length (start : Nat) (xs : List GstVaapiDecoderUnit) :
    (with_guint_offsets start xs).length = xs.length := by
  induction xs generalizing start with
  | nil => rfl
  | cons x xs ih => simp [with_guint_offsets, ih]

theorem with_guint_offsets_get (start : Nat) (xs : List GstVaapiDecoderUnit) (i : Nat)
    (h : i < (with_guint_offsets start xs).length) (hstart : start < 4294967296) :
    ((with_guint_offsets start xs).get ⟨i, h⟩).offset
      = (start + total_size (xs.take i)) % 4294967296 := by
  induction xs generalizing start i with
  | nil => simp [with_guint_offsets] at h
  | cons x xs ih =>
    cases i with
    | zero => simp [with_guint_offsets, total_size, Nat.mod_eq_of_lt hstart]
    | succ i =>
      simp only [with_guint_offsets, List.get_eq_getElem, List.getElem_cons_succ,
        List.take_succ_cons]
      have h2 : i < (with_guint_offsets ((start + x.size) % 4294967296) xs).length := by
        simpa [with_guint_offsets] using h
      have := ih ((start + x.size) % 4294967296) i h2 (Nat.mod_lt _ (by decide))
      simp only [List.get_eq_getElem] at this
      rw [this]
      simp only [total_size, List.map_cons, List.sum_cons]
      omega

theorem guint_total_eq (start : Nat) (xs : List GstVaapiDecoderUnit)
    (hstart : start < 4294967296) :
    guint_total start xs = (start + total_size xs) % 4294967296 := by
  induction xs generalizing start with
  | nil => simp [guint_total, total_size, Nat.mod_eq_of_lt hstart]
  | cons x xs ih =>
    simp only [guint_total]
    rw [ih _ (Nat.mod_lt _ (by decide))]
    simp only [total_size, List.map_cons, List.sum_cons]
    omega

theorem with_guint_offsets_of_bound (start : Nat) (xs : List GstVaapiDecoderUnit)
    (hbound : start + total_size xs < 4294967296) :
    with_guint_offsets start xs = with_offsets start xs := by
  induction xs generalizing start with
  | nil => rfl
  | cons x xs ih =>
    simp only [total_size, List.map_cons, List.sum_cons] at hbound
    have hx : (start + x.size) % 4294967296 = start + x.size :=
      Nat.mod_eq_of_lt (by omega)
    simp only [with_guint_offsets, with_offsets, hx]
    rw [ih (start + x.size) (by simp only [total_size]; omega)]

theorem do_parse_calls_frame {σ : Type} (klass : GstVaapiDecoderClass σ)
    (calls : List (GstAdapter × Bool)) :
    ∀ (decoder : GstVaapiDecoder σ) (base_frame : GstVideoCodecFrame),
    (do_parse_calls klass calls decoder base_frame).got_frame = true →
    ∃ fr, (do_parse_calls klass calls decoder base_frame).base_frame.user_data = some fr
      ∧ fr.units = (base_frame.user_data.getD gst_vaapi_decoder_frame_new).units.reverse
          ++ with_guint_offsets
              (base_frame.user_data.getD gst_vaapi_decoder_frame_new).output_offset
              (do_parse_calls klass calls decoder base_frame).appended
      ∧ fr.output_offset
          = guint_total (base_frame.user_data.getD gst_vaapi_decoder_frame_new).output_offset
              (do_parse_calls klass calls decoder base_frame).appended := by
  induction calls with
  | nil => intro d bf h; simp [do_parse_calls] at h
  | cons c rest ih =>
    obtain ⟨adapter, at_eos⟩ := c
    intro d bf h
    cases hp : d.parser_state.pending_unit with
    | some u =>
      have hr := do_parse_of_pending klass d bf adapter at_eos u hp
      have ha : appended_unit klass d bf adapter at_eos = some u := by
        simp [appended_unit, hp]
      simp only [do_parse_calls, hr, ha] at h ⊢
      by_cases hfe : u.frame_end = true
      · simp [hfe, got_frame, got_unit, with_guint_offsets, guint_total]
      · simp only [hfe] at h ⊢
        simp only [Bool.false_eq_true, ↓reduceIte] at h ⊢
        obtain ⟨fr, h1, h2, h3⟩ := ih _ _ h
        refine ⟨fr, h1, ?_, ?_⟩
        · rw [h2]; simp [got_unit, with_guint_offsets]
        · rw [h3]; simp [got_unit, guint_total]
    | none =>
      have hr := do_parse_of_no_pending klass d bf adapter at_eos hp
      cases hres : (klass.parse d.view adapter at_eos).1 with
      | failure s hs =>
        simp only [hres] at hr
        have ha : appended_unit klass d bf adapter at_eos = none := by
          simp [appended_unit, hp, hres]
        simp only [do_parse_calls, hr, ha] at h ⊢
        simp only [Bool.false_eq_true, ↓reduceIte] at h ⊢
        obtain ⟨fr, h1, h2, h3⟩ := ih _ _ h
        exact ⟨fr, h1, by simpa using h2, by simpa using h3⟩
      | success u =>
        simp only [hres] at hr
        have hslice : (match bf.user_data with
            | some f => f.prev_slice.isSome
            | none => false) = (bf.user_data.getD gst_vaapi_decoder_frame_new).prev_slice.isSome := by
          cases bf.user_data <;> rfl
        by_cases hla : (u.frame_start
            && (bf.user_data.getD gst_vaapi_decoder_frame_new).prev_slice.isSome) = true
        · have ha : appended_unit klass d bf adapter at_eos = none := by
            simp only [appended_unit, hp, hres, hslice, hla]; rfl
          simp only [hla, ↓reduceIte] at hr
          simp only [do_parse_calls, hr, ha]
          simp [got_frame, with_guint_offsets, guint_total]
        · have ha : appended_unit klass d bf adapter at_eos = some u := by
            simp only [appended_unit, hp, hres, hslice, hla]; rfl
          simp only [hla] at hr
          simp only [do_parse_calls, hr, ha] at h ⊢
          by_cases hfe : u.frame_end = true
          · simp [hfe, got_frame, got_unit, with_guint_offsets, guint_total]
          · simp only [hfe] at h ⊢
            simp only [Bool.false_eq_true, ↓reduceIte] at h ⊢
            obtain ⟨fr, h1, h2, h3⟩ := ih _ _ h
            refine ⟨fr, h1, ?_, ?_⟩
            · rw [h2]; simp [got_unit, with_guint_offsets]
            · rw [h3]; simp [got_unit, guint_total]

/-- C2: split-frame lookahead in `do_parse`.  First part: for every frame that
already has a recorded last slice, with no pending unit, when the parse hook
succeeds with a unit `u` flagged frame-start, `do_parse` returns `SUCCESS` with
`got_frame` set and a reported unit size of 0, stores `u` as the pending unit,
and leaves the frame with the units appended before, now in stream order, and
`output_offset` unchanged.  Second part: for three calls on a new frame in which
the hook returns a slice, a slice and then a frame-start unit, none flagged
frame-end, the third call completes the frame with exactly the two slices. -/
theorem do_parse_split_frame_lookahead {σ : Type} (klass : GstVaapiDecoderClass σ) :
    (∀ (decoder : GstVaapiDecoder σ) (base_frame : GstVideoCodecFrame) (adapter : GstAdapter)
        (at_eos : Bool) (fr : GstVaapiDecoderFrame) (s u : GstVaapiDecoderUnit)
        (view : CodecView σ),
        base_frame.user_data = some fr → fr.prev_slice = some s →
        decoder.parser_state.pending_unit = none →
        klass.parse decoder.view adapter at_eos = (ParseResult.success u, view) →
        u.frame_start = true →
        (do_parse klass decoder base_frame adapter at_eos).status = SUCCESS
        ∧ (do_parse klass decoder base_frame adapter at_eos).got_frame = true
        ∧ (do_parse klass decoder base_frame adapter at_eos).got_unit_size = 0
        ∧ (do_parse klass decoder base_frame adapter at_eos).decoder.parser_state.pending_unit
            = some u
        ∧ (do_parse klass decoder base_frame adapter at_eos).base_frame.user_data
            = some { units := fr.units.reverse
                     output_offset := fr.output_offset
                     prev_slice := fr.prev_slice })
    ∧ (∀ (decoder : GstVaapiDecoder σ) (a1 a2 a3 : GstAdapter) (e1 e2 e3 : Bool)
        (s1 s2 u3 : GstVaapiDecoderUnit) (v1 v2 v3 : CodecView σ),
        decoder.parser_state.pending_unit = none →
        klass.parse decoder.view a1 e1 = (ParseResult.success s1, v1) →
        klass.parse v1 a2 e2 = (ParseResult.success s2, v2) →
        klass.parse v2 a3 e3 = (ParseResult.success u3, v3) →
        s1.slice = true → s1.frame_end = false →
        s2.slice = true → s2.frame_end = false → s2.frame_start = false →
        u3.frame_start = true →
        ∃ r1 r2 r3,
          r1 = do_parse klass decoder g_slice_new0 a1 e1
          ∧ r2 = do_parse klass r1.decoder r1.base_frame a2 e2
          ∧ r3 = do_parse klass r2.decoder r2.base_frame a3 e3
          ∧ r1.got_frame = false ∧ r2.got_frame = false
          ∧ r3.status = SUCCESS ∧ r3.got_frame = true ∧ r3.got_unit_size = 0
          ∧ r3.decoder.parser_state.pending_unit = some u3
          ∧ ∃ fr, r3.base_frame.user_data = some fr
              ∧ fr.units = [{ s1 with offset := 0 }, { s2 with offset := s1.size % 4294967296 }]
              ∧ fr.output_offset = (s1.size % 4294967296 + s2.size) % 4294967296) := by
  constructor
  · intro d bf a e fr s u v hbf hs hp hparse hstart
    have hr := do_parse_of_no_pending klass d bf a e hp
    simp only [hparse, hbf, Option.getD_some, hstart, hs, Option.isSome_some, Bool.and_self,
      ↓reduceIte] at hr
    rw [hr]
    simp [got_frame, hs]
  · intro d a1 a2 a3 e1 e2 e3 s1 s2 u3 v1 v2 v3 hp h1 h2 h3 hs1 he1 hs2 he2 hf2 hf3
    have hr1 := do_parse_of_no_pending klass d g_slice_new0 a1 e1 hp
    have hg : g_slice_new0.user_data = none := rfl
    simp only [h1, hg, Option.getD_none, gst_vaapi_decoder_frame_new,
      Option.isSome_none, Bool.and_false, Bool.false_eq_true, ↓reduceIte, he1] at hr1
    have hp1 : (do_parse klass d g_slice_new0 a1 e1).decoder.parser_state.pending_unit = none := by
      rw [hr1]; simpa using hp
    have hv1 : (do_parse klass d g_slice_new0 a1 e1).decoder.view = v1 := by
      rw [hr1]; rfl
    have hr2 := do_parse_of_no_pending klass _ (do_parse klass d g_slice_new0 a1 e1).base_frame
      a2 e2 hp1
    rw [hv1] at hr2
    simp only [h2, hf2, Bool.false_and, Bool.false_eq_true, ↓reduceIte, he2] at hr2
    have hp2 : (do_parse klass (do_parse klass d g_slice_new0 a1 e1).decoder
        (do_parse klass d g_slice_new0 a1 e1).base_frame a2 e2).decoder.parser_state.pending_unit
        = none := by
      rw [hr2]; simpa using hp1
    have hv2 : (do_parse klass (do_parse klass d g_slice_new0 a1 e1).decoder
        (do_parse klass d g_slice_new0 a1 e1).base_frame a2 e2).decoder.view = v2 := by
      rw [hr2]; rfl
    have hr3 := do_parse_of_no_pending klass _ (do_parse klass (do_parse klass d g_slice_new0 a1 e1).decoder
        (do_parse klass d g_slice_new0 a1 e1).base_frame a2 e2).base_frame a3 e3 hp2
    rw [hv2] at hr3
    simp only [h3, hf3, Bool.true_and] at hr3
    refine ⟨_, _, _, rfl, rfl, rfl, ?_, ?_, ?_⟩
    · rw [hr1]
    · rw [hr2]
    · have hb2 : (do_parse klass (do_parse klass d g_slice_new0 a1 e1).decoder
        (do_parse klass d g_slice_new0 a1 e1).base_frame a2 e2).base_frame.user_data
          = some (got_unit (got_unit gst_vaapi_decoder_frame_new s1) s2) := by
        rw [hr2]
        simp only [Option.getD]
        rw [hr1]
        rfl
      rw [hb2] at hr3
      simp only [Option.getD_some, got_unit, hs2, ↓reduceIte, Option.isSome_some] at hr3
      rw [hr3]
      simp [got_frame, gst_vaapi_decoder_frame_new, hs1, hs2]

theorem do_parse_split_frame_lookahead_witness :
    (do_parse (toy_klass id) (gst_vaapi_decoder_init ()) toy_two_slices
        { id := 0, data := [1, 9] } false).got_frame = true
    ∧ (do_parse (toy_klass id) (gst_vaapi_decoder_init ()) toy_two_slices
        { id := 0, data := [1, 9] } false).decoder.parser_state.pending_unit = some (toy_unit 1)
    ∧ (do_parse (toy_klass id) (gst_vaapi_decoder_init ()) toy_two_slices
        { id := 0, data := [1, 9] } false).base_frame = toy_two_slices_done
    ∧ ∃ r1 r2 r3,
        r1 = do_parse (toy_klass id) (gst_vaapi_decoder_init ()) g_slice_new0
          { id := 0, data := [4, 7] } false
        ∧ r2 = do_parse (toy_klass id) r1.decoder r1.base_frame { id := 0, data := [4, 8] } false
        ∧ r3 = do_parse (toy_klass id) r2.decoder r2.base_frame { id := 0, data := [1, 9] } false
        ∧ r3.got_frame = true
        ∧ r3.decoder.parser_state.pending_unit = some (toy_unit 1)
        ∧ r3.base_frame = toy_two_slices_done := by
  have hgen := (do_parse_split_frame_lookahead (toy_klass id)).1 (gst_vaapi_decoder_init ())
    toy_two_slices { id := 0, data := [1, 9] } false _ _ (toy_unit 1) _ rfl rfl rfl rfl rfl
  have hpart := (do_parse_split_frame_lookahead (toy_klass id)).2 (gst_vaapi_decoder_init ())
    { id := 0, data := [4, 7] } { id := 0, data := [4, 8] } { id := 0, data := [1, 9] }
    false false false (toy_unit 4) (toy_unit 4) (toy_unit 1) _ _ _ rfl rfl rfl rfl
    rfl rfl rfl rfl rfl rfl
  obtain ⟨r1, r2, r3, e1, e2, e3, -, -, -, g3, -, p3, -⟩ := hpart
  refine ⟨hgen.2.1, hgen.2.2.2.1, by decide, r1, r2, r3, e1, e2, e3, g3, p3, ?_⟩
  subst e1; subst e2; subst e3
  decide

/-- C3: a pending unit is consumed first and never parsed again.  For every
decoder whose parser state holds a pending unit `u`, `do_parse` succeeds,
reports the size of `u`, clears the pending unit, makes no hook call (the log
and everything a hook can reach are unchanged, and the result is the same for
every hook table), and puts `u` into the frame passed in at offset
`output_offset` of that frame, as the only unit at offset 0 when the frame is
new. -/
theorem do_parse_consumes_pending_unit {σ : Type} (klass : GstVaapiDecoderClass σ)
    (decoder : GstVaapiDecoder σ) (base_frame : GstVideoCodecFrame) (adapter : GstAdapter)
    (at_eos : Bool) (u : GstVaapiDecoderUnit)
    (hpending : decoder.parser_state.pending_unit = some u) :
    (do_parse klass decoder base_frame adapter at_eos).status = SUCCESS
    ∧ (do_parse klass decoder base_frame adapter at_eos).got_unit_size = u.size
    ∧ (do_parse klass decoder base_frame adapter at_eos).decoder.parser_state.pending_unit = none
    ∧ (do_parse klass decoder base_frame adapter at_eos).decoder.log = decoder.log
    ∧ (do_parse klass decoder base_frame adapter at_eos).decoder.view = decoder.view
    ∧ (∀ other : GstVaapiDecoderClass σ,
        do_parse other decoder base_frame adapter at_eos
          = do_parse klass decoder base_frame adapter at_eos)
    ∧ (∃ fr, (do_parse klass decoder base_frame adapter at_eos).base_frame.user_data = some fr
        ∧ fr.units =
            (if u.frame_end then
              ({ u with offset :=
                  (base_frame.user_data.getD gst_vaapi_decoder_frame_new).output_offset }
                :: (base_frame.user_data.getD gst_vaapi_decoder_frame_new).units).reverse
             else
              { u with offset :=
                  (base_frame.user_data.getD gst_vaapi_decoder_frame_new).output_offset }
                :: (base_frame.user_data.getD gst_vaapi_decoder_frame_new).units)
        ∧ fr.output_offset =
            ((base_frame.user_data.getD gst_vaapi_decoder_frame_new).output_offset + u.size)
              % 4294967296)
    ∧ (base_frame.user_data = none →
        ∃ fr, (do_parse klass decoder base_frame adapter at_eos).base_frame.user_data = some fr
          ∧ fr.units = [{ u with offset := 0 }]) := by
  have hr := do_parse_of_pending klass decoder base_frame adapter at_eos u hpending
  refine ⟨by rw [hr], by rw [hr], by rw [hr], by rw [hr], by rw [hr]; rfl, ?_, ?_, ?_⟩
  · intro other
    rw [hr, do_parse_of_pending other decoder base_frame adapter at_eos u hpending]
  · rw [hr]
    by_cases hfe : u.frame_end = true <;> simp [hfe, got_frame, got_unit]
  · intro hnone
    rw [hr, hnone]
    by_cases hfe : u.frame_end = true <;>
      simp [hfe, got_frame, got_unit, gst_vaapi_decoder_frame_new]

theorem do_parse_consumes_pending_unit_witness :
    toy_pending.parser_state.pending_unit = some (toy_unit 1)
    ∧ (do_parse (toy_klass id) toy_pending g_slice_new0 { id := 0, data := [1, 9] } false).status
        = SUCCESS
    ∧ (do_parse (toy_klass id) toy_pending g_slice_new0
        { id := 0, data := [1, 9] } false).got_unit_size = 2
    ∧ (do_parse (toy_klass id) toy_pending g_slice_new0
        { id := 0, data := [1, 9] } false).decoder.log = [] := by
  have h := do_parse_consumes_pending_unit (toy_klass id) toy_pending g_slice_new0
    { id := 0, data := [1, 9] } false (toy_unit 1) rfl
  exact ⟨rfl, h.1, h.2.1, h.2.2.2.1⟩

theorem total_size_take_le (xs : List GstVaapiDecoderUnit) (i : Nat) :
    total_size (xs.take i) ≤ total_size xs := by
  induction xs generalizing i with
  | nil => simp [total_size]
  | cons x xs ih =>
    cases i with
    | zero => simp [total_size]
    | succ i =>
      have := ih i
      simp only [total_size, List.take_succ_cons, List.map_cons, List.sum_cons] at this ⊢
      omega

/-- C4 (counterexample): three `do_parse` calls on a new frame in which the hook
returns units of sizes 4294967295, 2 and 1, the last one flagged frame-end.  The
frame completes with the three units in order, but the third unit gets offset 1
and `output_offset` ends at 2, where the sums of the sizes are 4294967297 and
4294967298: the `guint` addition `output_offset += size` wrapped at 2^32. -/
theorem offsets_wrap_at_guint :
    (do_parse_calls toy_sized_klass toy_wrap_calls (gst_vaapi_decoder_init ())
        g_slice_new0).got_frame = true
    ∧ (do_parse_calls toy_sized_klass toy_wrap_calls (gst_vaapi_decoder_init ())
        g_slice_new0).appended.map (fun u => u.size) = [4294967295, 2, 1]
    ∧ (do_parse_calls toy_sized_klass toy_wrap_calls (gst_vaapi_decoder_init ())
        g_slice_new0).base_frame.user_data.map
          (fun f => (f.units.map (fun u => (u.size, u.offset)), f.output_offset))
        = some ([(4294967295, 0), (2, 4294967295), (1, 1)], 2) := by
  decide

/-- C4 (amended): stream order and running-sum offsets.  For every sequence of
`do_parse` calls made on a new frame, up to and including the first call that
reports `got_frame`, the unit list of the frame is then the list of the
appended units in the order they were appended, the offset of each unit is the
sum of the sizes of the units appended before it taken modulo 2^32, and
`output_offset` is the sum of the sizes of all appended units taken modulo
2^32.  When the sizes of the appended units add up to less than 2^32, the
offsets and `output_offset` are these sums themselves. -/
theorem do_parse_stream_order {σ : Type} (klass : GstVaapiDecoderClass σ)
    (calls : List (GstAdapter × Bool)) (decoder : GstVaapiDecoder σ)
    (hgot : (do_parse_calls klass calls decoder g_slice_new0).got_frame = true) :
    ∃ fr, (do_parse_calls klass calls decoder g_slice_new0).base_frame.user_data = some fr
      ∧ fr.units
          = with_guint_offsets 0 (do_parse_calls klass calls decoder g_slice_new0).appended
      ∧ fr.units.length = (do_parse_calls klass calls decoder g_slice_new0).appended.length
      ∧ (∀ (i : Nat) (h : i < fr.units.length),
          (fr.units.get ⟨i, h⟩).offset
            = total_size ((do_parse_calls klass calls decoder g_slice_new0).appended.take i)
                % 4294967296)
      ∧ fr.output_offset
          = total_size (do_parse_calls klass calls decoder g_slice_new0).appended % 4294967296
      ∧ (total_size (do_parse_calls klass calls decoder g_slice_new0).appended < 4294967296 →
          fr.units = with_offsets 0 (do_parse_calls klass calls decoder g_slice_new0).appended
          ∧ (∀ (i : Nat) (h : i < fr.units.length),
              (fr.units.get ⟨i, h⟩).offset
                = total_size
                    ((do_parse_calls klass calls decoder g_slice_new0).appended.take i))
          ∧ fr.output_offset
              = total_size (do_parse_calls klass calls decoder g_slice_new0).appended) := by
  obtain ⟨fr, h1, h2, h3⟩ := do_parse_calls_frame klass calls decoder g_slice_new0 hgot
  have hg : g_slice_new0.user_data = none := rfl
  simp only [hg, Option.getD_none, gst_vaapi_decoder_frame_new, List.reverse_nil,
    List.nil_append] at h2 h3
  have hoff : ∀ (i : Nat) (h : i < fr.units.length),
      (fr.units.get ⟨i, h⟩).offset
        = total_size ((do_parse_calls klass calls decoder g_slice_new0).appended.take i)
            % 4294967296 := by
    intro i h
    have h' : i < (with_guint_offsets 0
        (do_parse_calls klass calls decoder g_slice_new0).appended).length := by
      rw [← h2]; exact h
    have := with_guint_offsets_get 0 _ i h' (by decide)
    simp only [Nat.zero_add] at this
    rw [← this]
    simp only [List.get_eq_getElem]
    congr 1
    simp [h2]
  have htot : fr.output_offset
      = total_size (do_parse_calls klass calls decoder g_slice_new0).appended % 4294967296 := by
    rw [h3, guint_total_eq 0 _ (by decide), Nat.zero_add]
  refine ⟨fr, h1, h2, ?_, hoff, htot, ?_⟩
  · rw [h2, with_guint_offsets_length]
  · intro hbound
    refine ⟨?_, ?_, ?_⟩
    · rw [h2]
      exact with_guint_offsets_of_bound 0 _ (by omega)
    · intro i h
      rw [hoff i h]
      have := total_size_take_le (do_parse_calls klass calls decoder g_slice_new0).appended i
      exact Nat.mod_eq_of_lt (by omega)
    · rw [htot]
      exact Nat.mod_eq_of_lt hbound

theorem do_parse_stream_order_witness :
    (do_parse_calls (toy_klass id) toy_calls (gst_vaapi_decoder_init ()) g_slice_new0).got_frame
      = true
    ∧ total_size (do_parse_calls (toy_klass id) toy_calls (gst_vaapi_decoder_init ())
        g_slice_new0).appended < 4294967296
    ∧ ∃ fr, (do_parse_calls (toy_klass id) toy_calls (gst_vaapi_decoder_init ())
          g_slice_new0).base_frame.user_data = some fr
        ∧ fr.units = with_offsets 0 [toy_unit 4, toy_unit 12, toy_unit 6]
        ∧ fr.output_offset = 6 := by
  obtain ⟨fr, h1, -, -, -, -, h6⟩ := do_parse_stream_order (toy_klass id) toy_calls
    (gst_vaapi_decoder_init ()) (by decide)
  obtain ⟨k1, -, k3⟩ := h6 (by decide)
  exact ⟨by decide, by decide, fr, h1, k1, k3⟩

theorem run_calls_append {σ : Type} (xs ys : List (BoundCall σ)) (d : GstVaapiDecoder σ) :
    run_calls (xs ++ ys) d =
      if (run_calls xs d).1 ≠ SUCCESS then run_calls xs d
      else run_calls ys (run_calls xs d).2 := by
  induction xs generalizing d with
  | nil => simp [run_calls]
  | cons x xs ih =>
    simp only [List.cons_append, run_calls]
    by_cases h : (run_call d x).1 = SUCCESS
    · simp [h, ih]
    · simp [h]

theorem do_decode_start_frame_eq {σ : Type}
    (start_frame : CodecView σ → GstVaapiDecoderUnit → GstVaapiDecoderStatus × CodecView σ)
    (units : List GstVaapiDecoderUnit) (d : GstVaapiDecoder σ) :
    do_decode_start_frame start_frame d units =
      run_calls (((units.find? (fun u => u.slice)).map
        (fun u => ((HookCall.start_frame u, fun view => start_frame view u) : BoundCall σ))).toList) d := by
  induction units with
  | nil => simp [do_decode_start_frame, run_calls]
  | cons u l ih =>
    by_cases hs : u.slice = true
    · simp only [do_decode_start_frame, hs, ↓reduceIte, List.find?_cons_of_pos, Option.map_some',
        Option.toList_some, run_calls, run_call, HookCall.event]
      split
      · rfl
      · next h =>
        simp only [ne_eq, Decidable.not_not] at h
        exact Prod.ext h rfl
    · simp only [do_decode_start_frame, hs, Bool.false_eq_true, ↓reduceIte, ih]
      rw [List.find?_cons_of_neg]
      simpa using hs

theorem do_decode_units_eq {σ : Type}
    (decode : CodecView σ → GstVaapiDecoderUnit → GstVaapiDecoderStatus × CodecView σ)
    (units : List GstVaapiDecoderUnit) (d : GstVaapiDecoder σ) :
    do_decode_units decode d units =
      run_calls ((units.filter (fun u => !u.skipped)).map
        (fun u => ((HookCall.decode u, fun view => decode view u) : BoundCall σ))) d := by
  induction units generalizing d with
  | nil => simp [do_decode_units, run_calls]
  | cons u l ih =>
    by_cases hs : u.skipped = true
    · simp [do_decode_units, hs, ih]
    · simp only [do_decode_units, hs, Bool.false_eq_true, ↓reduceIte, ih]
      simp only [Bool.not_eq_true] at hs
      simp only [hs, Bool.not_false, List.filter_cons_of_pos, List.map_cons, run_calls, run_call,
        HookCall.event]

/-- The log after `run_calls`: every call made but the last returned `SUCCESS`. -/
theorem run_calls_log {σ : Type} (calls : List (BoundCall σ)) (d : GstVaapiDecoder σ) :
    ((run_calls calls d).1 = SUCCESS
      ∧ (run_calls calls d).2.log = d.log ++ calls.map (fun c => c.1.event SUCCESS))
    ∨ ((run_calls calls d).1 ≠ SUCCESS
      ∧ ∃ pre c post, calls = pre ++ c :: post
        ∧ (run_calls calls d).2.log
            = d.log ++ pre.map (fun c => c.1.event SUCCESS) ++ [c.1.event (run_calls calls d).1]) := by
  induction calls generalizing d with
  | nil => left; simp [run_calls]
  | cons x xs ih =>
    by_cases h : (run_call d x).1 = SUCCESS
    · have hlog : (run_call d x).2.log = d.log ++ [x.1.event SUCCESS] := by
        rw [← h]; rfl
      have hrc : run_calls (x :: xs) d = run_calls xs (run_call d x).2 := by
        simp [run_calls, h]
      rw [hrc]
      rcases ih (run_call d x).2 with ⟨h1, h2⟩ | ⟨h1, pre, c, post, h2, h3⟩
      · left; refine ⟨h1, ?_⟩
        rw [h2, hlog]; simp
      · right; refine ⟨h1, x :: pre, c, post, by simp [h2], ?_⟩
        rw [h3, hlog]; simp
    · right
      have hrc : run_calls (x :: xs) d = run_call d x := by
        simp [run_calls, h]
      rw [hrc]
      exact ⟨h, [], x, xs, rfl, by simp [run_call, GstVaapiDecoder.record, GstVaapiDecoder.setView]⟩

theorem do_decode_eq_run_calls {σ : Type} (klass : GstVaapiDecoderClass σ)
    (d : GstVaapiDecoder σ) (bf : GstVideoCodecFrame) :
    do_decode klass d bf
      = run_calls (planned_calls klass (frame_units bf)) (do_decode_entry d bf) := by
  unfold do_decode planned_calls
  rw [run_calls_append, run_calls_append]
  simp only [← do_decode_units_eq, do_decode_entry]
  cases hsf : klass.start_frame with
  | none =>
    cases hef : klass.end_frame with
    | none =>
      simp only [run_calls, ne_eq, not_true_eq_false, ↓reduceIte]
    | some ef =>
      simp only [run_calls, run_call, HookCall.event, ne_eq, not_true_eq_false, ↓reduceIte]
  | some sf =>
    simp only [← do_decode_start_frame_eq]
    cases hef : klass.end_frame with
    | none =>
      simp only [run_calls, ne_eq, not_true_eq_false, ↓reduceIte]
      split_ifs <;> rfl
    | some ef =>
      simp only [run_calls, run_call, HookCall.event, ne_eq, not_true_eq_false, ↓reduceIte]
      split_ifs <;> rfl

theorem planned_calls_decode_not_skipped {σ : Type} (klass : GstVaapiDecoderClass σ)
    (units : List GstVaapiDecoderUnit) (c : BoundCall σ) (u : GstVaapiDecoderUnit)
    (hc : c ∈ planned_calls klass units) (hu : c.1 = HookCall.decode u) :
    u ∈ units ∧ u.skipped = false := by
  unfold planned_calls at hc
  simp only [List.mem_append, List.mem_map, List.mem_filter] at hc
  rcases hc with (hc | ⟨w, ⟨hw1, hw2⟩, rfl⟩) | hc
  · cases hsf : klass.start_frame with
    | none => simp [hsf] at hc
    | some sf =>
      simp only [hsf] at hc
      cases hf : List.find? (fun u => u.slice) units with
      | none => simp [hf] at hc
      | some w => simp [hf] at hc; subst hc; simp at hu
  · simp only at hu
    injection hu with hu
    subst hu
    exact ⟨hw1, by simpa using hw2⟩
  · cases hef : klass.end_frame with
    | none => simp [hef] at hc
    | some ef => simp [hef] at hc; subst hc; simp at hu

/-- What `do_decode` does, in terms of the unit list it reads off the frame. -/
theorem do_decode_runs_planned_calls {σ : Type} (klass : GstVaapiDecoderClass σ)
    (decoder : GstVaapiDecoder σ) (base_frame : GstVideoCodecFrame) :
    do_decode klass decoder base_frame
      = run_calls (planned_calls klass (frame_units base_frame))
          (do_decode_entry decoder base_frame)
    ∧ (planned_calls klass (frame_units base_frame)).map (fun c => c.1)
        = (if klass.start_frame.isSome then
            (((frame_units base_frame).find? (fun u => u.slice)).map HookCall.start_frame).toList
          else [])
        ++ ((frame_units base_frame).filter (fun u => !u.skipped)).map HookCall.decode
        ++ (if klass.end_frame.isSome then [HookCall.end_frame] else [])
    ∧ (((do_decode klass decoder base_frame).1 = SUCCESS
        ∧ (do_decode klass decoder base_frame).2.log
            = decoder.log ++ [Event.do_decode base_frame]
              ++ (planned_calls klass (frame_units base_frame)).map
                  (fun c => c.1.event SUCCESS))
      ∨ ((do_decode klass decoder base_frame).1 ≠ SUCCESS
        ∧ ∃ pre c post, planned_calls klass (frame_units base_frame) = pre ++ c :: post
          ∧ (do_decode klass decoder base_frame).2.log
              = decoder.log ++ [Event.do_decode base_frame]
                ++ pre.map (fun c => c.1.event SUCCESS)
                ++ [c.1.event (do_decode klass decoder base_frame).1]))
    ∧ (∀ u s, Event.decode u s ∈ new_events decoder.log (do_decode klass decoder base_frame).2.log →
        u.skipped = false) := by
  have heq := do_decode_eq_run_calls klass decoder base_frame
  have hlog := run_calls_log (planned_calls klass (frame_units base_frame))
    (do_decode_entry decoder base_frame)
  have hentry : (do_decode_entry decoder base_frame).log
      = decoder.log ++ [Event.do_decode base_frame] := rfl
  rw [← heq, hentry] at hlog
  refine ⟨heq, ?_, hlog, ?_⟩
  · unfold planned_calls
    cases klass.start_frame <;> cases klass.end_frame <;>
      cases List.find? (fun u => u.slice) (frame_units base_frame) <;>
      simp [Function.comp_def]
  · intro u s hmem
    have key : ∀ (cs : List (BoundCall σ)) (st : GstVaapiDecoderStatus),
        (∀ c ∈ cs, c ∈ planned_calls klass (frame_units base_frame)) →
        Event.decode u s ∈ cs.map (fun c => c.1.event st) → u.skipped = false := by
      intro cs st hsub hm
      simp only [List.mem_map] at hm
      obtain ⟨c, hc, hce⟩ := hm
      have hcu : c.1 = HookCall.decode u := by
        cases h1 : c.1 <;> simp [h1, HookCall.event] at hce ⊢
        exact hce.1
      exact (planned_calls_decode_not_skipped klass _ c u (hsub c hc) hcu).2
    rcases hlog with ⟨-, h2⟩ | ⟨-, pre, c, post, h2, h3⟩
    · rw [h2] at hmem
      simp only [new_events, List.append_assoc, List.drop_left] at hmem
      simp only [List.mem_append, List.mem_singleton, reduceCtorEq, false_or] at hmem
      exact key _ SUCCESS (fun c hc => hc) hmem
    · rw [h3] at hmem
      simp only [new_events, List.append_assoc, List.drop_left] at hmem
      simp only [List.mem_append, List.mem_singleton, reduceCtorEq, false_or] at hmem
      rcases hmem with hmem | hmem
      · exact key pre SUCCESS (fun c hc => by rw [h2]; simp [hc]) hmem
      · exact key [c] _ (fun c' hc' => by rw [h2]; simp at hc'; simp [hc']) (by simpa using hmem)

/-- C5: decode dispatch order and short-circuit.  For every frame with the
decoder frame `fr` anchored on it, `do_decode` makes the calls of the list
`[start_frame(first unit of fr flagged slice), when the hook exists and there
is such a unit] ++ [decode(u) for every unit u of fr in list order not flagged
skipped] ++ [end_frame(), when the hook exists]` in order and stops after the
first call whose status is not `SUCCESS`: the calls it makes are the longest
such run from the head of the list.  It returns that status, or `SUCCESS` when
every call succeeds, and `decode` is never called on a unit flagged skipped. -/
theorem do_decode_dispatch_order {σ : Type} (klass : GstVaapiDecoderClass σ)
    (decoder : GstVaapiDecoder σ) (base_frame : GstVideoCodecFrame)
    (fr : GstVaapiDecoderFrame) (hfr : base_frame.user_data = some fr) :
    do_decode klass decoder base_frame
      = run_calls (planned_calls klass fr.units) (do_decode_entry decoder base_frame)
    ∧ (planned_calls klass fr.units).map (fun c => c.1)
        = (if klass.start_frame.isSome then
            ((fr.units.find? (fun u => u.slice)).map HookCall.start_frame).toList
          else [])
        ++ (fr.units.filter (fun u => !u.skipped)).map HookCall.decode
        ++ (if klass.end_frame.isSome then [HookCall.end_frame] else [])
    ∧ (((do_decode klass decoder base_frame).1 = SUCCESS
        ∧ (do_decode klass decoder base_frame).2.log
            = decoder.log ++ [Event.do_decode base_frame]
              ++ (planned_calls klass fr.units).map (fun c => c.1.event SUCCESS))
      ∨ ((do_decode klass decoder base_frame).1 ≠ SUCCESS
        ∧ ∃ pre c post, planned_calls klass fr.units = pre ++ c :: post
          ∧ (do_decode klass decoder base_frame).2.log
              = decoder.log ++ [Event.do_decode base_frame]
                ++ pre.map (fun c => c.1.event SUCCESS)
                ++ [c.1.event (do_decode klass decoder base_frame).1]))
    ∧ (∀ u s, Event.decode u s ∈ new_events decoder.log (do_decode klass decoder base_frame).2.log →
        u.skipped = false) := by
  have hu : frame_units base_frame = fr.units := by
    simp [frame_units, hfr]
  have h := do_decode_runs_planned_calls klass decoder base_frame
  rw [hu] at h
  exact h

theorem do_decode_dispatch_order_witness :
    toy_skipped_frame.user_data.map (fun f => f.units)
      = some [{ toy_unit 8 with offset := 0 }, { toy_unit 4 with offset := 2 },
              { toy_unit 6 with offset := 4 }]
    ∧ (do_decode (toy_klass id) (gst_vaapi_decoder_init ()) toy_skipped_frame).1 = SUCCESS
    ∧ (do_decode (toy_klass id) (gst_vaapi_decoder_init ()) toy_skipped_frame).2.log
      = [Event.do_decode toy_skipped_frame,
         Event.start_frame { toy_unit 4 with offset := 2 } SUCCESS,
         Event.decode { toy_unit 4 with offset := 2 } SUCCESS,
         Event.decode { toy_unit 6 with offset := 4 } SUCCESS,
         Event.end_frame SUCCESS]
    ∧ (do_decode toy_broken_klass (gst_vaapi_decoder_init ()) toy_skipped_frame).1
      = ERROR_UNKNOWN
    ∧ (do_decode toy_broken_klass (gst_vaapi_decoder_init ()) toy_skipped_frame).2.log
      = [Event.do_decode toy_skipped_frame,
         Event.start_frame { toy_unit 4 with offset := 2 } SUCCESS,
         Event.decode { toy_unit 4 with offset := 2 } ERROR_UNKNOWN] := by
  have h := do_decode_dispatch_order (toy_klass id) (gst_vaapi_decoder_init ())
    toy_skipped_frame _ rfl
  have k := do_decode_dispatch_order toy_broken_klass (gst_vaapi_decoder_init ())
    toy_skipped_frame _ rfl
  refine ⟨by decide, ?_, ?_, ?_, ?_⟩
  · rw [h.1]; decide
  · rw [h.1]; decide
  · rw [k.1]; decide
  · rw [k.1]; decide

/-- C6: backpressure.  For every decoder whose hardware context exists and
reports zero free surfaces, `decode_step` returns `ERROR_NO_SURFACE` with the
decoder unchanged (nothing is popped), and a pull through
`gst_vaapi_decoder_get_surface` with no decoded frame queued returns
`ERROR_NO_SURFACE` and leaves the Input Queue, both adapters and the parser
state as they were. -/
theorem decode_step_backpressure {σ : Type} (klass : GstVaapiDecoderClass σ) (fuel : Nat)
    (decoder : GstVaapiDecoder σ) (hcontext : decoder.context = some 0) :
    decode_step klass fuel decoder = some (ERROR_NO_SURFACE, decoder)
    ∧ (decoder.frames = [] →
        gst_vaapi_decoder_get_surface klass (fuel + 1) decoder
          = some { status := ERROR_NO_SURFACE, out := none, decoder := decoder }) := by
  have hstep : ∀ n, decode_step klass n decoder = some (ERROR_NO_SURFACE, decoder) := by
    intro n
    simp [decode_step, gst_vaapi_decoder_check_status, hcontext]
  refine ⟨hstep fuel, ?_⟩
  intro hframes
  simp [gst_vaapi_decoder_get_surface, pop_frame, hframes, get_surface_loop, hstep]

theorem decode_step_backpressure_witness :
    toy_no_surface.context = some 0
    ∧ decode_step (toy_klass id) 3 (put_buffers toy_no_surface [chunk [6, 0]])
        = some (ERROR_NO_SURFACE, put_buffers toy_no_surface [chunk [6, 0]])
    ∧ gst_vaapi_decoder_get_surface (toy_klass id) 4 (put_buffers toy_no_surface [chunk [6, 0]])
        = some { status := ERROR_NO_SURFACE, out := none
                 decoder := put_buffers toy_no_surface [chunk [6, 0]] } := by
  have h := decode_step_backpressure (toy_klass id) 3 (put_buffers toy_no_surface [chunk [6, 0]]) rfl
  exact ⟨rfl, h.1, h.2 rfl⟩

/-- C8, as stated, fails: with one chunk queued and no decoded frame,
`gst_vaapi_decoder_get_frame` returns `ERROR_NO_DATA` and leaves the chunk in
the Input Queue, while `gst_vaapi_decoder_get_surface` pops it, decodes the
frame and returns `SUCCESS`. -/
theorem get_frame_get_surface_differ :
    (gst_vaapi_decoder_get_frame toy_one_frame_queued).status = ERROR_NO_DATA
    ∧ (gst_vaapi_decoder_get_frame toy_one_frame_queued).decoder.buffers
        = [{ data := some [6, 0], eos := false }]
    ∧ (gst_vaapi_decoder_get_frame toy_one_frame_queued).decoder.parser_state.input_adapter.data
        = []
    ∧ ∃ r, gst_vaapi_decoder_get_surface (toy_klass toy_push) 3 toy_one_frame_queued = some r
        ∧ r.status = SUCCESS ∧ r.decoder.buffers = []
        ∧ dispatched r.decoder.log
            = [{ user_data := some { units := [{ toy_unit 6 with offset := 0 }]
                                     output_offset := 2
                                     prev_slice := some { toy_unit 6 with offset := 0 } }
                 input_buffer := some [6, 0] }] := by
  refine ⟨by decide, by decide, by decide, ?_⟩
  exact ⟨_, rfl, by decide, by decide, by decide⟩

/-- C8, amended: `gst_vaapi_decoder_get_frame` runs no decode step.  It only
pops the Output Queue: it returns `SUCCESS` with the head frame when the queue is
not empty and `ERROR_NO_DATA` otherwise, and never changes the Input Queue, the
adapters, the parser state, the log or what the hooks can reach.  The two pulls
agree, in status, frame and resulting state, whenever a decoded frame is
already queued. -/
theorem get_frame_only_pops {σ : Type} (klass : GstVaapiDecoderClass σ) (fuel : Nat)
    (decoder : GstVaapiDecoder σ) :
    (gst_vaapi_decoder_get_frame decoder).decoder.buffers = decoder.buffers
    ∧ (gst_vaapi_decoder_get_frame decoder).decoder.parser_state = decoder.parser_state
    ∧ (gst_vaapi_decoder_get_frame decoder).decoder.log = decoder.log
    ∧ (gst_vaapi_decoder_get_frame decoder).decoder.codec = decoder.codec
    ∧ (gst_vaapi_decoder_get_frame decoder).decoder.context = decoder.context
    ∧ (decoder.frames = [] →
        gst_vaapi_decoder_get_frame decoder
          = { status := ERROR_NO_DATA, out := none, decoder := decoder })
    ∧ (∀ f rest, decoder.frames = f :: rest →
        gst_vaapi_decoder_get_frame decoder
          = { status := SUCCESS, out := some f, decoder := { decoder with frames := rest } }
        ∧ gst_vaapi_decoder_get_surface klass fuel decoder
          = some (gst_vaapi_decoder_get_frame decoder)) := by
  cases hf : decoder.frames with
  | nil =>
    simp [gst_vaapi_decoder_get_frame, pop_frame, hf]
  | cons f rest =>
    simp [gst_vaapi_decoder_get_frame, gst_vaapi_decoder_get_surface, pop_frame, hf]

theorem get_frame_only_pops_witness :
    toy_decoded.frames = [g_slice_new0]
    ∧ gst_vaapi_decoder_get_frame toy_decoded
        = { status := SUCCESS, out := some g_slice_new0, decoder := gst_vaapi_decoder_init () }
    ∧ gst_vaapi_decoder_get_surface (toy_klass id) 0 toy_decoded
        = some (gst_vaapi_decoder_get_frame toy_decoded) := by
  have h := (get_frame_only_pops (toy_klass id) 0 toy_decoded).2.2.2.2.2.2 g_slice_new0 [] rfl
  exact ⟨rfl, h.1, h.2⟩

/-- C9, as stated, fails: a decoder with an empty Input Queue and no partial
frame whose context has no free surface answers a pull through
`gst_vaapi_decoder_get_surface` with `ERROR_NO_SURFACE`, and one with a decoded
frame queued answers `gst_vaapi_decoder_get_frame` with `SUCCESS` and gives the
frame away. -/
theorem pull_without_input_not_always_no_data :
    toy_no_surface.buffers = []
    ∧ toy_no_surface.parser_state.current_frame = none
    ∧ toy_no_surface.parser_state.pending_unit = none
    ∧ toy_no_surface.parser_state.input_adapter.data = []
    ∧ toy_no_surface.parser_state.output_adapter.data = []
    ∧ (∃ r, gst_vaapi_decoder_get_surface (toy_klass id) 3 toy_no_surface = some r
        ∧ r.status = ERROR_NO_SURFACE)
    ∧ toy_decoded.buffers = []
    ∧ toy_decoded.parser_state.current_frame = none
    ∧ (gst_vaapi_decoder_get_frame toy_decoded).status = SUCCESS
    ∧ (gst_vaapi_decoder_get_frame toy_decoded).decoder.frames ≠ toy_decoded.frames := by
  refine ⟨rfl, rfl, rfl, rfl, rfl, ⟨_, rfl, by decide⟩, rfl, rfl, by decide, by decide⟩

/-- A pull through `gst_vaapi_decoder_get_surface` with both queues empty and
a free surface. -/
theorem get_surface_no_data {σ : Type} (klass : GstVaapiDecoderClass σ) (fuel : Nat)
    (decoder : GstVaapiDecoder σ) (hbuffers : decoder.buffers = []) (hframes : decoder.frames = [])
    (hstatus : gst_vaapi_decoder_check_status decoder = SUCCESS) :
    gst_vaapi_decoder_get_surface klass (fuel + 1) decoder
      = some { status := ERROR_NO_DATA, out := none, decoder := decoder } := by
  simp [gst_vaapi_decoder_get_surface, pop_frame, hframes, get_surface_loop, decode_step, hstatus,
    decode_step_outer, pop_buffer, hbuffers]

/-- C9, amended: no-data stability.  For every decoder with an empty Input Queue
and an empty Output Queue, `gst_vaapi_decoder_get_frame` returns
`ERROR_NO_DATA` and leaves the whole decoder unchanged, and so does
`gst_vaapi_decoder_get_surface` when the hardware context is absent or has a
free surface; any number of repeated pulls ends in the same decoder. -/
theorem pull_no_data_stable {σ : Type} (klass : GstVaapiDecoderClass σ) (fuel : Nat)
    (decoder : GstVaapiDecoder σ) (hbuffers : decoder.buffers = [])
    (hframes : decoder.frames = []) :
    gst_vaapi_decoder_get_frame decoder
      = { status := ERROR_NO_DATA, out := none, decoder := decoder }
    ∧ (∀ n, (fun d => (gst_vaapi_decoder_get_frame d).decoder)^[n] decoder = decoder)
    ∧ (gst_vaapi_decoder_check_status decoder = SUCCESS →
        gst_vaapi_decoder_get_surface klass (fuel + 1) decoder
          = some { status := ERROR_NO_DATA, out := none, decoder := decoder }
        ∧ ∀ n, (fun d => ((gst_vaapi_decoder_get_surface klass (fuel + 1) d).map
              (fun r => r.decoder)).getD d)^[n] decoder = decoder) := by
  have h1 : gst_vaapi_decoder_get_frame decoder
      = { status := ERROR_NO_DATA, out := none, decoder := decoder } := by
    simp [gst_vaapi_decoder_get_frame, pop_frame, hframes]
  refine ⟨h1, ?_, ?_⟩
  · intro n
    apply Function.iterate_fixed
    rw [h1]
  · intro hstatus
    have h2 := get_surface_no_data klass fuel decoder hbuffers hframes hstatus
    refine ⟨h2, ?_⟩
    intro n
    apply Function.iterate_fixed
    simp [h2]

theorem pull_no_data_stable_witness :
    (gst_vaapi_decoder_init ()).buffers = [] ∧ (gst_vaapi_decoder_init ()).frames = []
    ∧ gst_vaapi_decoder_get_frame (gst_vaapi_decoder_init ())
        = { status := ERROR_NO_DATA, out := none, decoder := gst_vaapi_decoder_init () }
    ∧ gst_vaapi_decoder_get_surface (toy_klass id) 1 (gst_vaapi_decoder_init ())
        = some { status := ERROR_NO_DATA, out := none, decoder := gst_vaapi_decoder_init () } := by
  have h := pull_no_data_stable (toy_klass id) 0 (gst_vaapi_decoder_init ()) rfl rfl
  exact ⟨rfl, rfl, h.1, (h.2.2 rfl).1⟩

theorem do_parse_log {σ : Type} (klass : GstVaapiDecoderClass σ)
    (d : GstVaapiDecoder σ) (bf : GstVideoCodecFrame) (a : GstAdapter) (e : Bool) :
    ∃ es, (do_parse klass d bf a e).decoder.log = d.log ++ es
      ∧ StatusesIn es (fun s => s = (do_parse klass d bf a e).status)
      ∧ dispatched es = [] := by
  cases hp : d.parser_state.pending_unit with
  | some u =>
    rw [do_parse_of_pending klass d bf a e u hp]
    exact ⟨[], by simp, by simp [StatusesIn], rfl⟩
  | none =>
    rw [do_parse_of_no_pending klass d bf a e hp]
    cases hres : (klass.parse d.view a e).1 with
    | failure s hs =>
      exact ⟨[Event.parse a.data e s none], rfl, by simp [StatusesIn, Event.status?], rfl⟩
    | success u =>
      refine ⟨[Event.parse a.data e SUCCESS (some u)], ?_, ?_, rfl⟩
      · simp only []
        split <;> rfl
      · simp only []
        split <;> simp [StatusesIn, Event.status?]

theorem dispatched_append (xs ys : List Event) :
    dispatched (xs ++ ys) = dispatched xs ++ dispatched ys := by
  induction xs with
  | nil => rfl
  | cons x xs ih => cases x <;> simp [dispatched, ih]

theorem dispatched_hook_events {σ : Type} (cs : List (BoundCall σ)) (st : GstVaapiDecoderStatus) :
    dispatched (cs.map (fun c => c.1.event st)) = [] := by
  induction cs with
  | nil => rfl
  | cons c cs ih =>
    obtain ⟨c1, c2⟩ := c
    cases c1 <;> simpa [dispatched, HookCall.event] using ih

theorem hook_call_event_status (c : HookCall) (st : GstVaapiDecoderStatus) :
    (c.event st).status? = some st := by
  cases c <;> rfl

theorem statuses_in_append {xs ys : List Event} {ok : GstVaapiDecoderStatus → Prop}
    (hx : StatusesIn xs ok) (hy : StatusesIn ys ok) : StatusesIn (xs ++ ys) ok := by
  intro e he s hs
  rcases List.mem_append.mp he with h | h
  · exact hx e h s hs
  · exact hy e h s hs

theorem statuses_in_mono {xs : List Event} {ok ok2 : GstVaapiDecoderStatus → Prop}
    (hx : StatusesIn xs ok) (h : ∀ s, ok s → ok2 s) : StatusesIn xs ok2 :=
  fun e he s hs => h s (hx e he s hs)

theorem statuses_in_hook_events {σ : Type} (cs : List (BoundCall σ)) (st : GstVaapiDecoderStatus)
    (ok : GstVaapiDecoderStatus → Prop) (h : ok st) :
    StatusesIn (cs.map (fun c => c.1.event st)) ok := by
  intro e he s hs
  simp only [List.mem_map] at he
  obtain ⟨c, -, rfl⟩ := he
  rw [hook_call_event_status] at hs
  injection hs with hs
  exact hs ▸ h

theorem do_decode_log {σ : Type} (klass : GstVaapiDecoderClass σ)
    (d : GstVaapiDecoder σ) (bf : GstVideoCodecFrame) :
    ∃ es, (do_decode klass d bf).2.log = d.log ++ es
      ∧ StatusesIn es (fun s => s = SUCCESS ∨ s = (do_decode klass d bf).1)
      ∧ dispatched es = [bf] := by
  have hlog := run_calls_log (planned_calls klass (frame_units bf)) (do_decode_entry d bf)
  have hentry : (do_decode_entry d bf).log = d.log ++ [Event.do_decode bf] := rfl
  rw [← do_decode_eq_run_calls, hentry] at hlog
  have hd : StatusesIn [Event.do_decode bf] (fun s => s = SUCCESS ∨ s = (do_decode klass d bf).1) := by
    intro e he s hs
    simp only [List.mem_singleton] at he
    subst he
    simp [Event.status?] at hs
  rcases hlog with ⟨-, h2⟩ | ⟨-, pre, c, post, -, h3⟩
  · refine ⟨_, by rw [h2, List.append_assoc], ?_, ?_⟩
    · exact statuses_in_append hd (statuses_in_hook_events _ _ _ (Or.inl rfl))
    · rw [dispatched_append, dispatched_hook_events]; rfl
  · refine ⟨_, by rw [h3, List.append_assoc, List.append_assoc], ?_, ?_⟩
    · refine statuses_in_append hd (statuses_in_append (statuses_in_hook_events _ _ _ (Or.inl rfl)) ?_)
      have := statuses_in_hook_events [c] (do_decode klass d bf).1
        (fun s => s = SUCCESS ∨ s = (do_decode klass d bf).1) (Or.inr rfl)
      simpa using this
    · rw [dispatched_append, dispatched_append, dispatched_hook_events]
      obtain ⟨c1, c2⟩ := c
      cases c1 <;> rfl

@[simp] theorem decode_step_take_unit_log {σ : Type} (d : GstVaapiDecoder σ) (n : Nat) :
    (decode_step_take_unit d n).log = d.log := by
  unfold decode_step_take_unit; split <;> rfl

theorem decode_step_got_frame_log {σ : Type} (klass : GstVaapiDecoderClass σ)
    (d : GstVaapiDecoder σ) (cf : GstVideoCodecFrame) :
    ∃ es, (decode_step_got_frame klass d cf).2.log = d.log ++ es
      ∧ StatusesIn es (fun s => s = SUCCESS ∨ s = (decode_step_got_frame klass d cf).1)
      ∧ dispatched es = [{ cf with input_buffer :=
          (gst_adapter_take_buffer d.parser_state.output_adapter
            (gst_adapter_available d.parser_state.output_adapter)).1 }] := by
  unfold decode_step_got_frame
  exact do_decode_log klass _ _

theorem decode_step_parse_log {σ : Type} (klass : GstVaapiDecoderClass σ)
    (d : GstVaapiDecoder σ) (e : Bool) :
    ∃ es, (decode_step_parse klass d e).decoder.log = d.log ++ es
      ∧ StatusesIn es (fun s => s = (decode_step_parse klass d e).status)
      ∧ dispatched es = [] :=
  do_parse_log klass _ _ _ _

/-- The log entries added by one pass through the body of the inner loop. -/
theorem decode_step_body_log {σ : Type} (klass : GstVaapiDecoderClass σ)
    (d : GstVaapiDecoder σ) (e : Bool) :
    ∃ es, (decode_step_body klass d e).2.log = d.log ++ es
      ∧ StatusesIn es (fun s => s = SUCCESS ∨ s = (decode_step_body klass d e).1) := by
  unfold decode_step_body
  simp only []
  obtain ⟨es, hes, hst, -⟩ := decode_step_parse_log klass d e
  generalize decode_step_parse klass d e = r at hes hst
  by_cases hs : r.status = SUCCESS
  · simp only [hs, ne_eq, not_true_eq_false, ↓reduceIte]
    by_cases hg : r.got_frame = true
    · simp only [hg, ↓reduceIte]
      obtain ⟨es2, hes2, hst2, -⟩ := decode_step_got_frame_log klass
        (decode_step_take_unit r.decoder r.got_unit_size) r.base_frame
      refine ⟨es ++ es2, ?_, ?_⟩
      · rw [hes2, decode_step_take_unit_log, hes, List.append_assoc]
      · exact statuses_in_append (statuses_in_mono hst (fun s h => Or.inl (h.trans hs))) hst2
    · simp only [hg, Bool.false_eq_true, ↓reduceIte]
      refine ⟨es, ?_, statuses_in_mono hst (fun s h => Or.inl (h.trans hs))⟩
      rw [decode_step_take_unit_log]
      exact hes
  · simp only [hs, ne_eq, not_false_eq_true, ↓reduceIte]
    exact ⟨es, hes, statuses_in_mono hst (fun s h => Or.inr h)⟩

/-- The log entries added by the inner loop. -/
theorem decode_step_inner_log {σ : Type} (klass : GstVaapiDecoderClass σ) (e : Bool)
    (fuel : Nat) : ∀ (d : GstVaapiDecoder σ) (st : GstVaapiDecoderStatus) (d2 : GstVaapiDecoder σ),
    decode_step_inner klass e fuel d = some (st, d2) →
    ∃ es, d2.log = d.log ++ es ∧ StatusesIn es (fun s => s = SUCCESS ∨ s = st) := by
  induction fuel with
  | zero => intro d st d2 h; simp [decode_step_inner] at h
  | succ n ih =>
    intro d st d2 h
    obtain ⟨es, hes, hst⟩ := decode_step_body_log klass d e
    simp only [decode_step_inner] at h
    split at h
    · next hc =>
      obtain ⟨es2, hes2, hst2⟩ := ih _ _ _ h
      refine ⟨es ++ es2, by rw [hes2, hes, List.append_assoc], ?_⟩
      refine statuses_in_append (statuses_in_mono hst ?_) hst2
      intro s hs
      rcases hs with hs | hs
      · exact Or.inl hs
      · exact Or.inl (hs.trans hc.1)
    · injection h with h
      injection h with h1 h2
      subst h1; subst h2
      exact ⟨es, hes, hst⟩

/-- The log entries added by the outer loop. -/
theorem decode_step_outer_log {σ : Type} (klass : GstVaapiDecoderClass σ)
    (fuel : Nat) : ∀ (d : GstVaapiDecoder σ) (st : GstVaapiDecoderStatus) (d2 : GstVaapiDecoder σ),
    decode_step_outer klass fuel d = some (st, d2) →
    ∃ es, d2.log = d.log ++ es
      ∧ StatusesIn es (fun s => s = SUCCESS ∨ s = ERROR_NO_DATA ∨ s = st) := by
  induction fuel with
  | zero => intro d st d2 h; simp [decode_step_outer] at h
  | succ n ih =>
    intro d st d2 h
    simp only [decode_step_outer, pop_buffer] at h
    cases hb : d.buffers with
    | nil =>
      simp only [hb] at h
      injection h with h
      injection h with h1 h2
      exact ⟨[], by rw [← h2]; simp, by simp [StatusesIn]⟩
    | cons b rest =>
      simp only [hb] at h
      split at h
      · simp at h
      · next st1 d1 hin =>
        obtain ⟨es, hes, hst⟩ := decode_step_inner_log klass _ _ _ _ _ hin
        have hes' : d1.log = d.log ++ es := by
          rw [hes]; split <;> rfl
        split at h
        · next hnd =>
          obtain ⟨es2, hes2, hst2⟩ := ih _ _ _ h
          refine ⟨es ++ es2, by rw [hes2, hes', List.append_assoc], ?_⟩
          refine statuses_in_append (statuses_in_mono hst ?_) hst2
          intro s hs
          rcases hs with hs | hs
          · exact Or.inl hs
          · exact Or.inr (Or.inl (hs.trans hnd))
        · injection h with h
          injection h with h1 h2
          subst h1; subst h2
          refine ⟨es, hes', statuses_in_mono hst ?_⟩
          intro s hs
          rcases hs with hs | hs
          · exact Or.inl hs
          · exact Or.inr (Or.inr hs)

/-- The log entries added by `decode_step`. -/
theorem decode_step_log {σ : Type} (klass : GstVaapiDecoderClass σ)
    (fuel : Nat) (d : GstVaapiDecoder σ) (st : GstVaapiDecoderStatus) (d2 : GstVaapiDecoder σ)
    (h : decode_step klass fuel d = some (st, d2)) :
    ∃ es, d2.log = d.log ++ es
      ∧ StatusesIn es (fun s => s = SUCCESS ∨ s = ERROR_NO_DATA ∨ s = st) := by
  unfold decode_step at h
  simp only [] at h
  split at h
  · injection h with h
    injection h with h1 h2
    exact ⟨[], by rw [← h2]; simp, by simp [StatusesIn]⟩
  · exact decode_step_outer_log klass fuel d st d2 h

/-- The log entries added by the loop of `gst_vaapi_decoder_get_surface`. -/
theorem get_surface_loop_log {σ : Type} (klass : GstVaapiDecoderClass σ)
    (fuel : Nat) : ∀ (d : GstVaapiDecoder σ) (st : GstVaapiDecoderStatus) (d2 : GstVaapiDecoder σ),
    get_surface_loop klass fuel d = some (st, d2) →
    st ≠ SUCCESS ∧ ∃ es, d2.log = d.log ++ es
      ∧ StatusesIn es (fun s => s = SUCCESS ∨ s = ERROR_NO_DATA ∨ s = st) := by
  induction fuel with
  | zero => intro d st d2 h; simp [get_surface_loop] at h
  | succ n ih =>
    intro d st d2 h
    simp only [get_surface_loop] at h
    split at h
    · simp at h
    · next st1 d1 hstep =>
      obtain ⟨es, hes, hst⟩ := decode_step_log klass _ _ _ _ hstep
      split at h
      · next hs =>
        obtain ⟨hne, es2, hes2, hst2⟩ := ih _ _ _ h
        refine ⟨hne, es ++ es2, by rw [hes2, hes, List.append_assoc], ?_⟩
        refine statuses_in_append (statuses_in_mono hst ?_) hst2
        intro s hs'
        rcases hs' with hs' | hs' | hs'
        · exact Or.inl hs'
        · exact Or.inr (Or.inl hs')
        · exact Or.inl (hs'.trans hs)
      · next hs =>
        injection h with h
        injection h with h1 h2
        subst h1; subst h2
        exact ⟨hs, es, hes, hst⟩

/-- C7, as stated, fails: the parse hook returns `ERROR_BITSTREAM_PARSER` during
a pull and `decode_step` returns it, but a frame decoded earlier in the same
pull is in the Output Queue, so `gst_vaapi_decoder_get_surface` returns
`SUCCESS` in its place. -/
theorem get_surface_replaces_error_status :
    ∃ d1 r, decode_step (toy_klass toy_push) 3 toy_error_queued
        = some (ERROR_BITSTREAM_PARSER, d1)
      ∧ Event.parse [255, 0] false ERROR_BITSTREAM_PARSER none
          ∈ new_events toy_error_queued.log d1.log
      ∧ gst_vaapi_decoder_get_surface (toy_klass toy_push) 3 toy_error_queued = some r
      ∧ Event.parse [255, 0] false ERROR_BITSTREAM_PARSER none
          ∈ new_events toy_error_queued.log r.decoder.log
      ∧ r.status = SUCCESS := by
  refine ⟨_, _, rfl, by decide, rfl, by decide, by decide⟩

theorem new_events_append (xs ys : List Event) : new_events xs (xs ++ ys) = ys := by
  simp [new_events]

@[simp] theorem parser_state_prepare_input_adapter (ps : GstVaapiParserState) (a : GstAdapter) :
    (parser_state_prepare ps a).input_adapter = ps.input_adapter := by
  unfold parser_state_prepare; split <;> rfl

@[simp] theorem parser_state_prepare_output_adapter (ps : GstVaapiParserState) (a : GstAdapter) :
    (parser_state_prepare ps a).output_adapter = ps.output_adapter := by
  unfold parser_state_prepare; split <;> rfl

@[simp] theorem parser_state_prepare_current_frame (ps : GstVaapiParserState) (a : GstAdapter) :
    (parser_state_prepare ps a).current_frame = ps.current_frame := by
  unfold parser_state_prepare; split <;> rfl

theorem run_calls_frame {σ : Type} (cs : List (BoundCall σ)) :
    ∀ d : GstVaapiDecoder σ, (run_calls cs d).2.buffers = d.buffers
      ∧ (run_calls cs d).2.parser_state = d.parser_state := by
  induction cs with
  | nil => intro d; exact ⟨rfl, rfl⟩
  | cons c cs ih =>
    intro d
    simp only [run_calls]
    split
    · exact ⟨rfl, rfl⟩
    · exact ih _

/-- The parts of the decoder `do_decode` leaves alone. -/
theorem do_decode_frame {σ : Type} (klass : GstVaapiDecoderClass σ)
    (d : GstVaapiDecoder σ) (bf : GstVideoCodecFrame) :
    (do_decode klass d bf).2.buffers = d.buffers
    ∧ (do_decode klass d bf).2.parser_state
        = { d.parser_state with current_frame := some bf } := by
  rw [do_decode_eq_run_calls]
  exact run_calls_frame _ _

/-- What `decode_step_got_frame` does to the decoder. -/
theorem decode_step_got_frame_spec {σ : Type} (klass : GstVaapiDecoderClass σ)
    (d : GstVaapiDecoder σ) (cf : GstVideoCodecFrame) :
    (decode_step_got_frame klass d cf).2.buffers = d.buffers
    ∧ (decode_step_got_frame klass d cf).2.parser_state
        = { d.parser_state with
            current_frame := none
            output_adapter := (gst_adapter_take_buffer d.parser_state.output_adapter
              (gst_adapter_available d.parser_state.output_adapter)).2 } := by
  unfold decode_step_got_frame
  simp only []
  constructor
  · rw [(do_decode_frame klass _ _).1]
  · rw [(do_decode_frame klass _ _).2]

theorem gst_adapter_take_buffer_all (a : GstAdapter) :
    (gst_adapter_take_buffer a (gst_adapter_available a)).2.data = []
    ∧ (gst_adapter_take_buffer a (gst_adapter_available a)).1
        = if a.data = [] then none else some a.data := by
  unfold gst_adapter_take_buffer gst_adapter_available
  by_cases h : a.data = []
  · simp [h]
  · have : a.data.length ≠ 0 := by simpa using h
    simp [h, this]

/-- A decode step on an empty Input Queue ends at once, with a status that is
not `SUCCESS`, and changes nothing. -/
theorem decode_step_of_no_buffers {σ : Type} (klass : GstVaapiDecoderClass σ) (n : Nat)
    (d : GstVaapiDecoder σ) (hb : d.buffers = []) :
    ∃ st, st ≠ SUCCESS ∧ decode_step klass (n + 1) d = some (st, d)
      ∧ (gst_vaapi_decoder_check_status d = SUCCESS → st = ERROR_NO_DATA) := by
  unfold decode_step
  by_cases hc : gst_vaapi_decoder_check_status d = SUCCESS
  · exact ⟨ERROR_NO_DATA, by decide, by simp [hc, decode_step_outer, pop_buffer, hb], fun _ => rfl⟩
  · exact ⟨_, hc, by simp [hc], fun h => absurd h hc⟩

/-- The decode loop of a pull on an empty Input Queue. -/
theorem get_surface_loop_of_no_buffers {σ : Type} (klass : GstVaapiDecoderClass σ) (n : Nat)
    (d : GstVaapiDecoder σ) (hb : d.buffers = []) :
    ∃ st, st ≠ SUCCESS ∧ get_surface_loop klass (n + 1) d = some (st, d)
      ∧ (gst_vaapi_decoder_check_status d = SUCCESS → st = ERROR_NO_DATA) := by
  obtain ⟨st, hne, hst, hnd⟩ := decode_step_of_no_buffers klass n d hb
  exact ⟨st, hne, by simp [get_surface_loop, hst, hne], hnd⟩

/-- What `decode_step_parse` returns, field by field. -/
theorem decode_step_parse_spec {σ : Type} (klass : GstVaapiDecoderClass σ)
    (d : GstVaapiDecoder σ) (e : Bool) :
    (decode_step_parse klass d e).status
        = (parse_core d.parser_state.pending_unit
            (klass.parse d.view d.parser_state.input_adapter e).1
            (current_decoder_frame d.parser_state)).status
    ∧ (decode_step_parse klass d e).got_unit_size
        = (parse_core d.parser_state.pending_unit
            (klass.parse d.view d.parser_state.input_adapter e).1
            (current_decoder_frame d.parser_state)).got_unit_size
    ∧ (decode_step_parse klass d e).got_frame
        = (parse_core d.parser_state.pending_unit
            (klass.parse d.view d.parser_state.input_adapter e).1
            (current_decoder_frame d.parser_state)).got_frame
    ∧ (decode_step_parse klass d e).base_frame
        = { user_data := some (parse_core d.parser_state.pending_unit
              (klass.parse d.view d.parser_state.input_adapter e).1
              (current_decoder_frame d.parser_state)).frame
            input_buffer := (current_frame_or_new d.parser_state).input_buffer }
    ∧ (decode_step_parse klass d e).decoder.buffers = d.buffers
    ∧ (decode_step_parse klass d e).decoder.parser_state.input_adapter
        = d.parser_state.input_adapter
    ∧ (decode_step_parse klass d e).decoder.parser_state.output_adapter
        = d.parser_state.output_adapter
    ∧ (decode_step_parse klass d e).decoder.parser_state.pending_unit
        = (parse_core d.parser_state.pending_unit
            (klass.parse d.view d.parser_state.input_adapter e).1
            (current_decoder_frame d.parser_state)).pending_unit
    ∧ (decode_step_parse klass d e).decoder.parser_state.current_frame
        = some (decode_step_parse klass d e).base_frame
    ∧ (decode_step_parse klass d e).decoder.view
        = (if d.parser_state.pending_unit.isSome then d.view
           else (klass.parse d.view d.parser_state.input_adapter e).2)
    ∧ (decode_step_parse klass d e).decoder.log
        = d.log ++ (if d.parser_state.pending_unit.isSome then []
           else [Event.parse d.parser_state.input_adapter.data e
              (klass.parse d.view d.parser_state.input_adapter e).1.status
              (klass.parse d.view d.parser_state.input_adapter e).1.unit]) := by
  have hv : ({ d with parser_state := { d.parser_state with
      current_frame := some (current_frame_or_new d.parser_state) } } : GstVaapiDecoder σ).view
    = d.view := rfl
  cases hp : d.parser_state.pending_unit with
  | some u =>
    have hr := do_parse_of_pending klass
      { d with parser_state := { d.parser_state with
          current_frame := some (current_frame_or_new d.parser_state) } }
      (current_frame_or_new d.parser_state) d.parser_state.input_adapter e u hp
    unfold decode_step_parse current_decoder_frame
    simp only [hr, parse_core, append_core]
    and_intros <;> first | rfl | simp
  | none =>
    have hr := do_parse_of_no_pending klass
      { d with parser_state := { d.parser_state with
          current_frame := some (current_frame_or_new d.parser_state) } }
      (current_frame_or_new d.parser_state) d.parser_state.input_adapter e hp
    rw [hv] at hr
    unfold decode_step_parse current_decoder_frame
    cases hres : (klass.parse d.view d.parser_state.input_adapter e).1 with
    | failure s hs =>
      simp only [hres] at hr
      simp only [hr, parse_core]
      and_intros <;> first | rfl | simp [hp]
    | success u =>
      simp only [hres] at hr
      simp only [parse_core, append_core]
      split
      · next hla =>
        simp only [hla, ↓reduceIte] at hr
        simp only [hr]
        and_intros <;> first | rfl | simp [hp]
      · next hla =>
        simp only [hla] at hr
        simp only [hr]
        and_intros <;> first | rfl | simp [hp]

/-- The body of the inner loop when no unit is pending and the parse hook
fails. -/
theorem decode_step_body_of_failure {σ : Type} (klass : GstVaapiDecoderClass σ)
    (d : GstVaapiDecoder σ) (e : Bool) (s : GstVaapiDecoderStatus) (hs : s ≠ SUCCESS)
    (view : CodecView σ)
    (hp : d.parser_state.pending_unit = none)
    (hparse : klass.parse d.view d.parser_state.input_adapter e
      = (ParseResult.failure s hs, view)) :
    (decode_step_body klass d e).1 = s
    ∧ (decode_step_body klass d e).2.buffers = d.buffers
    ∧ (decode_step_body klass d e).2.view = view
    ∧ (decode_step_body klass d e).2.log
        = d.log ++ [Event.parse d.parser_state.input_adapter.data e s none]
    ∧ (decode_step_body klass d e).2.parser_state.input_adapter = d.parser_state.input_adapter
    ∧ (decode_step_body klass d e).2.parser_state.output_adapter = d.parser_state.output_adapter
    ∧ (decode_step_body klass d e).2.parser_state.pending_unit = none
    ∧ (decode_step_body klass d e).2.parser_state.current_frame
        = some { user_data := some (current_decoder_frame d.parser_state)
                 input_buffer := (current_frame_or_new d.parser_state).input_buffer } := by
  obtain ⟨h1, -, -, h4, h5, h6, h7, h8, h9, h10, h11⟩ := decode_step_parse_spec klass d e
  simp only [hp, hparse, parse_core, Option.isSome_none, Bool.false_eq_true, ↓reduceIte,
    ParseResult.status, ParseResult.unit] at h1 h4 h8 h10 h11
  have hb : decode_step_body klass d e = (s, (decode_step_parse klass d e).decoder) := by
    unfold decode_step_body
    simp only [h1, ne_eq, hs, not_false_eq_true, ↓reduceIte]
  rw [hb]
  exact ⟨rfl, h5, h10, h11, h6, h7, h8, by rw [h9, h4]⟩

@[simp] theorem decode_step_take_unit_buffers {σ : Type} (d : GstVaapiDecoder σ) (n : Nat) :
    (decode_step_take_unit d n).buffers = d.buffers := by
  unfold decode_step_take_unit; split <;> rfl

@[simp] theorem decode_step_take_unit_view {σ : Type} (d : GstVaapiDecoder σ) (n : Nat) :
    (decode_step_take_unit d n).view = d.view := by
  unfold decode_step_take_unit; split <;> rfl

@[simp] theorem decode_step_take_unit_pending_unit {σ : Type} (d : GstVaapiDecoder σ) (n : Nat) :
    (decode_step_take_unit d n).parser_state.pending_unit = d.parser_state.pending_unit := by
  unfold decode_step_take_unit; split <;> rfl

@[simp] theorem decode_step_take_unit_current_frame {σ : Type} (d : GstVaapiDecoder σ) (n : Nat) :
    (decode_step_take_unit d n).parser_state.current_frame = d.parser_state.current_frame := by
  unfold decode_step_take_unit; split <;> rfl

/-- The bytes in the two adapters after `decode_step_take_unit`. -/
theorem decode_step_take_unit_data {σ : Type} (d : GstVaapiDecoder σ) (n : Nat) :
    (decode_step_take_unit d n).parser_state.input_adapter.data
        = (if 0 < n ∧ n ≤ d.parser_state.input_adapter.data.length
            then d.parser_state.input_adapter.data.drop n
            else d.parser_state.input_adapter.data)
    ∧ (decode_step_take_unit d n).parser_state.output_adapter.data
        = (if 0 < n ∧ n ≤ d.parser_state.input_adapter.data.length
            then d.parser_state.output_adapter.data ++ d.parser_state.input_adapter.data.take n
            else d.parser_state.output_adapter.data) := by
  unfold decode_step_take_unit gst_adapter_take_buffer gst_adapter_push
  by_cases h0 : 0 < n
  · by_cases h1 : n ≤ d.parser_state.input_adapter.data.length
    · have h2 : ¬ (n = 0 ∨ d.parser_state.input_adapter.data.length < n) := by omega
      simp [h0, h1, h2]
    · have h2 : (n = 0 ∨ d.parser_state.input_adapter.data.length < n) := by omega
      simp [h0, h1, h2]
  · simp [h0]

/-- The body of the inner loop when no unit is pending and the parse hook
returns a unit that closes the frame. -/
theorem decode_step_body_of_closing_unit {σ : Type} (klass : GstVaapiDecoderClass σ)
    (d : GstVaapiDecoder σ) (e : Bool) (u : GstVaapiDecoderUnit) (view : CodecView σ)
    (hp : d.parser_state.pending_unit = none)
    (hparse : klass.parse d.view d.parser_state.input_adapter e = (ParseResult.success u, view))
    (hend : u.frame_end = true)
    (hstart : (u.frame_start && (current_decoder_frame d.parser_state).prev_slice.isSome) = false) :
    (decode_step_body klass d e).2.buffers = d.buffers
    ∧ (decode_step_body klass d e).2.parser_state.input_adapter.data
        = (if 0 < u.size ∧ u.size ≤ d.parser_state.input_adapter.data.length
            then d.parser_state.input_adapter.data.drop u.size
            else d.parser_state.input_adapter.data)
    ∧ (decode_step_body klass d e).2.parser_state.output_adapter.data = []
    ∧ (decode_step_body klass d e).2.parser_state.pending_unit = none
    ∧ (decode_step_body klass d e).2.parser_state.current_frame = none
    ∧ ∃ es, (decode_step_body klass d e).2.log
          = d.log ++ Event.parse d.parser_state.input_adapter.data e SUCCESS (some u) :: es
        ∧ dispatched es =
          [{ user_data := some (got_frame (got_unit (current_decoder_frame d.parser_state) u))
             input_buffer := payload_of
              (if 0 < u.size ∧ u.size ≤ d.parser_state.input_adapter.data.length
                then d.parser_state.output_adapter.data
                  ++ d.parser_state.input_adapter.data.take u.size
                else d.parser_state.output_adapter.data) }] := by
  obtain ⟨h1, h2, h3, h4, h5, h6, h7, h8, h9, h10, h11⟩ := decode_step_parse_spec klass d e
  simp only [hp, hparse, parse_core, append_core, hstart, hend, Option.isSome_none,
    Bool.false_eq_true, ↓reduceIte, ParseResult.status, ParseResult.unit] at h1 h2 h3 h4 h8 h10 h11
  have hb : decode_step_body klass d e = decode_step_got_frame klass
      (decode_step_take_unit (decode_step_parse klass d e).decoder u.size)
      (decode_step_parse klass d e).base_frame := by
    unfold decode_step_body
    simp only [h1, h2, h3, ne_eq, not_true_eq_false, ↓reduceIte]
  rw [hb]
  obtain ⟨g1, g2⟩ := decode_step_got_frame_spec klass
    (decode_step_take_unit (decode_step_parse klass d e).decoder u.size)
    (decode_step_parse klass d e).base_frame
  obtain ⟨es, hes, -, hdis⟩ := decode_step_got_frame_log klass
    (decode_step_take_unit (decode_step_parse klass d e).decoder u.size)
    (decode_step_parse klass d e).base_frame
  obtain ⟨t1, t2⟩ := decode_step_take_unit_data (decode_step_parse klass d e).decoder u.size
  rw [h6] at t1
  rw [h6, h7] at t2
  refine ⟨by rw [g1, decode_step_take_unit_buffers, h5], by rw [g2]; exact t1,
    by rw [g2]; exact (gst_adapter_take_buffer_all _).1,
    by rw [g2]; simp [h8], by rw [g2], es, ?_, ?_⟩
  · rw [hes, decode_step_take_unit_log, h11, List.append_assoc]; rfl
  · rw [hdis, h4, (gst_adapter_take_buffer_all _).2, t2]
    rfl

/-- One pass through the body of the inner loop leaves the Input Queue alone. -/
theorem decode_step_body_buffers {σ : Type} (klass : GstVaapiDecoderClass σ)
    (d : GstVaapiDecoder σ) (e : Bool) :
    (decode_step_body klass d e).2.buffers = d.buffers := by
  obtain ⟨-, -, -, -, h5, -⟩ := decode_step_parse_spec klass d e
  unfold decode_step_body
  simp only []
  split
  · exact h5
  · split
    · rw [(decode_step_got_frame_spec klass _ _).1, decode_step_take_unit_buffers, h5]
    · rw [decode_step_take_unit_buffers, h5]

/-- A decode step that pops the EOS sentinel as the last chunk and goes through
the body of the inner loop once. -/
theorem decode_step_of_last_eos {σ : Type} (klass : GstVaapiDecoderClass σ) (fuel : Nat)
    (d : GstVaapiDecoder σ) (b : GstBuffer) (hb : d.buffers = [b]) (heos : b.eos = true)
    (hc : gst_vaapi_decoder_check_status d = SUCCESS)
    (d0 : GstVaapiDecoder σ) (hd0 : ({ d with buffers := [] } : GstVaapiDecoder σ) = d0)
    (hstop : ¬ ((decode_step_body klass d0 true).1 = SUCCESS
      ∧ gst_adapter_available
          (decode_step_body klass d0 true).2.parser_state.input_adapter > 0)) :
    decode_step klass (fuel + 2) d
      = some ((decode_step_body klass d0 true).1,
              (decode_step_body klass d0 true).2) := by
  subst hd0
  have hbuf := decode_step_body_buffers klass { d with buffers := [] } true
  simp only [] at hbuf
  unfold decode_step
  simp only [hc, ne_eq, not_true_eq_false, ↓reduceIte]
  simp only [decode_step_outer, pop_buffer, hb, heos, Bool.not_true, Bool.false_eq_true,
    ↓reduceIte, decode_step_inner, hstop]
  split
  · next hnd =>
    simp only [hbuf]
    rw [hnd]
  · rfl

/-- The decode loop of a pull whose Input Queue holds the EOS sentinel only,
when the body of the inner loop is gone through once. -/
theorem get_surface_loop_of_last_eos {σ : Type} (klass : GstVaapiDecoderClass σ) (fuel : Nat)
    (d : GstVaapiDecoder σ) (b : GstBuffer) (hb : d.buffers = [b]) (heos : b.eos = true)
    (hc : gst_vaapi_decoder_check_status d = SUCCESS)
    (d0 : GstVaapiDecoder σ) (hd0 : ({ d with buffers := [] } : GstVaapiDecoder σ) = d0)
    (hstop : ¬ ((decode_step_body klass d0 true).1 = SUCCESS
      ∧ gst_adapter_available
          (decode_step_body klass d0 true).2.parser_state.input_adapter > 0)) :
    ∃ st, st ≠ SUCCESS
      ∧ get_surface_loop klass (fuel + 2) d
          = some (st, (decode_step_body klass d0 true).2)
      ∧ ((decode_step_body klass d0 true).1 ≠ SUCCESS →
          st = (decode_step_body klass d0 true).1) := by
  subst hd0
  have hstep := decode_step_of_last_eos klass fuel d b hb heos hc _ rfl hstop
  have hbuf := decode_step_body_buffers klass { d with buffers := [] } true
  simp only [] at hbuf
  by_cases hs : (decode_step_body klass { d with buffers := [] } true).1 = SUCCESS
  · obtain ⟨st, hne, hloop, -⟩ := get_surface_loop_of_no_buffers klass fuel _ hbuf
    refine ⟨st, hne, ?_, fun h => absurd hs h⟩
    simp only [get_surface_loop, hstep, hs, ↓reduceIte] at hloop ⊢
    exact hloop
  · refine ⟨_, hs, ?_, fun _ => rfl⟩
    simp only [get_surface_loop, hstep, hs, ↓reduceIte]

/-- C10, as stated, fails: one slice has been accumulated in the current frame
and the Input Queue is drained; submitting the EOS sentinel and pulling ends
with `ERROR_NO_DATA`, nothing is handed to `do_decode`, and the slice is still
in the open current frame. -/
theorem eos_does_not_flush :
    toy_partial.buffers = []
    ∧ toy_partial.parser_state.input_adapter.data = []
    ∧ frame_units (current_frame_or_new toy_partial.parser_state)
        = [{ toy_unit 4 with offset := 0 }]
    ∧ ∃ r, gst_vaapi_decoder_get_surface (toy_klass id) 3
          (gst_vaapi_decoder_put_buffer toy_partial none).2 = some r
        ∧ r.status = ERROR_NO_DATA
        ∧ r.decoder.buffers = []
        ∧ dispatched r.decoder.log = []
        ∧ frame_units (current_frame_or_new r.decoder.parser_state)
            = [{ toy_unit 4 with offset := 0 }] := by
  refine ⟨by decide, by decide, by decide, _, rfl, by decide, by decide, by decide, by decide⟩

theorem got_frame_got_unit_units (fr : GstVaapiDecoderFrame) (u : GstVaapiDecoderUnit) :
    (got_frame (got_unit fr u)).units
      = fr.units.reverse ++ [{ u with offset := fr.output_offset }] := by
  simp [got_frame, got_unit]

/-- The outcome of a parse on the assembly state when the hook reports whole
units only: it fails with `ERROR_NO_DATA`, or it yields a unit that is either set
aside (reported size 0) or taken from the input. -/
theorem parse_core_cases (P : List Nat → ParseResult) (hP : WholeUnits P) (S : Assembly)
    (hS : S.Ready) :
    ((parse_core S.pending_unit (P S.input) S.frame).status = ERROR_NO_DATA
      ∧ S.pending_unit = none ∧ ∃ h, P S.input = ParseResult.failure ERROR_NO_DATA h)
    ∨ ((parse_core S.pending_unit (P S.input) S.frame).status = SUCCESS
      ∧ (parse_core S.pending_unit (P S.input) S.frame).got_unit_size = 0
      ∧ (parse_core S.pending_unit (P S.input) S.frame).got_frame = true
      ∧ S.pending_unit = none
      ∧ ∃ u, (parse_core S.pending_unit (P S.input) S.frame).pending_unit = some u
          ∧ 0 < u.size ∧ u.size ≤ S.input.length)
    ∨ ((parse_core S.pending_unit (P S.input) S.frame).status = SUCCESS
      ∧ 0 < (parse_core S.pending_unit (P S.input) S.frame).got_unit_size
      ∧ (parse_core S.pending_unit (P S.input) S.frame).got_unit_size ≤ S.input.length
      ∧ (parse_core S.pending_unit (P S.input) S.frame).pending_unit = none) := by
  cases hp : S.pending_unit with
  | some u =>
    obtain ⟨h1, h2⟩ := hS u hp
    right; right
    simp [parse_core, append_core, h1, h2]
  | none =>
    rcases hP S.input with ⟨h, hf⟩ | ⟨u, hu, h1, h2, -⟩
    · left
      simp [parse_core, hf]
    · by_cases hla : (u.frame_start && S.frame.prev_slice.isSome) = true
      · right; left
        have e : parse_core none (P S.input) S.frame
            = { status := SUCCESS, got_unit_size := 0, got_frame := true
                frame := got_frame S.frame, pending_unit := some u } := by
          simp only [parse_core, hu, hla, ↓reduceIte]
        rw [e]
        exact ⟨rfl, rfl, rfl, rfl, u, rfl, h1, h2⟩
      · right; right
        have e : parse_core none (P S.input) S.frame = append_core S.frame u := by
          simp only [parse_core, hu, hla]
          rfl
        rw [e]
        exact ⟨rfl, h1, h2, rfl⟩

/-- With more bytes in the input a parse that succeeded has the same outcome. -/
theorem parse_core_push (P : List Nat → ParseResult) (hP : WholeUnits P) (S : Assembly)
    (more : List Nat)
    (hs : (parse_core S.pending_unit (P S.input) S.frame).status = SUCCESS) :
    parse_core S.pending_unit (P (S.input ++ more)) S.frame
      = parse_core S.pending_unit (P S.input) S.frame := by
  cases hp : S.pending_unit with
  | some u => rfl
  | none =>
    rcases hP S.input with ⟨h, hf⟩ | ⟨u, hu, -, -, h3⟩
    · rw [hp] at hs
      simp [parse_core, hf] at hs
    · rw [h3 more, hu]

theorem assembly_step_ready (P : List Nat → ParseResult) (hP : WholeUnits P) (S S1 : Assembly)
    (o : Option GstVideoCodecFrame) (hS : S.Ready) (h : assembly_step P S = some (S1, o)) :
    S1.Ready := by
  unfold assembly_step at h
  simp only [] at h
  rcases parse_core_cases P hP S hS with
    ⟨c1, -, -⟩ | ⟨c1, c2, c3, -, u, c4, c5, c6⟩ | ⟨c1, c2, c3, c4⟩
  · simp [c1] at h
  · simp only [c1, c2, c3, c4, ne_eq, not_true_eq_false, ↓reduceIte, Nat.lt_irrefl, false_and,
      Option.some.injEq, Prod.mk.injEq] at h
    obtain ⟨h, -⟩ := h
    subst h
    intro w hw
    simp only [Option.some.injEq] at hw
    subst hw
    exact ⟨c5, c6⟩
  · simp only [c1, c4, ne_eq, not_true_eq_false, ↓reduceIte] at h
    intro w hw
    split at h <;>
    · simp only [Option.some.injEq, Prod.mk.injEq] at h
      obtain ⟨h, -⟩ := h
      subst h
      simp at hw

theorem assembly_step_push (P : List Nat → ParseResult) (hP : WholeUnits P) (S S1 : Assembly)
    (o : Option GstVideoCodecFrame) (more : List Nat) (hS : S.Ready)
    (h : assembly_step P S = some (S1, o)) :
    assembly_step P (S.push more) = some (S1.push more, o) := by
  unfold assembly_step at h ⊢
  simp only [] at h ⊢
  have hst : (parse_core S.pending_unit (P S.input) S.frame).status = SUCCESS := by
    by_contra hne
    simp [hne] at h
  have hpush := parse_core_push P hP S more hst
  simp only [Assembly.push] at hpush ⊢
  rw [hpush]
  rcases parse_core_cases P hP S hS with ⟨c1, -, -⟩ | ⟨c1, c2, c3, -, -⟩ | ⟨c1, c2, c3, c4⟩
  · simp [c1] at hst
  · simp only [c1, c2, c3, ne_eq, not_true_eq_false, ↓reduceIte, Nat.lt_irrefl, false_and,
      Option.some.injEq, Prod.mk.injEq] at h ⊢
    obtain ⟨h1, h2⟩ := h
    subst h1; subst h2
    exact ⟨rfl, rfl⟩
  · have hm : 0 < (parse_core S.pending_unit (P S.input) S.frame).got_unit_size
        ∧ (parse_core S.pending_unit (P S.input) S.frame).got_unit_size ≤ S.input.length :=
      ⟨c2, c3⟩
    have hm2 : 0 < (parse_core S.pending_unit (P S.input) S.frame).got_unit_size
        ∧ (parse_core S.pending_unit (P S.input) S.frame).got_unit_size
          ≤ (S.input ++ more).length := ⟨c2, by rw [List.length_append]; omega⟩
    simp only [c1, hm, hm2, ne_eq, not_true_eq_false, ↓reduceIte, and_self] at h ⊢
    rw [List.drop_append_of_le_length c3, List.take_append_of_le_length c3]
    split at h <;>
    · simp only [Option.some.injEq, Prod.mk.injEq] at h
      obtain ⟨h1, h2⟩ := h
      subst h1; subst h2
      simp [*]

theorem assembly_step_measure (P : List Nat → ParseResult) (hP : WholeUnits P) (S S1 : Assembly)
    (o : Option GstVideoCodecFrame) (hS : S.Ready) (h : assembly_step P S = some (S1, o)) :
    S1.measure < S.measure := by
  unfold assembly_step at h
  simp only [] at h
  rcases parse_core_cases P hP S hS with
    ⟨c1, -, -⟩ | ⟨c1, c2, c3, c0, u, c4, -, -⟩ | ⟨c1, c2, c3, c4⟩
  · simp [c1] at h
  · simp only [c1, c2, c3, c4, ne_eq, not_true_eq_false, ↓reduceIte, Nat.lt_irrefl, false_and,
      Option.some.injEq, Prod.mk.injEq] at h
    obtain ⟨h, -⟩ := h
    subst h
    simp [Assembly.measure, c0]
  · have hm : 0 < (parse_core S.pending_unit (P S.input) S.frame).got_unit_size
        ∧ (parse_core S.pending_unit (P S.input) S.frame).got_unit_size ≤ S.input.length :=
      ⟨c2, c3⟩
    simp only [c1, c4, hm, ne_eq, not_true_eq_false, ↓reduceIte, and_self] at h
    have key : 2 * (S.input.drop
        (parse_core S.pending_unit (P S.input) S.frame).got_unit_size).length + 1
          < S.measure := by
      unfold Assembly.measure
      rw [List.length_drop]
      split <;> omega
    split at h <;>
    · simp only [Option.some.injEq, Prod.mk.injEq] at h
      obtain ⟨h, -⟩ := h
      subst h
      simpa [Assembly.measure] using key

/-- With nothing in the input adapter the parser needs more input. -/
theorem assembly_step_of_no_input (P : List Nat → ParseResult) (hP : WholeUnits P) (S : Assembly)
    (hS : S.Ready) (hin : S.input = []) : assembly_step P S = none := by
  unfold assembly_step
  simp only []
  have hl : S.input.length = 0 := by rw [hin]; rfl
  rcases parse_core_cases P hP S hS with ⟨c1, -, -⟩ | ⟨-, -, -, -, u, -, c5, c6⟩ | ⟨-, c2, c3, -⟩
  · simp [c1]
  · omega
  · omega

/-- A step that is not possible is a parse that reported `ERROR_NO_DATA`. -/
theorem assembly_step_none (P : List Nat → ParseResult) (hP : WholeUnits P) (S : Assembly)
    (hS : S.Ready) (h : assembly_step P S = none) :
    (parse_core S.pending_unit (P S.input) S.frame).status = ERROR_NO_DATA := by
  unfold assembly_step at h
  simp only [] at h
  rcases parse_core_cases P hP S hS with ⟨c1, -, -⟩ | ⟨c1, -⟩ | ⟨c1, -⟩
  · exact c1
  · simp only [c1, ne_eq, not_true_eq_false, ↓reduceIte] at h
    split at h <;> simp at h
  · simp only [c1, ne_eq, not_true_eq_false, ↓reduceIte] at h
    split at h <;> simp at h

theorem steps_trans {P : List Nat → ParseResult} {S S1 S2 : Assembly}
    {fs1 fs2 : List GstVideoCodecFrame} (h1 : Steps P S fs1 S1) (h2 : Steps P S1 fs2 S2) :
    Steps P S (fs1 ++ fs2) S2 := by
  induction h1 with
  | refl S => simpa using h2
  | step hs _ ih =>
    rw [List.append_assoc]
    exact Steps.step hs (ih h2)

theorem steps_ready {P : List Nat → ParseResult} (hP : WholeUnits P) {S S1 : Assembly}
    {fs : List GstVideoCodecFrame} (h : Steps P S fs S1) (hS : S.Ready) : S1.Ready := by
  induction h with
  | refl S => exact hS
  | step hs _ ih => exact ih (assembly_step_ready P hP _ _ _ hS hs)

/-- Steps taken stay possible, with the same frames, when more bytes are in the
input adapter. -/
theorem steps_push {P : List Nat → ParseResult} (hP : WholeUnits P) {S S1 : Assembly}
    {fs : List GstVideoCodecFrame} (h : Steps P S fs S1) (hS : S.Ready) (more : List Nat) :
    Steps P (S.push more) fs (S1.push more) := by
  induction h with
  | refl S => exact Steps.refl _
  | step hs _ ih =>
    exact Steps.step (assembly_step_push P hP _ _ _ more hS hs)
      (ih (assembly_step_ready P hP _ _ _ hS hs))

/-- Steps up to the point where the parser needs more input are determined by
the starting state. -/
theorem steps_unique {P : List Nat → ParseResult} {S S1 S2 : Assembly}
    {fs1 fs2 : List GstVideoCodecFrame} (h1 : Steps P S fs1 S1)
    (e1 : assembly_step P S1 = none) (h2 : Steps P S fs2 S2) (e2 : assembly_step P S2 = none) :
    fs1 = fs2 ∧ S1 = S2 := by
  induction h1 generalizing fs2 with
  | refl S =>
    cases h2 with
    | refl => exact ⟨rfl, rfl⟩
    | step hs _ => rw [e1] at hs; cases hs
  | step hs _ ih =>
    cases h2 with
    | refl => rw [e2] at hs; cases hs
    | step hs2 h2 =>
      rw [hs] at hs2
      injection hs2 with hs2
      injection hs2 with ha hb
      subst ha; subst hb
      obtain ⟨i1, i2⟩ := ih e1 h2
      exact ⟨by rw [i1], i2⟩

theorem assembly_push_nil (S : Assembly) : S.push [] = S := by
  simp [Assembly.push]

theorem assembly_push_push (S : Assembly) (xs ys : List Nat) :
    (S.push xs).push ys = S.push (xs ++ ys) := by
  simp [Assembly.push]

theorem assembly_push_ready {S : Assembly} (hS : S.Ready) (more : List Nat) :
    (S.push more).Ready := by
  intro u hu
  obtain ⟨h1, h2⟩ := hS u hu
  refine ⟨h1, ?_⟩
  simp only [Assembly.push, List.length_append]
  omega

theorem assembly_feed_ready {S : Assembly} (hS : S.Ready) (b : GstBuffer) :
    (S.feed b).Ready := by
  unfold Assembly.feed
  split
  · exact hS
  · exact assembly_push_ready hS _

theorem feed_append {P : List Nat → ParseResult} {S S1 S2 : Assembly} {xs ys : List GstBuffer}
    {fs1 fs2 : List GstVideoCodecFrame} (h1 : Feed P S xs fs1 S1) (h2 : Feed P S1 ys fs2 S2) :
    Feed P S (xs ++ ys) (fs1 ++ fs2) S2 := by
  induction h1 with
  | nil S => simpa using h2
  | cons hs hn _ ih =>
    rw [List.append_assoc]
    exact Feed.cons hs hn (ih h2)

/-- Feeding chunks one after the other and then the EOS sentinel amounts to
steps on all their bytes at once. -/
theorem feed_steps {P : List Nat → ParseResult} (hP : WholeUnits P) (bufs : List GstBuffer) :
    ∀ (S S2 : Assembly) (fs : List GstVideoCodecFrame), S.Ready →
      Feed P S (bufs ++ [{ data := none, eos := true }]) fs S2 →
      (∀ b ∈ bufs, b.eos = false) →
      Steps P (S.push (bufs.map (fun b => b.data.getD [])).flatten) fs S2
        ∧ assembly_step P S2 = none := by
  induction bufs with
  | nil =>
    intro S S2 fs hS h _
    cases h with
    | cons hs hn hrest =>
      cases hrest
      simp only [List.map_nil, List.flatten_nil, assembly_push_nil, List.append_nil]
      exact ⟨by simpa [Assembly.feed] using hs, hn⟩
  | cons b rest ih =>
    intro S S2 fs hS h hb
    cases h with
    | cons hs hn hrest =>
      have hbe : b.eos = false := hb b (List.mem_cons_self _ _)
      have hS1 := steps_ready hP hs (assembly_feed_ready hS b)
      obtain ⟨i1, i2⟩ := ih _ _ _ hS1 hrest (fun x hx => hb x (List.mem_cons_of_mem _ hx))
      refine ⟨?_, i2⟩
      have hfeed : S.feed b = S.push (b.data.getD []) := by simp [Assembly.feed, hbe]
      rw [hfeed] at hs
      have := steps_push hP hs (assembly_push_ready hS _)
        (rest.map (fun b => b.data.getD [])).flatten
      rw [assembly_push_push] at this
      simp only [List.map_cons, List.flatten_cons]
      exact steps_trans this i1

theorem run_calls_succeeds {σ : Type} (cs : List (BoundCall σ))
    (h : ∀ c ∈ cs, ∀ v, (c.2 v).1 = SUCCESS) :
    ∀ d : GstVaapiDecoder σ, (run_calls cs d).1 = SUCCESS := by
  induction cs with
  | nil => intro d; rfl
  | cons c cs ih =>
    intro d
    have hc : (run_call d c).1 = SUCCESS := h c (List.mem_cons_self _ _) d.view
    simp only [run_calls, hc, ne_eq, not_true_eq_false, ↓reduceIte]
    exact ih (fun c' hc' => h c' (List.mem_cons_of_mem _ hc')) _

theorem run_calls_context {σ : Type} (cs : List (BoundCall σ))
    (h : ∀ c ∈ cs, ∀ v : CodecView σ, v.context ≠ some 0 → (c.2 v).2.context ≠ some 0) :
    ∀ d : GstVaapiDecoder σ, d.context ≠ some 0 → (run_calls cs d).2.context ≠ some 0 := by
  induction cs with
  | nil => intro d hd; exact hd
  | cons c cs ih =>
    intro d hd
    have hc : (run_call d c).2.context ≠ some 0 := h c (List.mem_cons_self _ _) d.view hd
    simp only [run_calls]
    split
    · exact hc
    · exact ih (fun c' hc' => h c' (List.mem_cons_of_mem _ hc')) _ hc

/-- Every call planned by `do_decode` is a call of a hook of the class. -/
theorem planned_calls_mem {σ : Type} (klass : GstVaapiDecoderClass σ)
    (units : List GstVaapiDecoderUnit) (c : BoundCall σ) (hc : c ∈ planned_calls klass units) :
    (∃ sf u, klass.start_frame = some sf ∧ c.2 = fun v => sf v u)
    ∨ (∃ u, c.2 = fun v => klass.decode v u)
    ∨ (∃ ef, klass.end_frame = some ef ∧ c.2 = ef) := by
  unfold planned_calls at hc
  simp only [List.mem_append, List.mem_map, List.mem_filter] at hc
  rcases hc with (hc | ⟨w, -, rfl⟩) | hc
  · cases hsf : klass.start_frame with
    | none => simp [hsf] at hc
    | some sf =>
      simp only [hsf] at hc
      cases hf : List.find? (fun u => u.slice) units with
      | none => simp [hf] at hc
      | some w =>
        simp [hf] at hc
        subst hc
        exact Or.inl ⟨sf, w, rfl, rfl⟩
  · exact Or.inr (Or.inl ⟨w, rfl⟩)
  · cases hef : klass.end_frame with
    | none => simp [hef] at hc
    | some ef =>
      simp [hef] at hc
      subst hc
      exact Or.inr (Or.inr ⟨ef, rfl, rfl⟩)

theorem do_decode_succeeds {σ : Type} (klass : GstVaapiDecoderClass σ)
    (hdecode : DecodeSucceeds klass) (d : GstVaapiDecoder σ) (bf : GstVideoCodecFrame) :
    (do_decode klass d bf).1 = SUCCESS := by
  rw [do_decode_eq_run_calls]
  apply run_calls_succeeds
  intro c hc v
  rcases planned_calls_mem klass _ c hc with ⟨sf, u, h1, h2⟩ | ⟨u, h2⟩ | ⟨ef, h1, h2⟩
  · rw [h2]; exact hdecode.2.1 sf h1 v u
  · rw [h2]; exact hdecode.1 v u
  · rw [h2]; exact hdecode.2.2 ef h1 v

theorem do_decode_context {σ : Type} (klass : GstVaapiDecoderClass σ)
    (hsurface : KeepsSurface klass) (d : GstVaapiDecoder σ) (bf : GstVideoCodecFrame)
    (hd : d.context ≠ some 0) : (do_decode klass d bf).2.context ≠ some 0 := by
  rw [do_decode_eq_run_calls]
  apply run_calls_context
  · intro c hc v hv
    rcases planned_calls_mem klass _ c hc with ⟨sf, u, h1, h2⟩ | ⟨u, h2⟩ | ⟨ef, h1, h2⟩
    · rw [h2]; exact hsurface.2.2.1 sf h1 v u hv
    · rw [h2]; exact hsurface.2.1 v u hv
    · rw [h2]; exact hsurface.2.2.2 ef h1 v hv
  · exact hd

/-- A parse that fails adds nothing to the frame and sets no unit aside. -/
theorem parse_core_failure (pending : Option GstVaapiDecoderUnit) (res : ParseResult)
    (frame : GstVaapiDecoderFrame) (h : (parse_core pending res frame).status ≠ SUCCESS) :
    pending = none ∧ (parse_core pending res frame).pending_unit = none
    ∧ (parse_core pending res frame).frame = frame := by
  cases pending with
  | some u => simp [parse_core, append_core] at h
  | none =>
    cases res with
    | failure s hs => exact ⟨rfl, rfl, rfl⟩
    | success u =>
      simp only [parse_core, append_core] at h
      split at h <;> simp at h

theorem current_decoder_frame_of_some (ps : GstVaapiParserState) (bf : GstVideoCodecFrame)
    (fr : GstVaapiDecoderFrame) (h1 : ps.current_frame = some bf) (h2 : bf.user_data = some fr) :
    current_decoder_frame ps = fr := by
  simp [current_decoder_frame, current_frame_or_new, h1, h2]

theorem current_decoder_frame_of_none (ps : GstVaapiParserState) (h1 : ps.current_frame = none) :
    current_decoder_frame ps = gst_vaapi_decoder_frame_new := by
  simp [current_decoder_frame, current_frame_or_new, h1, g_slice_new0]

/-- One pass through the body of the inner loop, seen on the assembly state. -/
theorem decode_step_body_refines {σ : Type} (klass : GstVaapiDecoderClass σ)
    (P : List Nat → ParseResult) (hparse : ParsesByBytes klass P)
    (hdecode : DecodeSucceeds klass) (d : GstVaapiDecoder σ) (e : Bool) :
    (assembly_step P (assembly_of d.parser_state) = none →
      (decode_step_body klass d e).1
          = (parse_core d.parser_state.pending_unit (P d.parser_state.input_adapter.data)
              (current_decoder_frame d.parser_state)).status
      ∧ (decode_step_body klass d e).1 ≠ SUCCESS
      ∧ assembly_of (decode_step_body klass d e).2.parser_state = assembly_of d.parser_state
      ∧ ∃ es, (decode_step_body klass d e).2.log = d.log ++ es ∧ dispatched es = [])
    ∧ (∀ S1 o, assembly_step P (assembly_of d.parser_state) = some (S1, o) →
      (decode_step_body klass d e).1 = SUCCESS
      ∧ assembly_of (decode_step_body klass d e).2.parser_state = S1
      ∧ ∃ es, (decode_step_body klass d e).2.log = d.log ++ es ∧ dispatched es = o.toList) := by
  obtain ⟨h1, h2, h3, h4, h5, h6, h7, h8, h9, h10, h11⟩ := decode_step_parse_spec klass d e
  rw [hparse] at h1 h2 h3 h4 h8
  obtain ⟨esp, hesp, -, hdp⟩ := decode_step_parse_log klass d e
  generalize hc : parse_core d.parser_state.pending_unit (P d.parser_state.input_adapter.data)
    (current_decoder_frame d.parser_state) = c at h1 h2 h3 h4 h8
  have hstep : assembly_step P (assembly_of d.parser_state)
      = (if c.status ≠ SUCCESS then none
        else
          if c.got_frame then
            some ({ input := (decode_step_take_unit (decode_step_parse klass d e).decoder
                      c.got_unit_size).parser_state.input_adapter.data
                    output := []
                    frame := gst_vaapi_decoder_frame_new
                    pending_unit := c.pending_unit },
                  some { user_data := some c.frame
                         input_buffer := payload_of (decode_step_take_unit
                            (decode_step_parse klass d e).decoder
                            c.got_unit_size).parser_state.output_adapter.data })
          else
            some ({ input := (decode_step_take_unit (decode_step_parse klass d e).decoder
                      c.got_unit_size).parser_state.input_adapter.data
                    output := (decode_step_take_unit (decode_step_parse klass d e).decoder
                      c.got_unit_size).parser_state.output_adapter.data
                    frame := c.frame
                    pending_unit := c.pending_unit }, none)) := by
    obtain ⟨t1, t2⟩ := decode_step_take_unit_data (decode_step_parse klass d e).decoder
      c.got_unit_size
    rw [h6] at t1
    rw [h6, h7] at t2
    rw [t1, t2]
    unfold assembly_step assembly_of
    simp only [hc]
  by_cases hs : c.status = SUCCESS
  · by_cases hg : c.got_frame = true
    · have hb : decode_step_body klass d e = decode_step_got_frame klass
          (decode_step_take_unit (decode_step_parse klass d e).decoder c.got_unit_size)
          (decode_step_parse klass d e).base_frame := by
        unfold decode_step_body
        simp only [h1, h2, h3, hs, hg, ne_eq, not_true_eq_false, ↓reduceIte]
      simp only [hs, hg, ne_eq, not_true_eq_false, ↓reduceIte] at hstep
      rw [hstep, hb]
      refine ⟨fun h => (nomatch h), ?_⟩
      intro S1 o hso
      injection hso with hso
      injection hso with ha hb
      subst ha; subst hb
      obtain ⟨g1, g2⟩ := decode_step_got_frame_spec klass
        (decode_step_take_unit (decode_step_parse klass d e).decoder c.got_unit_size)
        (decode_step_parse klass d e).base_frame
      obtain ⟨es, hes, -, hdis⟩ := decode_step_got_frame_log klass
        (decode_step_take_unit (decode_step_parse klass d e).decoder c.got_unit_size)
        (decode_step_parse klass d e).base_frame
      refine ⟨?_, ?_, esp ++ es, ?_, ?_⟩
      · unfold decode_step_got_frame
        exact do_decode_succeeds klass hdecode _ _
      · unfold assembly_of
        rw [current_decoder_frame_of_none _ (by rw [g2]), g2]
        simp [(gst_adapter_take_buffer_all _).1, h8]
      · rw [hes, decode_step_take_unit_log, hesp, List.append_assoc]
      · rw [dispatched_append, hdp, hdis, h4, (gst_adapter_take_buffer_all _).2]
        rfl
    · have hb : decode_step_body klass d e = (SUCCESS,
          decode_step_take_unit (decode_step_parse klass d e).decoder c.got_unit_size) := by
        unfold decode_step_body
        simp only [h1, h2, h3, hs, hg, ne_eq, not_true_eq_false, ↓reduceIte, Bool.false_eq_true]
      simp only [hs, hg, ne_eq, not_true_eq_false, ↓reduceIte, Bool.false_eq_true] at hstep
      rw [hstep, hb]
      refine ⟨fun h => (nomatch h), ?_⟩
      intro S1 o hso
      injection hso with hso
      injection hso with ha hb
      subst ha; subst hb
      refine ⟨rfl, ?_, esp, ?_, ?_⟩
      · unfold assembly_of
        rw [current_decoder_frame_of_some _ _ c.frame
          (by rw [decode_step_take_unit_current_frame, h9]) (by rw [h4])]
        simp [h8]
      · rw [decode_step_take_unit_log, hesp]
      · rw [hdp]; rfl
  · have hb : decode_step_body klass d e
        = (c.status, (decode_step_parse klass d e).decoder) := by
      unfold decode_step_body
      simp only [h1, hs, ne_eq, not_false_eq_true, ↓reduceIte]
    simp only [hs, ne_eq, not_false_eq_true, ↓reduceIte] at hstep
    rw [hstep, hb]
    refine ⟨fun _ => ?_, fun S1 o h => nomatch h⟩
    obtain ⟨p1, p2, p3⟩ := parse_core_failure _ _ _ (hc ▸ hs)
    rw [hc] at p2 p3
    refine ⟨rfl, hs, ?_, esp, hesp, hdp⟩
    unfold assembly_of
    rw [current_decoder_frame_of_some _ _ c.frame h9 (by rw [h4]), h6, h7, h8, p2, p3, p1]

theorem decode_step_body_context {σ : Type} (klass : GstVaapiDecoderClass σ)
    (hsurface : KeepsSurface klass) (d : GstVaapiDecoder σ) (e : Bool)
    (hd : d.context ≠ some 0) : (decode_step_body klass d e).2.context ≠ some 0 := by
  obtain ⟨-, -, -, -, -, -, -, -, -, h10, -⟩ := decode_step_parse_spec klass d e
  have hr : (decode_step_parse klass d e).decoder.context ≠ some 0 := by
    have h := congrArg CodecView.context h10
    change (decode_step_parse klass d e).decoder.context = _ at h
    rw [h]
    split
    · exact hd
    · exact hsurface.1 _ _ _ hd
  have ht : ∀ n, (decode_step_take_unit (decode_step_parse klass d e).decoder n).context
      ≠ some 0 := by
    intro n
    have h := congrArg CodecView.context
      (decode_step_take_unit_view (decode_step_parse klass d e).decoder n)
    change (decode_step_take_unit (decode_step_parse klass d e).decoder n).context = _ at h
    rw [h]
    exact hr
  unfold decode_step_body
  simp only []
  split
  · exact hr
  · split
    · unfold decode_step_got_frame
      exact do_decode_context klass hsurface _ _ (ht _)
    · exact ht _

/-- More fuel does not change the result of the inner loop. -/
theorem decode_step_inner_mono {σ : Type} (klass : GstVaapiDecoderClass σ) (e : Bool)
    (n : Nat) : ∀ (m : Nat) (d : GstVaapiDecoder σ) (r : GstVaapiDecoderStatus × GstVaapiDecoder σ),
    n ≤ m → decode_step_inner klass e n d = some r → decode_step_inner klass e m d = some r := by
  induction n with
  | zero => intro m d r _ h; simp [decode_step_inner] at h
  | succ n ih =>
    intro m d r hnm h
    obtain ⟨m, rfl⟩ : ∃ k, m = k + 1 := ⟨m - 1, by omega⟩
    simp only [decode_step_inner] at h ⊢
    split at h
    · next hc => simp only [hc, and_self, ↓reduceIte]; exact ih m _ _ (by omega) h
    · next hc => simp only [hc, ↓reduceIte]; exact h

/-- More fuel does not change the result of the outer loop. -/
theorem decode_step_outer_mono {σ : Type} (klass : GstVaapiDecoderClass σ)
    (n : Nat) : ∀ (m : Nat) (d : GstVaapiDecoder σ) (r : GstVaapiDecoderStatus × GstVaapiDecoder σ),
    n ≤ m → decode_step_outer klass n d = some r → decode_step_outer klass m d = some r := by
  induction n with
  | zero => intro m d r _ h; simp [decode_step_outer] at h
  | succ n ih =>
    intro m d r hnm h
    obtain ⟨m, rfl⟩ : ∃ k, m = k + 1 := ⟨m - 1, by omega⟩
    simp only [decode_step_outer] at h ⊢
    split at h
    · next heq => exact h
    · next b d1 heq =>
      try simp only [heq]
      try simp only [] at h ⊢
      split at h
      · cases h
      · next st d2 hin =>
        rw [decode_step_inner_mono klass _ (n + 1) (m + 1) _ _ (by omega) hin]
        simp only []
        split at h
        · next hnd => simp only [hnd, ↓reduceIte]; exact ih m _ _ (by omega) h
        · next hnd => simp only [hnd, ↓reduceIte]; exact h

theorem decode_step_mono {σ : Type} (klass : GstVaapiDecoderClass σ)
    (n m : Nat) (d : GstVaapiDecoder σ) (r : GstVaapiDecoderStatus × GstVaapiDecoder σ)
    (hnm : n ≤ m) (h : decode_step klass n d = some r) : decode_step klass m d = some r := by
  unfold decode_step at h ⊢
  simp only [] at h ⊢
  split at h
  · next hc => rw [if_pos hc]; exact h
  · next hc => rw [if_neg hc]; exact decode_step_outer_mono klass n m d r hnm h

theorem get_surface_loop_mono {σ : Type} (klass : GstVaapiDecoderClass σ)
    (n : Nat) : ∀ (m : Nat) (d : GstVaapiDecoder σ) (r : GstVaapiDecoderStatus × GstVaapiDecoder σ),
    n ≤ m → get_surface_loop klass n d = some r → get_surface_loop klass m d = some r := by
  induction n with
  | zero => intro m d r _ h; simp [get_surface_loop] at h
  | succ n ih =>
    intro m d r hnm h
    obtain ⟨m, rfl⟩ : ∃ k, m = k + 1 := ⟨m - 1, by omega⟩
    simp only [get_surface_loop] at h ⊢
    split at h
    · cases h
    · next st d2 hstep =>
      rw [decode_step_mono klass (n + 1) (m + 1) _ _ (by omega) hstep]
      simp only []
      split at h
      · next hs => simp only [hs, ↓reduceIte]; exact ih m _ _ (by omega) h
      · next hs => simp only [hs, ↓reduceIte]; exact h

theorem gst_vaapi_decoder_get_surface_mono {σ : Type} (klass : GstVaapiDecoderClass σ)
    (n m : Nat) (d : GstVaapiDecoder σ) (r : PullResult σ)
    (hnm : n ≤ m) (h : gst_vaapi_decoder_get_surface klass n d = some r) :
    gst_vaapi_decoder_get_surface klass m d = some r := by
  unfold gst_vaapi_decoder_get_surface at h ⊢
  split at h
  · next f d1 heq => exact h
  · next d1 heq =>
    try simp only [heq]
    split at h
    · cases h
    · next st d2 hloop =>
      rw [get_surface_loop_mono klass n m _ _ hnm hloop]
      exact h

/-- More fuel does not change the result of pulling until it stops. -/
theorem pull_until_stop_mono {σ : Type} (klass : GstVaapiDecoderClass σ)
    (n : Nat) : ∀ (m : Nat) (d r : GstVaapiDecoder σ),
    n ≤ m → pull_until_stop klass n d = some r → pull_until_stop klass m d = some r := by
  induction n with
  | zero => intro m d r _ h; simp [pull_until_stop] at h
  | succ n ih =>
    intro m d r hnm h
    obtain ⟨m, rfl⟩ : ∃ k, m = k + 1 := ⟨m - 1, by omega⟩
    simp only [pull_until_stop] at h ⊢
    split at h
    · cases h
    · next pr hget =>
      rw [gst_vaapi_decoder_get_surface_mono klass (n + 1) (m + 1) _ _ (by omega) hget]
      simp only []
      split at h
      · next hs => simp only [hs, ↓reduceIte]; exact ih m _ _ (by omega) h
      · next hs => simp only [hs, ↓reduceIte]; exact h

/-- The inner loop of `decode_step` takes steps on the assembly state until
the parser needs more input. -/
theorem decode_step_inner_run {σ : Type} (klass : GstVaapiDecoderClass σ)
    (P : List Nat → ParseResult) (hparse : ParsesByBytes klass P) (hunits : WholeUnits P)
    (hdecode : DecodeSucceeds klass) (hsurface : KeepsSurface klass) (e : Bool) (k : Nat) :
    ∀ d : GstVaapiDecoder σ, (assembly_of d.parser_state).Ready →
      (assembly_of d.parser_state).measure ≤ k → d.context ≠ some 0 →
      ∃ st d2 fs, decode_step_inner klass e (k + 1) d = some (st, d2)
        ∧ (st = SUCCESS ∨ st = ERROR_NO_DATA)
        ∧ Steps P (assembly_of d.parser_state) fs (assembly_of d2.parser_state)
        ∧ assembly_step P (assembly_of d2.parser_state) = none
        ∧ (∃ es, d2.log = d.log ++ es ∧ dispatched es = fs)
        ∧ d2.buffers = d.buffers ∧ d2.context ≠ some 0 := by
  induction k with
  | zero =>
    intro d hready hm hctx
    obtain ⟨href1, href2⟩ := decode_step_body_refines klass P hparse hdecode d e
    have hb := decode_step_body_buffers klass d e
    have hc := decode_step_body_context klass hsurface d e hctx
    cases hstep : assembly_step P (assembly_of d.parser_state) with
    | some x =>
      have := assembly_step_measure P hunits _ _ _ hready hstep
      omega
    | none =>
      obtain ⟨r1, r2, r3, es, r4, r5⟩ := href1 hstep
      have hnd := assembly_step_none P hunits _ hready hstep
      refine ⟨_, _, [], ?_, Or.inr (r1.trans hnd), ?_, ?_, ⟨es, r4, r5⟩, hb, hc⟩
      · simp only [decode_step_inner, r2, false_and, ↓reduceIte]
      · rw [r3]; exact Steps.refl _
      · rw [r3]; exact hstep
  | succ k ih =>
    intro d hready hm hctx
    obtain ⟨href1, href2⟩ := decode_step_body_refines klass P hparse hdecode d e
    have hb := decode_step_body_buffers klass d e
    have hc := decode_step_body_context klass hsurface d e hctx
    cases hstep : assembly_step P (assembly_of d.parser_state) with
    | none =>
      obtain ⟨r1, r2, r3, es, r4, r5⟩ := href1 hstep
      have hnd := assembly_step_none P hunits _ hready hstep
      refine ⟨_, _, [], ?_, Or.inr (r1.trans hnd), ?_, ?_, ⟨es, r4, r5⟩, hb, hc⟩
      · simp only [decode_step_inner, r2, false_and, ↓reduceIte]
      · rw [r3]; exact Steps.refl _
      · rw [r3]; exact hstep
    | some x =>
      obtain ⟨S1, o⟩ := x
      obtain ⟨r1, r2, es, r4, r5⟩ := href2 S1 o hstep
      have hready1 : (assembly_of (decode_step_body klass d e).2.parser_state).Ready := by
        rw [r2]; exact assembly_step_ready P hunits _ _ _ hready hstep
      have hm1 := assembly_step_measure P hunits _ _ _ hready hstep
      by_cases hav : gst_adapter_available
          (decode_step_body klass d e).2.parser_state.input_adapter > 0
      · obtain ⟨st, d2, fs, i1, i2, i3, i4, ⟨es2, i5, i6⟩, i7, i8⟩ :=
          ih (decode_step_body klass d e).2 hready1 (by rw [r2]; omega) hc
        refine ⟨st, d2, o.toList ++ fs, ?_, i2, ?_, i4, ⟨es ++ es2, ?_, ?_⟩, i7.trans hb, i8⟩
        · rw [decode_step_inner]
          simp only [r1, hav, and_self, ↓reduceIte]
          exact i1
        · rw [r2] at i3
          exact Steps.step hstep i3
        · rw [i5, r4, List.append_assoc]
        · rw [dispatched_append, r5, i6]
      · refine ⟨SUCCESS, (decode_step_body klass d e).2, o.toList, ?_, Or.inl rfl, ?_, ?_,
          ⟨es, r4, r5⟩, hb, hc⟩
        · rw [decode_step_inner]
          simp only [r1, hav, and_false, ↓reduceIte]
        · rw [r2]
          have := Steps.step hstep (Steps.refl S1)
          simpa using this
        · apply assembly_step_of_no_input P hunits _ hready1
          have : (decode_step_body klass d e).2.parser_state.input_adapter.data.length = 0 := by
            unfold gst_adapter_available at hav
            omega
          exact List.length_eq_zero.mp this

/-- Popping a chunk and feeding the input adapter, seen on the assembly
state. -/
theorem assembly_of_fed (ps : GstVaapiParserState) (b : GstBuffer) :
    assembly_of (if (!b.eos) = true then
        { ps with input_adapter := gst_adapter_push ps.input_adapter (some (b.data.getD [])) }
      else ps) = (assembly_of ps).feed b := by
  cases hb : b.eos <;> simp [Assembly.feed, hb, assembly_of, Assembly.push, gst_adapter_push,
    current_decoder_frame, current_frame_or_new]

/-- The outer loop of `decode_step` feeds chunks from the Input Queue until a
step succeeds with the input adapter emptied, or the queue is drained. -/
theorem decode_step_outer_run {σ : Type} (klass : GstVaapiDecoderClass σ)
    (P : List Nat → ParseResult) (hparse : ParsesByBytes klass P) (hunits : WholeUnits P)
    (hdecode : DecodeSucceeds klass) (hsurface : KeepsSurface klass)
    (bufs : List GstBuffer) :
    ∀ d : GstVaapiDecoder σ, d.buffers = bufs → (assembly_of d.parser_state).Ready →
      d.context ≠ some 0 →
      ∃ fuel st d2 consumed fs, decode_step_outer klass fuel d = some (st, d2)
        ∧ d.buffers = consumed ++ d2.buffers
        ∧ Feed P (assembly_of d.parser_state) consumed fs (assembly_of d2.parser_state)
        ∧ (∃ es, d2.log = d.log ++ es ∧ dispatched es = fs)
        ∧ (assembly_of d2.parser_state).Ready ∧ d2.context ≠ some 0
        ∧ ((st = ERROR_NO_DATA ∧ d2.buffers = []) ∨ (st = SUCCESS ∧ consumed ≠ [])) := by
  induction bufs with
  | nil =>
    intro d hb hready hctx
    refine ⟨1, ERROR_NO_DATA, d, [], [], ?_, by simp [hb], Feed.nil _, ⟨[], by simp, rfl⟩,
      hready, hctx, Or.inl ⟨rfl, hb⟩⟩
    simp [decode_step_outer, pop_buffer, hb]
  | cons b rest ih =>
    intro d hb hready hctx
    generalize hd1 : ({ d with
        buffers := rest
        parser_state := (if (!b.eos) = true then
          { d.parser_state with input_adapter := gst_adapter_push d.parser_state.input_adapter (some (b.data.getD [])) }
          else d.parser_state) } : GstVaapiDecoder σ) = d1
    have hasm : assembly_of d1.parser_state = (assembly_of d.parser_state).feed b := by
      rw [← hd1]; exact assembly_of_fed _ _
    have hlog1 : d1.log = d.log := by rw [← hd1]
    have hbuf1 : d1.buffers = rest := by rw [← hd1]
    have hctx1 : d1.context ≠ some 0 := by rw [← hd1]; exact hctx
    have hready1 : (assembly_of d1.parser_state).Ready := by
      rw [hasm]; exact assembly_feed_ready hready b
    have houter : ∀ f, decode_step_outer klass (f + 1) d
        = match decode_step_inner klass b.eos (f + 1) d1 with
          | none => none
          | some (status, decoder) =>
            if status = ERROR_NO_DATA then decode_step_outer klass f decoder
            else some (status, decoder) := by
      intro f
      rw [← hd1]
      simp only [decode_step_outer, pop_buffer, hb]
      cases b.eos <;> rfl
    obtain ⟨st, d2, fs, i1, i2, i3, i4, ⟨es, i5, i6⟩, i7, i8⟩ :=
      decode_step_inner_run klass P hparse hunits hdecode hsurface b.eos
        (assembly_of d1.parser_state).measure d1 hready1 (Nat.le_refl _) hctx1
    have hready2 := steps_ready hunits i3 hready1
    rw [hasm] at i3
    by_cases hnd : st = ERROR_NO_DATA
    · obtain ⟨fuel, st3, d3, consumed, fs3, j1, j2, j3, ⟨es3, j4, j5⟩, j6, j7, j8⟩ :=
        ih d2 (i7.trans hbuf1) hready2 i8
      refine ⟨max (assembly_of d1.parser_state).measure fuel + 1, st3, d3, b :: consumed,
        fs ++ fs3, ?_, ?_, Feed.cons i3 i4 j3, ⟨es ++ es3, ?_, ?_⟩, j6, j7, ?_⟩
      · rw [houter, decode_step_inner_mono klass _ _ _ _ _ (by omega) i1]
        simp only [hnd, ↓reduceIte]
        exact decode_step_outer_mono klass _ _ _ _ (by omega) j1
      · rw [hb, List.cons_append, ← j2, i7, hbuf1]
      · rw [j4, i5, hlog1, List.append_assoc]
      · rw [dispatched_append, i6, j5]
      · rcases j8 with ⟨a1, a2⟩ | ⟨a1, -⟩
        · exact Or.inl ⟨a1, a2⟩
        · exact Or.inr ⟨a1, by simp⟩
    · have hs : st = SUCCESS := by rcases i2 with h | h; exact h; exact absurd h hnd
      refine ⟨(assembly_of d1.parser_state).measure + 1, st, d2, [b], fs, ?_, ?_, ?_,
        ⟨es, by rw [i5, hlog1], i6⟩, hready2, i8, Or.inr ⟨hs, by simp⟩⟩
      · rw [houter, i1]
        simp only [hnd, ↓reduceIte]
      · rw [hb, i7, hbuf1]; rfl
      · have := Feed.cons i3 i4 (Feed.nil _)
        simpa using this

/-- The decode loop of a pull feeds the whole Input Queue. -/
theorem get_surface_loop_run {σ : Type} (klass : GstVaapiDecoderClass σ)
    (P : List Nat → ParseResult) (hparse : ParsesByBytes klass P) (hunits : WholeUnits P)
    (hdecode : DecodeSucceeds klass) (hsurface : KeepsSurface klass) (n : Nat) :
    ∀ d : GstVaapiDecoder σ, d.buffers.length ≤ n → (assembly_of d.parser_state).Ready →
      d.context ≠ some 0 →
      ∃ fuel d2 fs, get_surface_loop klass fuel d = some (ERROR_NO_DATA, d2)
        ∧ d2.buffers = []
        ∧ Feed P (assembly_of d.parser_state) d.buffers fs (assembly_of d2.parser_state)
        ∧ (∃ es, d2.log = d.log ++ es ∧ dispatched es = fs) := by
  induction n with
  | zero =>
    intro d hlen hready hctx
    have hb : d.buffers = [] := List.length_eq_zero.mp (by omega)
    have hc : gst_vaapi_decoder_check_status d = SUCCESS := by
      unfold gst_vaapi_decoder_check_status
      cases h : d.context with
      | none => rfl
      | some c =>
        have : c ≠ 0 := fun h0 => hctx (by rw [h, h0])
        simp only [Nat.lt_one_iff, this, ↓reduceIte]
    obtain ⟨st, _, hloop, hst⟩ := get_surface_loop_of_no_buffers klass 0 d hb
    rw [hst hc] at hloop
    exact ⟨_, d, [], hloop, hb, by rw [hb]; exact Feed.nil _, ⟨[], by simp, rfl⟩⟩
  | succ n ih =>
    intro d hlen hready hctx
    have hc : gst_vaapi_decoder_check_status d = SUCCESS := by
      unfold gst_vaapi_decoder_check_status
      cases h : d.context with
      | none => rfl
      | some c =>
        have : c ≠ 0 := fun h0 => hctx (by rw [h, h0])
        simp only [Nat.lt_one_iff, this, ↓reduceIte]
    obtain ⟨fuel, st, d2, consumed, fs, j1, j2, j3, ⟨es, j4, j5⟩, j6, j7, j8⟩ :=
      decode_step_outer_run klass P hparse hunits hdecode hsurface d.buffers d rfl hready hctx
    have hstep : ∀ f, fuel ≤ f → decode_step klass f d = some (st, d2) := by
      intro f hf
      unfold decode_step
      simp only [hc, ne_eq, not_true_eq_false, ↓reduceIte]
      exact decode_step_outer_mono klass _ _ _ _ hf j1
    rcases j8 with ⟨a1, a2⟩ | ⟨a1, a2⟩
    · refine ⟨fuel + 1, d2, fs, ?_, a2, ?_, ⟨es, j4, j5⟩⟩
      · simp only [get_surface_loop, hstep (fuel + 1) (by omega), a1]
        simp
      · rw [a2, List.append_nil] at j2
        rw [j2]; exact j3
    · have hlen2 : d2.buffers.length ≤ n := by
        have := congrArg List.length j2
        rw [List.length_append] at this
        have : 0 < consumed.length := List.length_pos.mpr a2
        omega
      obtain ⟨fuel2, d3, fs3, k1, k2, k3, ⟨es3, k4, k5⟩⟩ := ih d2 hlen2 j6 j7
      refine ⟨max fuel fuel2 + 1, d3, fs ++ fs3, ?_, k2, ?_, ⟨es ++ es3, ?_, ?_⟩⟩
      · simp only [get_surface_loop, hstep (max fuel fuel2 + 1) (by omega), a1, ↓reduceIte]
        exact get_surface_loop_mono klass _ _ _ _ (by omega) k1
      · rw [j2]; exact feed_append j3 k3
      · rw [k4, j4, List.append_assoc]
      · rw [dispatched_append, j5, k5]

/-- With the Input Queue drained, pulling until it stops only empties the
Output Queue: nothing more is decoded. -/
theorem pull_until_stop_of_no_buffers {σ : Type} (klass : GstVaapiDecoderClass σ) (n : Nat) :
    ∀ d : GstVaapiDecoder σ, d.buffers = [] → d.frames.length ≤ n →
      ∃ fuel d2, pull_until_stop klass fuel d = some d2 ∧ d2.log = d.log := by
  induction n with
  | zero =>
    intro d hb hlen
    have hf : d.frames = [] := List.length_eq_zero.mp (by omega)
    obtain ⟨st, hne, hloop, -⟩ := get_surface_loop_of_no_buffers klass 0 d hb
    refine ⟨1, d, ?_, rfl⟩
    simp only [pull_until_stop, gst_vaapi_decoder_get_surface, pop_frame, hf, hloop, hne,
      ↓reduceIte]
  | succ n ih =>
    intro d hb hlen
    cases hf : d.frames with
    | nil =>
      obtain ⟨st, hne, hloop, -⟩ := get_surface_loop_of_no_buffers klass 0 d hb
      refine ⟨1, d, ?_, rfl⟩
      simp only [pull_until_stop, gst_vaapi_decoder_get_surface, pop_frame, hf, hloop, hne,
        ↓reduceIte]
    | cons f rest =>
      obtain ⟨fuel, d2, h1, h2⟩ := ih { d with frames := rest } hb
        (by rw [hf] at hlen; simpa using hlen)
      refine ⟨fuel + 1, d2, ?_, h2⟩
      simp only [pull_until_stop, gst_vaapi_decoder_get_surface, pop_frame, hf, ↓reduceIte]
      exact h1

/-- Pulling until it stops, from a decoder with no decoded frame queued, feeds
the whole Input Queue and hands to `do_decode` the frames completed on the way. -/
theorem pull_until_stop_run {σ : Type} (klass : GstVaapiDecoderClass σ)
    (P : List Nat → ParseResult) (hparse : ParsesByBytes klass P) (hunits : WholeUnits P)
    (hdecode : DecodeSucceeds klass) (hsurface : KeepsSurface klass)
    (d : GstVaapiDecoder σ) (hf : d.frames = []) (hready : (assembly_of d.parser_state).Ready)
    (hctx : d.context ≠ some 0) :
    ∃ fuel d2 fs S2, pull_until_stop klass fuel d = some d2
      ∧ (∃ es, d2.log = d.log ++ es ∧ dispatched es = fs)
      ∧ Feed P (assembly_of d.parser_state) d.buffers fs S2 := by
  obtain ⟨fuel1, d1, fs, h1, h2, h3, ⟨es, h4, h5⟩⟩ :=
    get_surface_loop_run klass P hparse hunits hdecode hsurface d.buffers.length d
      (Nat.le_refl _) hready hctx
  cases hf1 : d1.frames with
  | nil =>
    refine ⟨fuel1 + 1, d1, fs, _, ?_, ⟨es, h4, h5⟩, h3⟩
    simp only [pull_until_stop, gst_vaapi_decoder_get_surface, pop_frame, hf,
      get_surface_loop_mono klass fuel1 (fuel1 + 1) _ _ (by omega) h1, hf1]
    simp
  | cons g rest =>
    obtain ⟨fuel3, d3, k1, k2⟩ := pull_until_stop_of_no_buffers klass rest.length
      { d1 with frames := rest } h2 (Nat.le_refl _)
    refine ⟨max fuel1 fuel3 + 1, d3, fs, _, ?_, ⟨es, by rw [k2]; exact h4, h5⟩, h3⟩
    simp only [pull_until_stop, gst_vaapi_decoder_get_surface, pop_frame, hf,
      get_surface_loop_mono klass fuel1 (max fuel1 fuel3 + 1) _ _ (by omega) h1, hf1, ↓reduceIte]
    exact pull_until_stop_mono klass _ _ _ _ (by omega) k1

theorem put_buffers_chunks {σ : Type} (cs : List (List Nat)) :
    ∀ d : GstVaapiDecoder σ, put_buffers d (cs.map chunk ++ [none])
      = { d with buffers := d.buffers
            ++ ((cs.filter (fun c => c ≠ [])).map
                  (fun c => ({ data := some c, eos := false } : GstBuffer))
                ++ [{ data := none, eos := true }]) } := by
  induction cs with
  | nil =>
    intro d
    simp [put_buffers, gst_vaapi_decoder_put_buffer, push_buffer, gst_buffer_new]
  | cons c rest ih =>
    intro d
    have hstep : put_buffers d ((c :: rest).map chunk ++ [none])
        = put_buffers (gst_vaapi_decoder_put_buffer d (chunk c)).2 (rest.map chunk ++ [none]) :=
      rfl
    rw [hstep, ih]
    by_cases hc : c = []
    · simp [hc, gst_vaapi_decoder_put_buffer, chunk, GstBuffer.size]
    · have hlen : ¬ c.length ≤ 0 := by
        have := List.length_pos.mpr hc
        omega
      simp [hc, hlen, gst_vaapi_decoder_put_buffer, chunk, GstBuffer.size, push_buffer]

theorem flatten_filter_nonempty (cs : List (List Nat)) :
    ((cs.filter (fun c => c ≠ [])).map
      (fun c => (({ data := some c, eos := false } : GstBuffer)).data.getD [])).flatten
      = cs.flatten := by
  induction cs with
  | nil => rfl
  | cons c rest ih =>
    by_cases hc : c = []
    · simp [hc, ih] at ih ⊢
      exact ih
    · simp [hc] at ih ⊢
      rw [ih]

theorem toy_whole_units_whole : WholeUnits toy_whole_units := by
  intro bytes
  match bytes with
  | [] => exact Or.inl ⟨by decide, rfl⟩
  | [_] => exact Or.inl ⟨by decide, rfl⟩
  | tag :: b :: rest =>
    refine Or.inr ⟨toy_unit tag, rfl, ?_, ?_, fun more => rfl⟩
    · simp [toy_unit]
    · simp [toy_unit]

theorem toy_units_klass_parses (on_end : CodecView Unit → CodecView Unit) :
    ParsesByBytes (toy_units_klass on_end) toy_whole_units :=
  fun _ _ _ => rfl

theorem toy_units_klass_decodes (on_end : CodecView Unit → CodecView Unit) :
    DecodeSucceeds (toy_units_klass on_end) := by
  refine ⟨fun _ _ => rfl, ?_, ?_⟩
  · intro sf hsf view u
    have : sf = fun view _ => (SUCCESS, view) := by
      simp [toy_units_klass, toy_klass] at hsf
      exact hsf.symm
    rw [this]
  · intro ef hef view
    have : ef = fun view => (SUCCESS, on_end view) := by
      simp [toy_units_klass, toy_klass] at hef
      exact hef.symm
    rw [this]

theorem toy_units_klass_keeps_surface :
    KeepsSurface (toy_units_klass toy_push) := by
  refine ⟨fun _ _ _ h => h, fun _ _ h => h, ?_, ?_⟩
  · intro sf hsf view u h
    have : sf = fun view _ => (SUCCESS, view) := by
      simp [toy_units_klass, toy_klass] at hsf
      exact hsf.symm
    rw [this]; exact h
  · intro ef hef view h
    have : ef = fun view => (SUCCESS, toy_push view) := by
      simp [toy_units_klass, toy_klass] at hef
      exact hef.symm
    rw [this]; exact h

/-- C1, as stated, fails: the parser is a function of the unconsumed bytes that
reports whole units only and every decode hook succeeds, but `end_frame` takes
the last free surface.  Submitted as one chunk, the two frames of the stream
are both handed to `do_decode` within one decode step; submitted as two chunks,
the second decode step is refused with `ERROR_NO_SURFACE`, the pull stops, and
only the first frame has been handed to `do_decode`. -/
theorem chunking_changes_dispatch_without_surface :
    ParsesByBytes (toy_units_klass toy_take_surface) toy_whole_units
    ∧ WholeUnits toy_whole_units
    ∧ DecodeSucceeds (toy_units_klass toy_take_surface)
    ∧ [[6, 0], [6, 1]].flatten = [6, 0, 6, 1]
    ∧ ∃ d1 d2,
        pull_until_stop (toy_units_klass toy_take_surface) 5
          (put_buffers (gst_vaapi_decoder_init ()) ([[6, 0], [6, 1]].map chunk ++ [none]))
          = some d1
        ∧ pull_until_stop (toy_units_klass toy_take_surface) 5
          (put_buffers (gst_vaapi_decoder_init ()) [chunk [6, 0, 6, 1], none]) = some d2
        ∧ (dispatched d1.log).map (fun f => f.input_buffer) = [some [6, 0]]
        ∧ (dispatched d2.log).map (fun f => f.input_buffer) = [some [6, 0], some [6, 1]]
        ∧ dispatched d1.log ≠ dispatched d2.log := by
  refine ⟨toy_units_klass_parses _, toy_whole_units_whole, toy_units_klass_decodes _, rfl,
    _, _, rfl, rfl, by decide, by decide, by decide⟩

/-- C1, amended: reassembly is independent of chunking as long as no hook uses
up the last free surface.  On a fresh decoder, for every byte string and every
way of splitting it into chunks submitted in order and followed by one EOS
sentinel: when the parse hook is a function of the unconsumed input bytes that
reports `ERROR_NO_DATA` until a whole, non-empty unit is available and then
returns the same unit for every extension of those bytes, every decode hook
succeeds, and no hook leaves the hardware context without a free surface,
pulling with `gst_vaapi_decoder_get_surface` until it stops ends, given enough
fuel, and hands to `do_decode` the same frames, with the same units and the
same payloads, as submitting the byte string as one chunk. -/
theorem chunking_independent {σ : Type} (klass : GstVaapiDecoderClass σ)
    (P : List Nat → ParseResult) (codec : σ) (chunks : List (List Nat))
    (hparse : ParsesByBytes klass P) (hunits : WholeUnits P)
    (hdecode : DecodeSucceeds klass) (hsurface : KeepsSurface klass) :
    ∃ fuel d1 d2,
      (∀ n, fuel ≤ n →
        pull_until_stop klass n
          (put_buffers (gst_vaapi_decoder_init codec) (chunks.map chunk ++ [none])) = some d1)
      ∧ (∀ n, fuel ≤ n →
        pull_until_stop klass n
          (put_buffers (gst_vaapi_decoder_init codec) [chunk chunks.flatten, none]) = some d2)
      ∧ dispatched d1.log = dispatched d2.log := by
  have hB : put_buffers (gst_vaapi_decoder_init codec) [chunk chunks.flatten, none]
      = put_buffers (gst_vaapi_decoder_init codec) ([chunks.flatten].map chunk ++ [none]) := rfl
  rw [hB, put_buffers_chunks, put_buffers_chunks]
  have hready : (assembly_of (gst_vaapi_decoder_init codec).parser_state).Ready := by
    intro u hu
    simp [assembly_of, gst_vaapi_decoder_init] at hu
  have hctx : (gst_vaapi_decoder_init codec).context ≠ some 0 := by
    simp [gst_vaapi_decoder_init]
  have key : ∀ cs : List (List Nat),
      ∃ fuel d2 fs S2, pull_until_stop klass fuel
          { gst_vaapi_decoder_init codec with
            buffers := (gst_vaapi_decoder_init codec).buffers
              ++ ((cs.filter (fun c => c ≠ [])).map
                    (fun c => ({ data := some c, eos := false } : GstBuffer))
                  ++ [{ data := none, eos := true }]) } = some d2
        ∧ dispatched d2.log = fs
        ∧ Steps P ((assembly_of (gst_vaapi_decoder_init codec).parser_state).push cs.flatten)
            fs S2
        ∧ assembly_step P S2 = none := by
    intro cs
    obtain ⟨fuel, d2, fs, S2, h1, ⟨es, h2, h3⟩, h4⟩ :=
      pull_until_stop_run klass P hparse hunits hdecode hsurface
        { gst_vaapi_decoder_init codec with
          buffers := (gst_vaapi_decoder_init codec).buffers
            ++ ((cs.filter (fun c => c ≠ [])).map
                  (fun c => ({ data := some c, eos := false } : GstBuffer))
                ++ [{ data := none, eos := true }]) } rfl hready hctx
    have h4' : Feed P (assembly_of (gst_vaapi_decoder_init codec).parser_state)
        ((cs.filter (fun c => c ≠ [])).map
            (fun c => ({ data := some c, eos := false } : GstBuffer))
          ++ [{ data := none, eos := true }]) fs S2 := h4
    obtain ⟨s1, s2⟩ := feed_steps hunits _ _ _ _ hready h4' (by
      intro b hb
      simp only [List.mem_map] at hb
      obtain ⟨c, -, rfl⟩ := hb
      rfl)
    rw [List.map_map] at s1
    have hfl := flatten_filter_nonempty cs
    refine ⟨fuel, d2, fs, S2, h1, ?_, ?_, s2⟩
    · rw [h2]
      simpa [dispatched_append, gst_vaapi_decoder_init] using h3
    · rw [← hfl]
      exact s1
  obtain ⟨fuelA, dA, fsA, SA, a1, a2, a3, a4⟩ := key chunks
  obtain ⟨fuelB, dB, fsB, SB, b1, b2, b3, b4⟩ := key [chunks.flatten]
  have hfl : [chunks.flatten].flatten = chunks.flatten := by simp
  rw [hfl] at b3
  obtain ⟨u1, -⟩ := steps_unique a3 a4 b3 b4
  refine ⟨max fuelA fuelB, dA, dB, ?_, ?_, by rw [a2, b2, u1]⟩
  · intro n hn
    exact pull_until_stop_mono klass _ _ _ _ (by omega) a1
  · intro n hn
    exact pull_until_stop_mono klass _ _ _ _ (by omega) b1

theorem chunking_independent_witness :
    ParsesByBytes (toy_units_klass toy_push) toy_whole_units
    ∧ WholeUnits toy_whole_units
    ∧ DecodeSucceeds (toy_units_klass toy_push)
    ∧ KeepsSurface (toy_units_klass toy_push)
    ∧ ∃ fuel d1 d2,
        (∀ n, fuel ≤ n →
          pull_until_stop (toy_units_klass toy_push) n
            (put_buffers (gst_vaapi_decoder_init ())
              ([[4, 0, 6], [1], [6, 2]].map chunk ++ [none])) = some d1)
        ∧ (∀ n, fuel ≤ n →
          pull_until_stop (toy_units_klass toy_push) n
            (put_buffers (gst_vaapi_decoder_init ())
              [chunk [[4, 0, 6], [1], [6, 2]].flatten, none]) = some d2)
        ∧ dispatched d1.log = dispatched d2.log :=
  ⟨toy_units_klass_parses _, toy_whole_units_whole, toy_units_klass_decodes _,
    toy_units_klass_keeps_surface,
    chunking_independent (toy_units_klass toy_push) toy_whole_units ()
      [[4, 0, 6], [1], [6, 2]] (toy_units_klass_parses _) toy_whole_units_whole
      (toy_units_klass_decodes _) toy_units_klass_keeps_surface⟩

/-- C11: submit (`gst_vaapi_decoder_put_buffer`) on a valid decoder.  For every
chunk with no data or of size zero it returns success and leaves the decoder,
so the Input Queue, unchanged; for a chunk with at least one byte it returns
success and the Input Queue becomes the old queue followed by that chunk; with
no chunk (NULL) it returns success and the Input Queue becomes the old queue
followed by exactly one EOS-flagged sentinel without data.  In every case the
old queue is kept, in order, at the head of the new one, at most one entry is
added, and nothing but the Input Queue changes. -/
theorem put_buffer_queues_chunk {σ : Type} (decoder : GstVaapiDecoder σ) :
    (∀ b : GstBuffer, b.data = none ∨ b.size = 0 →
        gst_vaapi_decoder_put_buffer decoder (some b) = (true, decoder))
    ∧ (∀ b : GstBuffer, 0 < b.size →
        gst_vaapi_decoder_put_buffer decoder (some b)
          = (true, { decoder with buffers := decoder.buffers ++ [b] }))
    ∧ gst_vaapi_decoder_put_buffer decoder none
        = (true, { decoder with
            buffers := decoder.buffers ++ [{ data := none, eos := true }] })
    ∧ (∀ buf : Option GstBuffer,
        (gst_vaapi_decoder_put_buffer decoder buf).1 = true
        ∧ (∃ added, (gst_vaapi_decoder_put_buffer decoder buf).2.buffers
              = decoder.buffers ++ added ∧ added.length ≤ 1)
        ∧ (gst_vaapi_decoder_put_buffer decoder buf).2
            = { decoder with
                buffers := (gst_vaapi_decoder_put_buffer decoder buf).2.buffers }) := by
  have hzero : ∀ b : GstBuffer, b.data = none ∨ b.size = 0 →
      gst_vaapi_decoder_put_buffer decoder (some b) = (true, decoder) := by
    intro b hb
    have hc : b.data.isNone = true ∨ b.size ≤ 0 := by
      rcases hb with h | h
      · exact Or.inl (by rw [h]; rfl)
      · exact Or.inr (by omega)
    simp only [gst_vaapi_decoder_put_buffer, hc, ↓reduceIte]
  have hbytes : ∀ b : GstBuffer, 0 < b.size →
      gst_vaapi_decoder_put_buffer decoder (some b)
        = (true, { decoder with buffers := decoder.buffers ++ [b] }) := by
    intro b hb
    have hd : b.data.isNone = false := by
      cases hdata : b.data with
      | none => simp [GstBuffer.size, hdata] at hb
      | some bytes => rfl
    have hc : ¬ (b.data.isNone = true ∨ b.size ≤ 0) := by
      rw [hd]
      simp
      omega
    simp only [gst_vaapi_decoder_put_buffer, hc, ↓reduceIte, push_buffer]
  refine ⟨hzero, hbytes, rfl, ?_⟩
  intro buf
  cases buf with
  | none => exact ⟨rfl, ⟨_, rfl, by simp⟩, rfl⟩
  | some b =>
    by_cases hb : 0 < b.size
    · rw [hbytes b hb]
      exact ⟨rfl, ⟨_, rfl, by simp⟩, rfl⟩
    · rw [hzero b (Or.inr (by omega))]
      exact ⟨rfl, ⟨[], by simp, by simp⟩, rfl⟩

theorem put_buffer_queues_chunk_witness :
    gst_vaapi_decoder_put_buffer toy_one_frame_queued (some { data := some [], eos := false })
      = (true, toy_one_frame_queued)
    ∧ gst_vaapi_decoder_put_buffer toy_one_frame_queued (some { data := none, eos := false })
      = (true, toy_one_frame_queued)
    ∧ (gst_vaapi_decoder_put_buffer toy_one_frame_queued (some { data := some [4, 1], eos := false })).2.buffers
      = [{ data := some [6, 0], eos := false }, { data := some [4, 1], eos := false }]
    ∧ (gst_vaapi_decoder_put_buffer toy_one_frame_queued none).2.buffers
      = [{ data := some [6, 0], eos := false }, { data := none, eos := true }] := by
  have h := put_buffer_queues_chunk toy_one_frame_queued
  refine ⟨h.1 _ (Or.inr rfl), h.1 _ (Or.inl rfl), ?_, ?_⟩
  · rw [h.2.1 { data := some [4, 1], eos := false } (by decide)]
    decide
  · rw [h.2.2.1]
    decide

theorem with_offsets_offset_ge (start : Nat) (xs : List GstVaapiDecoderUnit) :
    ∀ v ∈ with_offsets start xs, start ≤ v.offset := by
  induction xs generalizing start with
  | nil => intro v hv; simp [with_offsets] at hv
  | cons x xs ih =>
    intro v hv
    simp only [with_offsets, List.mem_cons] at hv
    rcases hv with rfl | hv
    · exact Nat.le_refl _
    · have := ih (start + x.size) v hv
      omega

theorem with_offsets_monotone (start : Nat) (xs : List GstVaapiDecoderUnit) :
    ((with_offsets start xs).map (fun u => u.offset)).Pairwise (fun a b => a ≤ b) := by
  induction xs generalizing start with
  | nil => simp [with_offsets]
  | cons x xs ih =>
    simp only [with_offsets, List.map_cons, List.pairwise_cons, List.mem_map]
    refine ⟨?_, ih (start + x.size)⟩
    rintro b ⟨v, hv, rfl⟩
    have := with_offsets_offset_ge (start + x.size) xs v hv
    omega

theorem with_offsets_strict (start : Nat) (xs : List GstVaapiDecoderUnit)
    (hpos : ∀ u ∈ xs, 0 < u.size) :
    ((with_offsets start xs).map (fun u => u.offset)).Pairwise (fun a b => a < b) := by
  induction xs generalizing start with
  | nil => simp [with_offsets]
  | cons x xs ih =>
    simp only [with_offsets, List.map_cons, List.pairwise_cons, List.mem_map]
    refine ⟨?_, ih (start + x.size) (fun u hu => hpos u (List.mem_cons_of_mem _ hu))⟩
    rintro b ⟨v, hv, rfl⟩
    have := with_offsets_offset_ge (start + x.size) xs v hv
    have := hpos x (List.mem_cons_self _ _)
    omega

theorem do_parse_appended_offset {σ : Type} (klass : GstVaapiDecoderClass σ)
    (decoder : GstVaapiDecoder σ) (base_frame : GstVideoCodecFrame) (adapter : GstAdapter)
    (at_eos : Bool) (u : GstVaapiDecoderUnit)
    (happ : appended_unit klass decoder base_frame adapter at_eos = some u) :
    ∃ fr, (do_parse klass decoder base_frame adapter at_eos).base_frame.user_data = some fr
      ∧ fr.output_offset
          = ((base_frame.user_data.getD gst_vaapi_decoder_frame_new).output_offset + u.size)
              % 4294967296 := by
  cases hp : decoder.parser_state.pending_unit with
  | some w =>
    have hr := do_parse_of_pending klass decoder base_frame adapter at_eos w hp
    have hw : w = u := by simpa [appended_unit, hp] using happ
    subst hw
    rw [hr]
    refine ⟨_, rfl, ?_⟩
    split <;> rfl
  | none =>
    have hr := do_parse_of_no_pending klass decoder base_frame adapter at_eos hp
    simp only [appended_unit, hp] at happ
    rw [hr]
    cases hres : (klass.parse decoder.view adapter at_eos).1 with
    | failure s hs => simp [hres] at happ
    | success w =>
      simp only [hres] at happ ⊢
      have hsl : (match base_frame.user_data with
          | some f => f.prev_slice.isSome
          | none => false)
          = (base_frame.user_data.getD gst_vaapi_decoder_frame_new).prev_slice.isSome := by
        cases base_frame.user_data <;> rfl
      rw [hsl] at happ
      by_cases hc : (w.frame_start
          && (base_frame.user_data.getD gst_vaapi_decoder_frame_new).prev_slice.isSome) = true
      · simp [hc] at happ
      · simp only [hc, Bool.false_eq_true, ↓reduceIte, Option.some.injEq] at happ ⊢
        subst happ
        refine ⟨_, rfl, ?_⟩
        split <;> rfl
/-- C12 (counterexample): a parse hook of a length-prefixed stream returns two
slices that announce a size of zero.  `do_parse` appends both to the frame: the
first append leaves `output_offset` at 0, and in the completed frame, which has
two units, both units have offset 0, so neither `output_offset` nor the unit
offsets strictly increase.  And with units of sizes 4294967295, 2 and 1 the
`guint` sum wraps at 2^32: the completed frame has the offsets 0, 4294967295
and 1, which are not increasing. -/
theorem zero_size_units_share_offset :
    appended_unit toy_sized_klass (gst_vaapi_decoder_init ()) g_slice_new0
        { id := 0, data := [4, 0] } false = some { toy_unit 4 with size := 0 }
    ∧ (do_parse toy_sized_klass (gst_vaapi_decoder_init ()) g_slice_new0
        { id := 0, data := [4, 0] } false).base_frame.user_data.map
          (fun f => f.output_offset) = some 0
    ∧ (do_parse_calls toy_sized_klass toy_empty_calls (gst_vaapi_decoder_init ())
        g_slice_new0).got_frame = true
    ∧ (do_parse_calls toy_sized_klass toy_empty_calls (gst_vaapi_decoder_init ())
        g_slice_new0).base_frame.user_data.map (fun f => f.units.map (fun u => u.offset))
        = some [0, 0]
    ∧ (do_parse_calls toy_sized_klass toy_wrap_calls (gst_vaapi_decoder_init ())
        g_slice_new0).got_frame = true
    ∧ (do_parse_calls toy_sized_klass toy_wrap_calls (gst_vaapi_decoder_init ())
        g_slice_new0).base_frame.user_data.map (fun f => f.units.map (fun u => u.offset))
        = some [0, 4294967295, 1] := by
  decide

/-- C12 (amended): offsets grow by the sizes of the units, in `guint`
arithmetic.  Every append made by `do_parse` sets `output_offset` to the old
value plus the size of the appended unit, modulo 2^32, so it strictly increases
whenever that unit has a positive size and the sum stays below 2^32.  In every
frame completed by a sequence of `do_parse` calls on a new frame whose unit
sizes add up to less than 2^32, the unit offsets never decrease in list order,
and they are strictly increasing in list order when every appended unit has a
positive size. -/
theorem offsets_increase_by_unit_size {σ : Type} (klass : GstVaapiDecoderClass σ) :
    (∀ (decoder : GstVaapiDecoder σ) (base_frame : GstVideoCodecFrame) (adapter : GstAdapter)
        (at_eos : Bool) (u : GstVaapiDecoderUnit),
        appended_unit klass decoder base_frame adapter at_eos = some u →
        ∃ fr, (do_parse klass decoder base_frame adapter at_eos).base_frame.user_data = some fr
          ∧ fr.output_offset
              = ((base_frame.user_data.getD gst_vaapi_decoder_frame_new).output_offset + u.size)
                  % 4294967296
          ∧ (0 < u.size →
              (base_frame.user_data.getD gst_vaapi_decoder_frame_new).output_offset + u.size
                < 4294967296 →
              (base_frame.user_data.getD gst_vaapi_decoder_frame_new).output_offset
                < fr.output_offset))
    ∧ (∀ (calls : List (GstAdapter × Bool)) (decoder : GstVaapiDecoder σ),
        (do_parse_calls klass calls decoder g_slice_new0).got_frame = true →
        total_size (do_parse_calls klass calls decoder g_slice_new0).appended < 4294967296 →
        ∃ fr, (do_parse_calls klass calls decoder g_slice_new0).base_frame.user_data = some fr
          ∧ (fr.units.map (fun u => u.offset)).Pairwise (fun a b => a ≤ b)
          ∧ ((∀ u ∈ (do_parse_calls klass calls decoder g_slice_new0).appended, 0 < u.size) →
              (fr.units.map (fun u => u.offset)).Pairwise (fun a b => a < b))) := by
  constructor
  · intro decoder base_frame adapter at_eos u happ
    obtain ⟨fr, h1, h2⟩ := do_parse_appended_offset klass decoder base_frame adapter at_eos u happ
    refine ⟨fr, h1, h2, fun hpos hlt => ?_⟩
    rw [h2, Nat.mod_eq_of_lt hlt]
    omega
  · intro calls decoder hgot hbound
    obtain ⟨fr, h1, h2, -⟩ := do_parse_calls_frame klass calls decoder g_slice_new0 hgot
    have hg : g_slice_new0.user_data = none := rfl
    simp only [hg, Option.getD_none, gst_vaapi_decoder_frame_new, List.reverse_nil,
      List.nil_append] at h2
    rw [with_guint_offsets_of_bound 0 _ (by omega)] at h2
    refine ⟨fr, h1, ?_, ?_⟩
    · rw [h2]
      exact with_offsets_monotone 0 _
    · intro hpos
      rw [h2]
      exact with_offsets_strict 0 _ hpos

theorem offsets_increase_by_unit_size_witness :
    (∃ fr, (do_parse toy_sized_klass (gst_vaapi_decoder_init ()) g_slice_new0
          { id := 0, data := [4, 3, 0] } false).base_frame.user_data = some fr
        ∧ fr.output_offset = 3 ∧ 0 < fr.output_offset)
    ∧ (do_parse_calls toy_sized_klass toy_sized_calls (gst_vaapi_decoder_init ())
        g_slice_new0).got_frame = true
    ∧ (∃ fr, (do_parse_calls toy_sized_klass toy_sized_calls (gst_vaapi_decoder_init ())
          g_slice_new0).base_frame.user_data = some fr
        ∧ fr.units.map (fun u => u.offset) = [0, 3]
        ∧ (fr.units.map (fun u => u.offset)).Pairwise (fun a b => a < b)) := by
  have h := offsets_increase_by_unit_size toy_sized_klass
  obtain ⟨fr, h1, h2, h3⟩ := h.1 (gst_vaapi_decoder_init ()) g_slice_new0
    { id := 0, data := [4, 3, 0] } false { toy_unit 4 with size := 3 } (by decide)
  obtain ⟨fr2, k1, -, k3⟩ := h.2 toy_sized_calls (gst_vaapi_decoder_init ()) (by decide)
    (by decide)
  refine ⟨⟨fr, h1, h2, h3 (by decide) (by decide)⟩, by decide, fr2, k1, ?_, k3 (by decide)⟩
  have hd : (do_parse_calls toy_sized_klass toy_sized_calls (gst_vaapi_decoder_init ())
      g_slice_new0).base_frame.user_data.map (fun f => f.units.map (fun u => u.offset))
      = some [0, 3] := by decide
  rw [k1] at hd
  exact Option.some.inj hd

/-- The parser state after `decode_step_parse` when no unit is pending and the
parse hook fails: the state as prepared for the hook, with the frame anchored
on the current frame. -/
theorem decode_step_parse_of_failure {σ : Type} (klass : GstVaapiDecoderClass σ)
    (d : GstVaapiDecoder σ) (e : Bool) (s : GstVaapiDecoderStatus) (hs : s ≠ SUCCESS)
    (view : CodecView σ)
    (hp : d.parser_state.pending_unit = none)
    (hparse : klass.parse d.view d.parser_state.input_adapter e
      = (ParseResult.failure s hs, view)) :
    (decode_step_parse klass d e).status = s
    ∧ (decode_step_parse klass d e).decoder.parser_state
      = { parser_state_prepare d.parser_state d.parser_state.input_adapter with
          current_frame := some
            { user_data := some (current_decoder_frame d.parser_state)
              input_buffer := (current_frame_or_new d.parser_state).input_buffer } } := by
  have hv : ({ d with parser_state := { d.parser_state with
      current_frame := some (current_frame_or_new d.parser_state) } } : GstVaapiDecoder σ).view
    = d.view := rfl
  have hr := do_parse_of_no_pending klass
    { d with parser_state := { d.parser_state with
      current_frame := some (current_frame_or_new d.parser_state) } }
    (current_frame_or_new d.parser_state) d.parser_state.input_adapter e hp
  simp only [hv, hparse] at hr
  unfold decode_step_parse
  simp only []
  rw [hr]
  refine ⟨rfl, ?_⟩
  simp only [parser_state_prepare, current_decoder_frame]
  split <;> rfl

/-- The inner loop of `decode_step` ends with the pass through its body that
does not succeed. -/
theorem decode_step_inner_of_failure {σ : Type} (klass : GstVaapiDecoderClass σ)
    (d : GstVaapiDecoder σ) (e : Bool) (fuel : Nat)
    (h : (decode_step_body klass d e).1 ≠ SUCCESS) :
    decode_step_inner klass e (fuel + 1) d = some (decode_step_body klass d e) := by
  simp only [decode_step_inner, h, false_and, ↓reduceIte]

/-- A decode step ends with the first pass through the body of the inner loop
when that pass fails with a status other than `ERROR_NO_DATA`. -/
theorem decode_step_of_first_failure {σ : Type} (klass : GstVaapiDecoderClass σ)
    (d : GstVaapiDecoder σ) (b : GstBuffer) (fuel : Nat)
    (hc : gst_vaapi_decoder_check_status d = SUCCESS)
    (hb : d.buffers.head? = some b)
    (h1 : (decode_step_body klass (decode_step_feed d b) b.eos).1 ≠ SUCCESS)
    (h2 : (decode_step_body klass (decode_step_feed d b) b.eos).1 ≠ ERROR_NO_DATA) :
    decode_step klass (fuel + 1) d
      = some (decode_step_body klass (decode_step_feed d b) b.eos) := by
  cases hbufs : d.buffers with
  | nil => simp [hbufs] at hb
  | cons b2 rest =>
    have hb2 : b2 = b := by simpa [hbufs] using hb
    subst hb2
    have hin := decode_step_inner_of_failure klass (decode_step_feed d b2) b2.eos fuel h1
    unfold decode_step
    simp only [hc, ne_eq, not_true_eq_false, ↓reduceIte]
    simp only [decode_step_outer, pop_buffer, hbufs]
    simp only [decode_step_feed, pop_buffer, hbufs] at hin h2
    rw [hin]
    simp only [h2, ↓reduceIte, decode_step_feed, pop_buffer, hbufs]
/-- C13 (counterexample): the current frame holds one slice and its two bytes
sit in the output adapter; the next chunk is a slice that closes the frame, and
the `decode` hook fails on the first unit.  When the hook is invoked the
current frame is the completed frame with its two units; after the decode step,
which returns the error, there is no current frame and the output adapter is
empty, so the frame assembly is not what it was before the failing hook. -/
theorem decode_error_drops_frame :
    toy_partial_closing.parser_state.current_frame.map frame_units
      = some [{ toy_unit 4 with offset := 0 }]
    ∧ toy_partial_closing.parser_state.output_adapter.data = [4, 0]
    ∧ ∃ d2, decode_step toy_broken_klass 3 toy_partial_closing = some (ERROR_UNKNOWN, d2)
      ∧ dispatched (new_events toy_partial_closing.log d2.log)
          = [{ user_data := some
                { units := [{ toy_unit 4 with offset := 0 }, { toy_unit 6 with offset := 2 }]
                  output_offset := 4
                  prev_slice := some { toy_unit 6 with offset := 2 } }
               input_buffer := some [4, 0, 6, 0] }]
      ∧ Event.decode { toy_unit 4 with offset := 0 } ERROR_UNKNOWN
          ∈ new_events toy_partial_closing.log d2.log
      ∧ d2.parser_state.current_frame = none
      ∧ d2.parser_state.output_adapter.data = [] := by
  refine ⟨by decide, by decide, _, rfl, by decide, by decide, by decide, by decide⟩

/-- C13 (amended): what a failing hook leaves behind.  When no unit is pending
and the parse hook fails, the pass through the body of the inner loop returns
the hook's status and leaves the Input Queue alone; the parser state is the one
the hook was invoked in (prepared for the input adapter, the frame assembly
anchored on the current frame), so the units, `output_offset` and last slice of
the frame under construction, the pending unit and both adapters are unchanged,
and the whole parser state is unchanged when a frame was under construction and
the input adapter was the one of the previous call.  When a completed frame is
handed to `do_decode`, `do_decode` leaves the parser state as its hooks found
it whatever they return, and `decode_step` then clears the current frame, whose
payload has left the output adapter; the rest of the parser state is kept.  A
pass that does not succeed ends the inner loop, and it ends the decode step
when its status is not `ERROR_NO_DATA`. -/
theorem failing_hook_state {σ : Type} (klass : GstVaapiDecoderClass σ) :
    (∀ (d : GstVaapiDecoder σ) (e : Bool) (s : GstVaapiDecoderStatus) (hs : s ≠ SUCCESS)
        (view : CodecView σ),
        d.parser_state.pending_unit = none →
        klass.parse d.view d.parser_state.input_adapter e = (ParseResult.failure s hs, view) →
        (decode_step_body klass d e).1 = s
        ∧ (decode_step_body klass d e).2.buffers = d.buffers
        ∧ (decode_step_body klass d e).2.parser_state
          = { parser_state_prepare d.parser_state d.parser_state.input_adapter with
              current_frame := some
                { user_data := some (current_decoder_frame d.parser_state)
                  input_buffer := (current_frame_or_new d.parser_state).input_buffer } }
        ∧ current_decoder_frame (decode_step_body klass d e).2.parser_state
          = current_decoder_frame d.parser_state
        ∧ (decode_step_body klass d e).2.parser_state.pending_unit = none
        ∧ (decode_step_body klass d e).2.parser_state.input_adapter
          = d.parser_state.input_adapter
        ∧ (decode_step_body klass d e).2.parser_state.output_adapter
          = d.parser_state.output_adapter
        ∧ (∀ cf fr, d.parser_state.current_frame = some cf → cf.user_data = some fr →
            d.parser_state.current_adapter = some d.parser_state.input_adapter.id →
            (decode_step_body klass d e).2.parser_state = d.parser_state))
    ∧ (∀ (d : GstVaapiDecoder σ) (e : Bool),
        (decode_step_parse klass d e).status = SUCCESS →
        (decode_step_parse klass d e).got_frame = true →
        ∃ (d1 : GstVaapiDecoder σ) (bf : GstVideoCodecFrame),
          d1.parser_state
            = { (decode_step_take_unit (decode_step_parse klass d e).decoder
                  (decode_step_parse klass d e).got_unit_size).parser_state with
                output_adapter := d1.parser_state.output_adapter
                current_frame := some bf }
          ∧ d1.parser_state.output_adapter.data = []
          ∧ bf.user_data = (decode_step_parse klass d e).base_frame.user_data
          ∧ (decode_step_body klass d e).1 = (do_decode klass d1 bf).1
          ∧ (do_decode klass d1 bf).2.parser_state = d1.parser_state
          ∧ (decode_step_body klass d e).2.parser_state
              = { d1.parser_state with current_frame := none })
    ∧ (∀ (d : GstVaapiDecoder σ) (e : Bool) (fuel : Nat),
        (decode_step_body klass d e).1 ≠ SUCCESS →
        decode_step_inner klass e (fuel + 1) d = some (decode_step_body klass d e))
    ∧ (∀ (d : GstVaapiDecoder σ) (b : GstBuffer) (fuel : Nat),
        gst_vaapi_decoder_check_status d = SUCCESS →
        d.buffers.head? = some b →
        (decode_step_body klass (decode_step_feed d b) b.eos).1 ≠ SUCCESS →
        (decode_step_body klass (decode_step_feed d b) b.eos).1 ≠ ERROR_NO_DATA →
        decode_step klass (fuel + 1) d
          = some (decode_step_body klass (decode_step_feed d b) b.eos)) := by
  refine ⟨?_, ?_, fun d e fuel h => decode_step_inner_of_failure klass d e fuel h,
    fun d b fuel hc hb h1 h2 => decode_step_of_first_failure klass d b fuel hc hb h1 h2⟩
  · intro d e s hs view hp hparse
    obtain ⟨h1, h2⟩ := decode_step_parse_of_failure klass d e s hs view hp hparse
    obtain ⟨-, -, -, -, h5, -⟩ := decode_step_parse_spec klass d e
    have hb : decode_step_body klass d e = (s, (decode_step_parse klass d e).decoder) := by
      unfold decode_step_body
      simp only [h1, ne_eq, hs, not_false_eq_true, ↓reduceIte]
    rw [hb]
    simp only []
    refine ⟨trivial, h5, h2, ?_, ?_, ?_, ?_, ?_⟩
    · rw [h2]; rfl
    · rw [h2]; simpa using hp
    · rw [h2]; simp
    · rw [h2]; simp
    · intro cf fr hcf hfr had
      rw [h2]
      have hprep : parser_state_prepare d.parser_state d.parser_state.input_adapter
          = d.parser_state := by
        simp [parser_state_prepare, had]
      rw [hprep]
      have h3 : current_decoder_frame d.parser_state = fr :=
        current_decoder_frame_of_some _ cf fr hcf hfr
      have h4 : current_frame_or_new d.parser_state = cf := by
        simp [current_frame_or_new, hcf]
      rw [h3, h4, ← hfr]
      cases hd : d.parser_state
      simp only [hd] at hcf
      simp [hcf]
  · intro d e hst hgf
    have hb : decode_step_body klass d e
        = decode_step_got_frame klass
            (decode_step_take_unit (decode_step_parse klass d e).decoder
              (decode_step_parse klass d e).got_unit_size)
            (decode_step_parse klass d e).base_frame := by
      unfold decode_step_body
      simp only [hst, ne_eq, not_true_eq_false, ↓reduceIte, hgf]
    rw [hb]
    refine ⟨{ (decode_step_take_unit (decode_step_parse klass d e).decoder
          (decode_step_parse klass d e).got_unit_size) with
        parser_state :=
          { (decode_step_take_unit (decode_step_parse klass d e).decoder
              (decode_step_parse klass d e).got_unit_size).parser_state with
            output_adapter := (gst_adapter_take_buffer
              (decode_step_take_unit (decode_step_parse klass d e).decoder
                (decode_step_parse klass d e).got_unit_size).parser_state.output_adapter
              (gst_adapter_available
                (decode_step_take_unit (decode_step_parse klass d e).decoder
                  (decode_step_parse klass d e).got_unit_size).parser_state.output_adapter)).2
            current_frame := some { (decode_step_parse klass d e).base_frame with
              input_buffer := (gst_adapter_take_buffer
                (decode_step_take_unit (decode_step_parse klass d e).decoder
                  (decode_step_parse klass d e).got_unit_size).parser_state.output_adapter
                (gst_adapter_available
                  (decode_step_take_unit (decode_step_parse klass d e).decoder
                    (decode_step_parse klass d e).got_unit_size).parser_state.output_adapter)).1 } } },
      _, rfl, (gst_adapter_take_buffer_all _).1, rfl, rfl, ?_, ?_⟩
    · rw [(do_decode_frame klass _ _).2]
    · rw [(decode_step_got_frame_spec klass _ _).2]
theorem failing_hook_state_witness :
    (decode_step_body (toy_klass id)
        (decode_step_feed toy_partial_error { data := some [255, 0], eos := false }) false).1
      = ERROR_BITSTREAM_PARSER
    ∧ (decode_step_body (toy_klass id)
        (decode_step_feed toy_partial_error { data := some [255, 0], eos := false })
        false).2.parser_state
      = (decode_step_feed toy_partial_error { data := some [255, 0], eos := false }).parser_state
    ∧ decode_step (toy_klass id) 1 toy_partial_error
      = some (decode_step_body (toy_klass id)
          (decode_step_feed toy_partial_error { data := some [255, 0], eos := false }) false)
    ∧ (decode_step_body toy_broken_klass
        (decode_step_feed toy_partial_closing { data := some [6, 0], eos := false })
        false).2.parser_state.current_frame = none := by
  have h := failing_hook_state (toy_klass id)
  have k := failing_hook_state toy_broken_klass
  obtain ⟨h1, -, h3, -⟩ := h.1
    (decode_step_feed toy_partial_error { data := some [255, 0], eos := false }) false
    ERROR_BITSTREAM_PARSER (by decide)
    (decode_step_feed toy_partial_error { data := some [255, 0], eos := false }).view
    (by decide) rfl
  obtain ⟨d1, bf, -, -, -, -, -, k6⟩ := k.2.1
    (decode_step_feed toy_partial_closing { data := some [6, 0], eos := false }) false
    (by decide) (by decide)
  refine ⟨h1, h3.trans (by decide), ?_, ?_⟩
  · exact h.2.2.2 toy_partial_error { data := some [255, 0], eos := false } 0
      (by decide) (by decide) (by decide) (by decide)
  · rw [k6]

theorem total_size_reverse (units : List GstVaapiDecoderUnit) :
    total_size units.reverse = total_size units := by
  simp [total_size, List.sum_reverse]

/-- What one parse call does to the byte counts of the frame under
construction, when the pending unit and the unit of the hook fit in `n`
bytes. -/
theorem parse_core_conserves (pending : Option GstVaapiDecoderUnit) (res : ParseResult)
    (frame : GstVaapiDecoderFrame) (n : Nat)
    (hp : ∀ u, pending = some u → u.size ≤ n)
    (hr : ∀ u, res = ParseResult.success u → u.size ≤ n)
    (hoff : frame.output_offset = total_size frame.units % 4294967296)
    (hs : (parse_core pending res frame).status = SUCCESS) :
    (parse_core pending res frame).got_unit_size ≤ n
    ∧ (parse_core pending res frame).frame.output_offset
        = total_size (parse_core pending res frame).frame.units % 4294967296
    ∧ total_size (parse_core pending res frame).frame.units
        = total_size frame.units + (parse_core pending res frame).got_unit_size
    ∧ (∀ u, (parse_core pending res frame).pending_unit = some u →
        (parse_core pending res frame).got_unit_size = 0 ∧ u.size ≤ n) := by
  have hsum : ∀ u : GstVaapiDecoderUnit,
      total_size (got_unit frame u).units = total_size frame.units + u.size := by
    intro u
    simp only [got_unit, total_size, List.map_cons, List.sum_cons]
    omega
  have hgo : ∀ u : GstVaapiDecoderUnit,
      (got_unit frame u).output_offset = total_size (got_unit frame u).units % 4294967296 := by
    intro u
    rw [hsum u]
    simp only [got_unit, hoff]
    omega
  have happ : ∀ u, u.size ≤ n →
      (append_core frame u).got_unit_size ≤ n
      ∧ (append_core frame u).frame.output_offset
          = total_size (append_core frame u).frame.units % 4294967296
      ∧ total_size (append_core frame u).frame.units
          = total_size frame.units + (append_core frame u).got_unit_size
      ∧ (∀ v, (append_core frame u).pending_unit = some v →
          (append_core frame u).got_unit_size = 0 ∧ v.size ≤ n) := by
    intro u hu
    refine ⟨hu, ?_, ?_, ?_⟩
    · simp only [append_core]
      split
      · simp only [got_frame, total_size_reverse]
        exact hgo u
      · exact hgo u
    · simp only [append_core]
      split
      · simp only [got_frame, total_size_reverse]
        exact hsum u
      · exact hsum u
    · intro v hv
      simp [append_core] at hv
  cases pending with
  | some u => exact happ u (hp u rfl)
  | none =>
    cases res with
    | failure s hne => exact absurd hs hne
    | success u =>
      simp only [parse_core] at hs ⊢
      split
      · refine ⟨Nat.zero_le _, ?_, ?_, ?_⟩
        · simp only [got_frame, total_size_reverse]
          exact hoff
        · simp [got_frame, total_size_reverse]
        · intro v hv
          simp only [Option.some.injEq] at hv
          subst hv
          exact ⟨rfl, hr _ rfl⟩
      · exact happ u (hr u rfl)
/-- One pass through the body of the inner loop keeps the byte counts of the
adapters and of the frame in step, and the frame it hands to `do_decode`, if
any, carries a payload as long as the sizes of its units add up to. -/
theorem decode_step_body_conserves {σ : Type} (klass : GstVaapiDecoderClass σ)
    (hfit : UnitsFit klass) (d : GstVaapiDecoder σ) (e : Bool)
    (hinv : Conserved d.parser_state) :
    Conserved (decode_step_body klass d e).2.parser_state
    ∧ ∃ es, (decode_step_body klass d e).2.log = d.log ++ es
      ∧ ∀ f ∈ dispatched es, payload_size f.input_buffer = total_size (frame_units f) := by
  obtain ⟨i1, i2, i3⟩ := hinv
  obtain ⟨h1, h2, h3, h4, -, h6, h7, h8, h9, -, -⟩ := decode_step_parse_spec klass d e
  obtain ⟨esp, hesp, -, hdp⟩ := decode_step_parse_log klass d e
  have hres : ∀ u, (klass.parse d.view d.parser_state.input_adapter e).1
      = ParseResult.success u → u.size ≤ gst_adapter_available d.parser_state.input_adapter :=
    fun u hu => hfit d.view d.parser_state.input_adapter e u
      (klass.parse d.view d.parser_state.input_adapter e).2 (Prod.ext hu rfl)
  generalize hc : parse_core d.parser_state.pending_unit
    (klass.parse d.view d.parser_state.input_adapter e).1
    (current_decoder_frame d.parser_state) = c at h1 h2 h3 h4 h8
  have hcur : current_decoder_frame (decode_step_parse klass d e).decoder.parser_state
      = c.frame :=
    current_decoder_frame_of_some _ _ _ h9 (by rw [h4])
  by_cases hst : c.status = SUCCESS
  · have hcore := parse_core_conserves d.parser_state.pending_unit
      (klass.parse d.view d.parser_state.input_adapter e).1
      (current_decoder_frame d.parser_state)
      (gst_adapter_available d.parser_state.input_adapter) i3 hres i2 (by rw [hc]; exact hst)
    rw [hc] at hcore
    obtain ⟨c1, c2, c3, c4⟩ := hcore
    obtain ⟨t1, t2⟩ := decode_step_take_unit_data (decode_step_parse klass d e).decoder
      c.got_unit_size
    rw [h6] at t1 t2
    rw [h7] at t2
    simp only [gst_adapter_available] at c1 i1 i3
    have tout : (decode_step_take_unit (decode_step_parse klass d e).decoder
        c.got_unit_size).parser_state.output_adapter.data.length
        = d.parser_state.output_adapter.data.length + c.got_unit_size := by
      rw [t2]
      split
      · simp only [List.length_append, List.length_take]
        omega
      · omega
    have tpend : ∀ u, c.pending_unit = some u →
        u.size ≤ (decode_step_take_unit (decode_step_parse klass d e).decoder
          c.got_unit_size).parser_state.input_adapter.data.length := by
      intro u hu
      obtain ⟨z, hz⟩ := c4 u hu
      rw [t1, z]
      simpa using hz
    by_cases hgf : c.got_frame = true
    · have hb : decode_step_body klass d e
          = decode_step_got_frame klass
              (decode_step_take_unit (decode_step_parse klass d e).decoder c.got_unit_size)
              (decode_step_parse klass d e).base_frame := by
        unfold decode_step_body
        simp only [h1, h2, h3, hst, ne_eq, not_true_eq_false, ↓reduceIte, hgf]
      obtain ⟨-, g2⟩ := decode_step_got_frame_spec klass
        (decode_step_take_unit (decode_step_parse klass d e).decoder c.got_unit_size)
        (decode_step_parse klass d e).base_frame
      obtain ⟨es2, hes2, -, hd2⟩ := decode_step_got_frame_log klass
        (decode_step_take_unit (decode_step_parse klass d e).decoder c.got_unit_size)
        (decode_step_parse klass d e).base_frame
      obtain ⟨a1, a2⟩ := gst_adapter_take_buffer_all
        (decode_step_take_unit (decode_step_parse klass d e).decoder
          c.got_unit_size).parser_state.output_adapter
      rw [hb]
      refine ⟨?_, esp ++ es2, ?_, ?_⟩
      · rw [g2]
        refine ⟨?_, ?_, ?_⟩
        · rw [current_decoder_frame_of_none _ rfl]
          show List.length (GstAdapter.data _) = _
          rw [a1]
          rfl
        · rw [current_decoder_frame_of_none _ rfl]
          rfl
        · intro u hu
          simp only [decode_step_take_unit_pending_unit, h8] at hu
          exact tpend u hu
      · rw [hes2, decode_step_take_unit_log, hesp, List.append_assoc]
      · intro f hf
        rw [dispatched_append, hdp, hd2] at hf
        simp only [List.nil_append, List.mem_singleton] at hf
        subst hf
        simp only [frame_units, h4, a2, payload_size]
        have hlen : total_size c.frame.units
            = (decode_step_take_unit (decode_step_parse klass d e).decoder
                c.got_unit_size).parser_state.output_adapter.data.length := by omega
        rw [hlen]
        by_cases hx : (decode_step_take_unit (decode_step_parse klass d e).decoder
            c.got_unit_size).parser_state.output_adapter.data = []
        · simp [hx]
        · simp [hx]
    · have hb : decode_step_body klass d e
          = (SUCCESS, decode_step_take_unit (decode_step_parse klass d e).decoder
              c.got_unit_size) := by
        unfold decode_step_body
        simp only [h1, h2, h3, hst, ne_eq, not_true_eq_false, ↓reduceIte, hgf,
          Bool.false_eq_true]
      rw [hb]
      have hcur2 : current_decoder_frame (decode_step_take_unit
          (decode_step_parse klass d e).decoder c.got_unit_size).parser_state = c.frame := by
        refine current_decoder_frame_of_some _ (decode_step_parse klass d e).base_frame _ ?_ (by rw [h4])
        rw [decode_step_take_unit_current_frame, h9]
      refine ⟨⟨?_, ?_, ?_⟩, esp, by simp only [decode_step_take_unit_log, hesp], ?_⟩
      · rw [hcur2]
        simp only [gst_adapter_available]
        omega
      · rw [hcur2]
        exact c2
      · intro u hu
        simp only [decode_step_take_unit_pending_unit, h8] at hu
        exact tpend u hu
      · intro f hf
        rw [hdp] at hf
        simp at hf
  · have hb : decode_step_body klass d e
        = ((decode_step_parse klass d e).status, (decode_step_parse klass d e).decoder) := by
      unfold decode_step_body
      simp only [h1, hst, ne_eq, not_false_eq_true, ↓reduceIte]
    obtain ⟨-, f2, f3⟩ := parse_core_failure d.parser_state.pending_unit
      (klass.parse d.view d.parser_state.input_adapter e).1
      (current_decoder_frame d.parser_state) (by rw [hc]; exact hst)
    rw [hc] at f2 f3
    rw [hb]
    refine ⟨⟨?_, ?_, ?_⟩, esp, hesp, ?_⟩
    · rw [hcur, f3, h7]
      exact i1
    · rw [hcur, f3]
      exact i2
    · intro u hu
      rw [h8, f2] at hu
      cases hu
    · intro f hf
      rw [hdp] at hf
      simp at hf
/-- Every state of an engine driven through submit and pull keeps the byte
counts in step, and every frame it handed to `do_decode` carries a payload as
long as the sizes of its units add up to. -/
theorem reachable_conserved {σ : Type} (klass : GstVaapiDecoderClass σ) (codec : σ)
    (hfit : UnitsFit klass) (d : GstVaapiDecoder σ) (hr : Reachable klass codec d) :
    Conserved d.parser_state
    ∧ ∀ f ∈ dispatched d.log, payload_size f.input_buffer = total_size (frame_units f) := by
  induction hr with
  | fresh =>
    refine ⟨⟨rfl, rfl, ?_⟩, ?_⟩
    · intro u hu
      cases hu
    · intro f hf
      simp [gst_vaapi_decoder_init, dispatched] at hf
  | submit d buf _ ih =>
    have hps : (gst_vaapi_decoder_put_buffer d buf).2.parser_state = d.parser_state := by
      unfold gst_vaapi_decoder_put_buffer push_buffer
      cases buf with
      | none => rfl
      | some b => simp only []; split <;> rfl
    have hlog : (gst_vaapi_decoder_put_buffer d buf).2.log = d.log := by
      unfold gst_vaapi_decoder_put_buffer push_buffer
      cases buf with
      | none => rfl
      | some b => simp only []; split <;> rfl
    rw [hps, hlog]
    exact ih
  | feed d b _ _ ih =>
    obtain ⟨⟨i1, i2, i3⟩, i4⟩ := ih
    have hlog : (decode_step_feed d b).log = d.log := by
      unfold decode_step_feed pop_buffer
      cases d.buffers <;> simp only [] <;> split <;> rfl
    have hcf : (decode_step_feed d b).parser_state.current_frame
        = d.parser_state.current_frame := by
      unfold decode_step_feed pop_buffer
      cases d.buffers <;> simp only [] <;> split <;> rfl
    have hout : (decode_step_feed d b).parser_state.output_adapter
        = d.parser_state.output_adapter := by
      unfold decode_step_feed pop_buffer
      cases d.buffers <;> simp only [] <;> split <;> rfl
    have hpend : (decode_step_feed d b).parser_state.pending_unit
        = d.parser_state.pending_unit := by
      unfold decode_step_feed pop_buffer
      cases d.buffers <;> simp only [] <;> split <;> rfl
    have hin : gst_adapter_available d.parser_state.input_adapter
        ≤ gst_adapter_available (decode_step_feed d b).parser_state.input_adapter := by
      unfold decode_step_feed pop_buffer gst_adapter_available gst_adapter_push
      cases d.buffers <;> simp only [] <;> split <;> simp
    have hfr : current_decoder_frame (decode_step_feed d b).parser_state
        = current_decoder_frame d.parser_state := by
      simp only [current_decoder_frame, current_frame_or_new, hcf]
    rw [hlog]
    refine ⟨⟨?_, ?_, ?_⟩, i4⟩
    · rw [hfr, hout]; exact i1
    · rw [hfr]; exact i2
    · intro u hu
      rw [hpend] at hu
      exact Nat.le_trans (i3 u hu) hin
  | pass d e _ ih =>
    obtain ⟨hinv, es, hes, hd⟩ := decode_step_body_conserves klass hfit d e ih.1
    refine ⟨hinv, ?_⟩
    intro f hf
    rw [hes, dispatched_append, List.mem_append] at hf
    rcases hf with hf | hf
    · exact ih.2 f hf
    · exact hd f hf
  | pull d _ ih =>
    have hps : (pop_frame d).2.parser_state = d.parser_state := by
      unfold pop_frame
      cases d.frames <;> rfl
    have hlog : (pop_frame d).2.log = d.log := by
      unfold pop_frame
      cases d.frames <;> rfl
    rw [hps, hlog]
    exact ih

theorem decode_step_inner_reachable {σ : Type} (klass : GstVaapiDecoderClass σ) (codec : σ)
    (e : Bool) (fuel : Nat) :
    ∀ (d : GstVaapiDecoder σ) (st : GstVaapiDecoderStatus) (d2 : GstVaapiDecoder σ),
    Reachable klass codec d → decode_step_inner klass e fuel d = some (st, d2) →
    Reachable klass codec d2 := by
  induction fuel with
  | zero => intro d st d2 _ h; simp [decode_step_inner] at h
  | succ n ih =>
    intro d st d2 hr h
    have hb := Reachable.pass d e hr
    simp only [decode_step_inner] at h
    split at h
    · exact ih _ _ _ hb h
    · injection h with h
      injection h with h1 h2
      subst h2
      exact hb

theorem decode_step_outer_reachable {σ : Type} (klass : GstVaapiDecoderClass σ) (codec : σ)
    (fuel : Nat) :
    ∀ (d : GstVaapiDecoder σ) (st : GstVaapiDecoderStatus) (d2 : GstVaapiDecoder σ),
    Reachable klass codec d → decode_step_outer klass fuel d = some (st, d2) →
    Reachable klass codec d2 := by
  induction fuel with
  | zero => intro d st d2 _ h; simp [decode_step_outer] at h
  | succ n ih =>
    intro d st d2 hr h
    simp only [decode_step_outer, pop_buffer] at h
    cases hb : d.buffers with
    | nil =>
      simp only [hb] at h
      injection h with h
      injection h with h1 h2
      subst h2
      exact hr
    | cons b rest =>
      have hfeed := Reachable.feed d b hr (by rw [hb]; rfl)
      simp only [decode_step_feed, pop_buffer, hb] at hfeed
      simp only [hb] at h
      split at h
      · simp at h
      · next st1 d1 hin =>
        have hr1 := decode_step_inner_reachable klass codec _ _ _ _ _ hfeed hin
        split at h
        · exact ih _ _ _ hr1 h
        · injection h with h
          injection h with h1 h2
          subst h2
          exact hr1

theorem decode_step_reachable {σ : Type} (klass : GstVaapiDecoderClass σ) (codec : σ)
    (fuel : Nat) (d : GstVaapiDecoder σ) (st : GstVaapiDecoderStatus) (d2 : GstVaapiDecoder σ)
    (hr : Reachable klass codec d) (h : decode_step klass fuel d = some (st, d2)) :
    Reachable klass codec d2 := by
  unfold decode_step at h
  simp only [] at h
  split at h
  · injection h with h
    injection h with h1 h2
    subst h2
    exact hr
  · exact decode_step_outer_reachable klass codec fuel d st d2 hr h

theorem get_surface_loop_reachable {σ : Type} (klass : GstVaapiDecoderClass σ) (codec : σ)
    (fuel : Nat) :
    ∀ (d : GstVaapiDecoder σ) (st : GstVaapiDecoderStatus) (d2 : GstVaapiDecoder σ),
    Reachable klass codec d → get_surface_loop klass fuel d = some (st, d2) →
    Reachable klass codec d2 := by
  induction fuel with
  | zero => intro d st d2 _ h; simp [get_surface_loop] at h
  | succ n ih =>
    intro d st d2 hr h
    simp only [get_surface_loop] at h
    split at h
    · simp at h
    · next st1 d1 hstep =>
      have hr1 := decode_step_reachable klass codec _ _ _ _ hr hstep
      split at h
      · exact ih _ _ _ hr1 h
      · injection h with h
        injection h with h1 h2
        subst h2
        exact hr1

theorem get_surface_reachable {σ : Type} (klass : GstVaapiDecoderClass σ) (codec : σ)
    (fuel : Nat) (d : GstVaapiDecoder σ) (r : PullResult σ)
    (hr : Reachable klass codec d) (h : gst_vaapi_decoder_get_surface klass fuel d = some r) :
    Reachable klass codec r.decoder := by
  have hp := Reachable.pull d hr
  unfold gst_vaapi_decoder_get_surface at h
  cases hf : d.frames with
  | cons f rest =>
    simp only [pop_frame, hf] at h hp
    injection h with h
    subst h
    exact hp
  | nil =>
    simp only [pop_frame, hf] at h
    split at h
    · simp at h
    · next st1 d1 hloop =>
      have hr1 := get_surface_loop_reachable klass codec _ _ _ _ hr hloop
      have hp1 := Reachable.pull d1 hr1
      cases hf1 : d1.frames with
      | cons f rest =>
        simp only [pop_frame, hf1] at h hp1
        injection h with h
        subst h
        exact hp1
      | nil =>
        simp only [pop_frame, hf1] at h
        injection h with h
        subst h
        exact hr1
theorem put_buffer_of_bytes {σ : Type} (decoder : GstVaapiDecoder σ) (b : GstBuffer)
    (hb : 0 < b.size) :
    gst_vaapi_decoder_put_buffer decoder (some b)
      = (true, { decoder with buffers := decoder.buffers ++ [b] }) := by
  have hd : b.data.isNone = false := by
    cases hdata : b.data with
    | none => simp [GstBuffer.size, hdata] at hb
    | some bytes => rfl
  have hc : ¬ (b.data.isNone = true ∨ b.size ≤ 0) := by
    rw [hd]
    simp
    omega
  simp only [gst_vaapi_decoder_put_buffer, hc, ↓reduceIte, push_buffer]

theorem decode_step_feed_of_chunk {σ : Type} (d : GstVaapiDecoder σ) (b : GstBuffer)
    (rest : List GstBuffer) (hb : d.buffers = b :: rest) (he : b.eos = false) :
    decode_step_feed d b
      = { d with
          buffers := rest
          parser_state := { d.parser_state with
            input_adapter :=
              gst_adapter_push d.parser_state.input_adapter (some (b.data.getD [])) } } := by
  simp [decode_step_feed, pop_buffer, hb, he]

/-- The body of the inner loop when no unit is pending and the parse hook
returns a unit that fits in the input adapter and leaves the frame open. -/
theorem decode_step_body_of_open_unit {σ : Type} (klass : GstVaapiDecoderClass σ)
    (d : GstVaapiDecoder σ) (e : Bool) (u : GstVaapiDecoderUnit) (view : CodecView σ)
    (hp : d.parser_state.pending_unit = none)
    (hparse : klass.parse d.view d.parser_state.input_adapter e
      = (ParseResult.success u, view))
    (hfe : u.frame_end = false)
    (hla : (u.frame_start && (current_decoder_frame d.parser_state).prev_slice.isSome) = false)
    (hpos : 0 < u.size) (hfit : u.size ≤ d.parser_state.input_adapter.data.length) :
    current_decoder_frame (decode_step_body klass d e).2.parser_state
        = got_unit (current_decoder_frame d.parser_state) u
    ∧ (decode_step_body klass d e).2.parser_state.input_adapter.data
        = d.parser_state.input_adapter.data.drop u.size
    ∧ (decode_step_body klass d e).2.parser_state.output_adapter.data
        = d.parser_state.output_adapter.data ++ d.parser_state.input_adapter.data.take u.size
    ∧ (decode_step_body klass d e).2.parser_state.pending_unit = none
    ∧ (decode_step_body klass d e).2.buffers = d.buffers := by
  obtain ⟨h1, h2, h3, h4, h5, h6, h7, h8, h9, -, -⟩ := decode_step_parse_spec klass d e
  simp only [hp, hparse, parse_core, hla, Bool.false_eq_true, ↓reduceIte, append_core, hfe]
    at h1 h2 h3 h4 h8
  have hb : decode_step_body klass d e
      = (SUCCESS, decode_step_take_unit (decode_step_parse klass d e).decoder u.size) := by
    unfold decode_step_body
    simp only [h1, h2, h3, ne_eq, not_true_eq_false, ↓reduceIte, Bool.false_eq_true]
  obtain ⟨t1, t2⟩ := decode_step_take_unit_data (decode_step_parse klass d e).decoder u.size
  rw [h6] at t1 t2
  rw [h7] at t2
  have hc : 0 < u.size ∧ u.size ≤ d.parser_state.input_adapter.data.length := ⟨hpos, hfit⟩
  simp only [hc, and_self, ↓reduceIte] at t1 t2
  rw [hb]
  refine ⟨?_, t1, t2, ?_, ?_⟩
  · refine current_decoder_frame_of_some _ (decode_step_parse klass d e).base_frame _ ?_
      (by rw [h4])
    rw [decode_step_take_unit_current_frame, h9]
  · simp only [decode_step_take_unit_pending_unit, h8]
  · simp only [decode_step_take_unit_buffers, h5]
theorem toy_bulk_klass_units_fit : UnitsFit toy_bulk_klass := by
  intro view adapter e u view2 h
  simp only [toy_bulk_klass] at h
  unfold gst_adapter_available
  split at h
  · simp at h
  · simp only [Prod.mk.injEq, ParseResult.success.injEq] at h
    obtain ⟨h, -⟩ := h
    subst h
    exact Nat.min_le_left _ _

theorem toy_bulk_fed_spec (bytes : List Nat) (hne : bytes ≠ []) :
    Reachable toy_bulk_klass () (toy_bulk_fed bytes)
    ∧ toy_bulk_fed bytes
      = { gst_vaapi_decoder_init () with
          parser_state := { (gst_vaapi_decoder_init ()).parser_state with
            input_adapter := { id := 0, data := bytes } } } := by
  have hsize : 0 < ({ data := some bytes, eos := false } : GstBuffer).size := by
    simp only [GstBuffer.size]
    exact List.length_pos.mpr hne
  have hput := put_buffer_of_bytes (gst_vaapi_decoder_init ())
    { data := some bytes, eos := false } hsize
  have hbuf : (gst_vaapi_decoder_put_buffer (gst_vaapi_decoder_init ()) (chunk bytes)).2.buffers
      = [{ data := some bytes, eos := false }] := by
    unfold chunk
    rw [hput]
    rfl
  constructor
  · exact Reachable.feed _ _ (Reachable.submit _ _ Reachable.fresh) (by rw [hbuf]; rfl)
  · unfold toy_bulk_fed
    rw [decode_step_feed_of_chunk _ _ [] hbuf rfl]
    unfold chunk
    rw [hput]
    simp [gst_adapter_push, gst_vaapi_decoder_init]

theorem toy_bulk_parsed_spec (bytes : List Nat) (hlen : bytes.length = 4294967295) :
    Reachable toy_bulk_klass () (toy_bulk_parsed bytes)
    ∧ current_decoder_frame (toy_bulk_parsed bytes).parser_state
        = got_unit gst_vaapi_decoder_frame_new
(toy_bulk_unit 4294967295)
    ∧ (toy_bulk_parsed bytes).parser_state.input_adapter.data = []
    ∧ (toy_bulk_parsed bytes).parser_state.output_adapter.data.length = 4294967295
    ∧ (toy_bulk_parsed bytes).parser_state.pending_unit = none
    ∧ (toy_bulk_parsed bytes).buffers = [] := by
  have hne : bytes ≠ [] := by
    intro h
    rw [h] at hlen
    simp at hlen
  obtain ⟨hr, hfed⟩ := toy_bulk_fed_spec bytes hne
  have hin : (toy_bulk_fed bytes).parser_state.input_adapter = { id := 0, data := bytes } := by
    rw [hfed]
  have hparse : toy_bulk_klass.parse (toy_bulk_fed bytes).view
      (toy_bulk_fed bytes).parser_state.input_adapter false
      = (ParseResult.success (toy_bulk_unit 4294967295), (toy_bulk_fed bytes).view) := by
    rw [hin]
    simp [toy_bulk_klass, hne, hlen]
  have hcur : current_decoder_frame (toy_bulk_fed bytes).parser_state
      = gst_vaapi_decoder_frame_new := by
    rw [hfed]
    rfl
  obtain ⟨o1, o2, o3, o4, o5⟩ := decode_step_body_of_open_unit toy_bulk_klass
    (toy_bulk_fed bytes) false _ _ (by rw [hfed]; rfl) hparse rfl rfl (by decide)
    (by rw [hin]; show 4294967295 ≤ bytes.length; omega)
  rw [hcur] at o1
  rw [hin] at o2 o3
  simp only [toy_bulk_unit] at o2 o3
  have hout : (toy_bulk_fed bytes).parser_state.output_adapter.data = [] := by
    rw [hfed]
    rfl
  have hbufs : (toy_bulk_fed bytes).buffers = [] := by
    rw [hfed]
    rfl
  refine ⟨Reachable.pass _ _ hr, o1, ?_, ?_, o4, ?_⟩
  · show (decode_step_body toy_bulk_klass (toy_bulk_fed bytes) false).2.parser_state.input_adapter.data = []
    rw [o2]
    exact List.drop_eq_nil_of_le (by omega)
  · show (decode_step_body toy_bulk_klass (toy_bulk_fed bytes) false).2.parser_state.output_adapter.data.length = 4294967295
    rw [o3, hout]
    simp only [List.nil_append, List.length_take]
    omega
  · show (decode_step_body toy_bulk_klass (toy_bulk_fed bytes) false).2.buffers = []
    rw [o5, hbufs]
theorem toy_bulk_state_spec (bytes : List Nat) (hlen : bytes.length = 4294967295) :
    Reachable toy_bulk_klass () (toy_bulk_state bytes)
    ∧ gst_adapter_available (toy_bulk_state bytes).parser_state.output_adapter = 4294967297
    ∧ (current_decoder_frame (toy_bulk_state bytes).parser_state).output_offset = 1
    ∧ (current_decoder_frame (toy_bulk_state bytes).parser_state).units.map (fun u => u.size)
        = [2, 4294967295] := by
  obtain ⟨hr, p1, p2, p3, p4, p5⟩ := toy_bulk_parsed_spec bytes hlen
  have hput := put_buffer_of_bytes (toy_bulk_parsed bytes)
    { data := some [0, 0], eos := false } (by decide)
  have hbuf : (gst_vaapi_decoder_put_buffer (toy_bulk_parsed bytes) (chunk [0, 0])).2.buffers
      = [{ data := some [0, 0], eos := false }] := by
    unfold chunk
    rw [hput]
    simp only [p5, List.nil_append]
  have hps : (gst_vaapi_decoder_put_buffer (toy_bulk_parsed bytes) (chunk [0, 0])).2.parser_state
      = (toy_bulk_parsed bytes).parser_state := by
    unfold chunk
    rw [hput]
  have hfed : toy_bulk_fed_again bytes
      = { (gst_vaapi_decoder_put_buffer (toy_bulk_parsed bytes) (chunk [0, 0])).2 with
          buffers := []
          parser_state := { (toy_bulk_parsed bytes).parser_state with
            input_adapter := gst_adapter_push (toy_bulk_parsed bytes).parser_state.input_adapter
              (some [0, 0]) } } := by
    unfold toy_bulk_fed_again
    rw [decode_step_feed_of_chunk _ _ [] hbuf rfl, hps]
    rfl
  have hr2 : Reachable toy_bulk_klass () (toy_bulk_fed_again bytes) :=
    Reachable.feed _ _ (Reachable.submit _ _ hr) (by rw [hbuf]; rfl)
  have hdata : (toy_bulk_fed_again bytes).parser_state.input_adapter.data = [0, 0] := by
    rw [hfed]
    simp only [gst_adapter_push, p2, List.nil_append]
  have hcur : current_decoder_frame (toy_bulk_fed_again bytes).parser_state
      = current_decoder_frame (toy_bulk_parsed bytes).parser_state := by
    rw [hfed]
    rfl
  have hout : (toy_bulk_fed_again bytes).parser_state.output_adapter
      = (toy_bulk_parsed bytes).parser_state.output_adapter := by
    rw [hfed]
  have hpend : (toy_bulk_fed_again bytes).parser_state.pending_unit = none := by
    rw [hfed]
    exact p4
  have hparse : toy_bulk_klass.parse (toy_bulk_fed_again bytes).view
      (toy_bulk_fed_again bytes).parser_state.input_adapter false
      = (ParseResult.success (toy_bulk_unit 2), (toy_bulk_fed_again bytes).view) := by
    simp [toy_bulk_klass, hdata]
  obtain ⟨o1, -, o3, -, -⟩ := decode_step_body_of_open_unit toy_bulk_klass
    (toy_bulk_fed_again bytes) false _ _ hpend hparse rfl rfl (by decide)
    (by rw [hdata]; decide)
  rw [hcur, p1] at o1
  rw [hout, hdata] at o3
  refine ⟨Reachable.pass _ _ hr2, ?_, ?_, ?_⟩
  · show (decode_step_body toy_bulk_klass (toy_bulk_fed_again bytes)
      false).2.parser_state.output_adapter.data.length = 4294967297
    rw [o3, List.length_append, p3]
    rfl
  · show (current_decoder_frame (decode_step_body toy_bulk_klass (toy_bulk_fed_again bytes)
      false).2.parser_state).output_offset = 1
    rw [o1]
    decide
  · show (current_decoder_frame (decode_step_body toy_bulk_klass (toy_bulk_fed_again bytes)
      false).2.parser_state).units.map (fun u => u.size) = [2, 4294967295]
    rw [o1]
    decide

theorem toy_klass_units_fit (on_end : CodecView Unit → CodecView Unit) :
    UnitsFit (toy_klass on_end) := by
  intro view adapter e u view2 h
  simp only [toy_klass, Prod.mk.injEq] at h
  obtain ⟨h, -⟩ := h
  unfold gst_adapter_available
  cases hd : adapter.data with
  | nil => rw [hd] at h; simp [toy_parse_bytes] at h
  | cons a t =>
    cases t with
    | nil => rw [hd] at h; simp [toy_parse_bytes] at h
    | cons b t2 =>
      rw [hd] at h
      simp only [toy_parse_bytes] at h
      split at h
      · cases h
      · injection h with h
        subst h
        simp [toy_unit]

/-- The inner loop, started `n` passes before a pass that does not succeed,
returns what that pass returns. -/
theorem decode_step_inner_of_passes {σ : Type} (klass : GstVaapiDecoderClass σ) (e : Bool)
    (n : Nat) : ∀ (d d2 : GstVaapiDecoder σ),
    inner_passes klass e n d = some d2 →
    (decode_step_body klass d2 e).1 ≠ SUCCESS →
    decode_step_inner klass e (n + 1) d = some (decode_step_body klass d2 e) := by
  induction n with
  | zero =>
    intro d d2 h hne
    simp only [inner_passes, Option.some.injEq] at h
    subst h
    exact decode_step_inner_of_failure klass d e 0 hne
  | succ n ih =>
    intro d d2 h hne
    simp only [inner_passes] at h
    split at h
    · next hc =>
      have := ih _ _ h hne
      simp only [decode_step_inner, hc, and_self, ↓reduceIte]
      exact this
    · simp at h

/-- The outer loop, started `m` rounds before a state from which it returns,
returns the same. -/
theorem decode_step_outer_of_rounds {σ : Type} (klass : GstVaapiDecoderClass σ) (fuel : Nat)
    (m : Nat) : ∀ (d d1 : GstVaapiDecoder σ) (N : Nat)
    (r : GstVaapiDecoderStatus × GstVaapiDecoder σ),
    outer_rounds klass fuel m d = some d1 → fuel ≤ N →
    decode_step_outer klass N d1 = some r →
    decode_step_outer klass (N + m) d = some r := by
  induction m with
  | zero =>
    intro d d1 N r h _ hr
    simp only [outer_rounds, Option.some.injEq] at h
    subst h
    exact hr
  | succ m ih =>
    intro d d1 N r h hN hr
    simp only [outer_rounds] at h
    cases hb : d.buffers with
    | nil => simp [hb] at h
    | cons b rest =>
      simp only [hb] at h
      split at h
      · simp at h
      · next st dm hin =>
        split at h
        · next hnd =>
          subst hnd
          have hrec := ih dm d1 N r h hN hr
          have hin2 := decode_step_inner_mono klass b.eos fuel (N + m + 1) _ _ (by omega) hin
          simp only [decode_step_feed, pop_buffer, hb] at hin2
          show decode_step_outer klass (N + m + 1) d = some r
          simp only [decode_step_outer, pop_buffer, hb]
          rw [hin2]
          simp only [↓reduceIte]
          exact hrec
        · simp at h

/-- The loop of a pull, started `k` successful decode steps before a state
from which it returns, returns the same. -/
theorem get_surface_loop_of_steps {σ : Type} (klass : GstVaapiDecoderClass σ) (fuel : Nat)
    (k : Nat) : ∀ (d d1 : GstVaapiDecoder σ) (N : Nat)
    (r : GstVaapiDecoderStatus × GstVaapiDecoder σ),
    pull_steps klass fuel k d = some d1 → fuel ≤ N →
    get_surface_loop klass N d1 = some r →
    get_surface_loop klass (N + k) d = some r := by
  induction k with
  | zero =>
    intro d d1 N r h _ hr
    simp only [pull_steps, Option.some.injEq] at h
    subst h
    exact hr
  | succ k ih =>
    intro d d1 N r h hN hr
    simp only [pull_steps] at h
    split at h
    · simp at h
    · next st dm hstep =>
      split at h
      · next hs =>
        subst hs
        have hrec := ih dm d1 N r h hN hr
        have hstep2 := decode_step_mono klass fuel (N + k + 1) _ _ (by omega) hstep
        show get_surface_loop klass (N + k + 1) d = some r
        simp only [get_surface_loop]
        rw [hstep2]
        simp only [↓reduceIte]
        exact hrec
      · simp at h

/-- A decode step in which, after `m` rounds of the outer loop and `n` passes
of the inner loop, a pass ends with a status that is neither `SUCCESS` nor
`ERROR_NO_DATA`, returns what that pass returns. -/
theorem decode_step_of_failing_pass {σ : Type} (klass : GstVaapiDecoderClass σ)
    (fuel m n : Nat) (d0 d1 d2 : GstVaapiDecoder σ) (b : GstBuffer)
    (hc : gst_vaapi_decoder_check_status d0 = SUCCESS)
    (hrounds : outer_rounds klass fuel m d0 = some d1)
    (hb : d1.buffers.head? = some b)
    (hpasses : inner_passes klass b.eos n (decode_step_feed d1 b) = some d2)
    (h1 : (decode_step_body klass d2 b.eos).1 ≠ SUCCESS)
    (h2 : (decode_step_body klass d2 b.eos).1 ≠ ERROR_NO_DATA) :
    decode_step klass (fuel + m + n + 1) d0 = some (decode_step_body klass d2 b.eos) := by
  have hin := decode_step_inner_of_passes klass b.eos n _ _ hpasses h1
  have hin2 := decode_step_inner_mono klass b.eos (n + 1) (fuel + n + 1) _ _ (by omega) hin
  have hlast : decode_step_outer klass (fuel + n + 1) d1
      = some (decode_step_body klass d2 b.eos) := by
    cases hbufs : d1.buffers with
    | nil => simp [hbufs] at hb
    | cons b2 rest =>
      have hb2 : b2 = b := by simpa [hbufs] using hb
      subst hb2
      simp only [decode_step_feed, pop_buffer, hbufs] at hin2
      simp only [decode_step_outer, pop_buffer, hbufs]
      rw [hin2]
      simp only [h2, ↓reduceIte]
  have hout := decode_step_outer_of_rounds klass fuel m d0 d1 (fuel + n + 1) _ hrounds
    (by omega) hlast
  have hfuel : fuel + m + n + 1 = fuel + n + 1 + m := by omega
  unfold decode_step
  simp only [hc, ne_eq, not_true_eq_false, ↓reduceIte]
  rw [hfuel]
  exact hout
/-- A pull in which, after `k` successful decode steps, a pass through the body
of the inner loop ends with a status that is neither `SUCCESS` nor
`ERROR_NO_DATA`: the loop of the pull ends with what that pass returns, and
the pull returns its status unless a decoded frame is queued. -/
theorem get_surface_of_failing_pass {σ : Type} (klass : GstVaapiDecoderClass σ)
    (fuel k m n : Nat) (d d0 d1 d2 : GstVaapiDecoder σ) (b : GstBuffer)
    (hframes : d.frames = [])
    (hsteps : pull_steps klass fuel k d = some d0)
    (hc : gst_vaapi_decoder_check_status d0 = SUCCESS)
    (hrounds : outer_rounds klass fuel m d0 = some d1)
    (hb : d1.buffers.head? = some b)
    (hpasses : inner_passes klass b.eos n (decode_step_feed d1 b) = some d2)
    (h1 : (decode_step_body klass d2 b.eos).1 ≠ SUCCESS)
    (h2 : (decode_step_body klass d2 b.eos).1 ≠ ERROR_NO_DATA) :
    get_surface_loop klass (fuel + m + n + 1 + k) d = some (decode_step_body klass d2 b.eos)
    ∧ ∃ r, gst_vaapi_decoder_get_surface klass (fuel + m + n + 1 + k) d = some r
      ∧ ((decode_step_body klass d2 b.eos).2.frames = [] →
          r.status = (decode_step_body klass d2 b.eos).1 ∧ r.out = none
          ∧ r.decoder = (decode_step_body klass d2 b.eos).2)
      ∧ (∀ f rest, (decode_step_body klass d2 b.eos).2.frames = f :: rest →
          r.status = SUCCESS ∧ r.out = some f) := by
  have hstep := decode_step_of_failing_pass klass fuel m n d0 d1 d2 b hc hrounds hb hpasses h1 h2
  have hlast : get_surface_loop klass (fuel + m + n + 1) d0
      = some (decode_step_body klass d2 b.eos) := by
    simp only [get_surface_loop]
    rw [hstep]
    simp only [h1, ↓reduceIte]
  have hloop := get_surface_loop_of_steps klass fuel k d d0 (fuel + m + n + 1) _ hsteps
    (by omega) hlast
  refine ⟨hloop, ?_⟩
  unfold gst_vaapi_decoder_get_surface
  simp only [pop_frame, hframes, hloop]
  cases hf : (decode_step_body klass d2 b.eos).2.frames with
  | nil =>
    refine ⟨_, rfl, ?_, ?_⟩
    · intro _
      simp only [h1, ↓reduceIte]
      exact ⟨trivial, trivial, trivial⟩
    · intro f rest h
      cases h
  | cons f rest =>
    refine ⟨_, rfl, ?_, ?_⟩
    · intro h
      cases h
    · intro f2 rest2 h
      injection h with h3 h4
      subst h3
      exact ⟨rfl, rfl⟩

/-- A hook call that returns a status other than `SUCCESS` during a pass
through the body of the inner loop makes that status the status of the pass. -/
theorem decode_step_body_of_failing_hook {σ : Type} (klass : GstVaapiDecoderClass σ)
    (d : GstVaapiDecoder σ) (at_eos : Bool) (s : GstVaapiDecoderStatus) (e : Event)
    (hstatus : e.status? = some s) (hs1 : s ≠ SUCCESS)
    (he : e ∈ new_events d.log (decode_step_body klass d at_eos).2.log) :
    (decode_step_body klass d at_eos).1 = s := by
  obtain ⟨es, hes, hst⟩ := decode_step_body_log klass d at_eos
  rw [hes, new_events_append] at he
  rcases hst e he s hstatus with h | h
  · exact absurd h hs1
  · exact h.symm
/-- C7 (amended): error statuses bubble up through `decode_step` unchanged, and
through `gst_vaapi_decoder_get_surface` unless a decoded frame is queued.  Let
`s` be a status other than `SUCCESS` and `ERROR_NO_DATA` returned by a hook
call (parse, start_frame, decode or end_frame).  Whenever `decode_step` or the
pull returns after such a call, it is with `s`, or for the pull with `SUCCESS`
and the frame at the head of the Output Queue.  And they do return: the pass
through the body of the inner loop in which the call is made has status `s`;
a decode step that gets to this pass after `m` rounds of its outer loop and
`n` passes of its inner loop returns `s` with the decoder that pass leaves; and
a pull that gets to this step after `k` successful decode steps ends its loop
with `s`, returning `s` when the Output Queue is then empty and `SUCCESS` with
the frame at its head otherwise. -/
theorem error_status_bubbles_up {σ : Type} (klass : GstVaapiDecoderClass σ) (fuel : Nat)
    (decoder : GstVaapiDecoder σ) (s : GstVaapiDecoderStatus) (e : Event)
    (hstatus : e.status? = some s) (hs1 : s ≠ SUCCESS) (hs2 : s ≠ ERROR_NO_DATA) :
    (∀ st d2, decode_step klass fuel decoder = some (st, d2) →
        e ∈ new_events decoder.log d2.log → st = s)
    ∧ (∀ r, gst_vaapi_decoder_get_surface klass fuel decoder = some r →
        e ∈ new_events decoder.log r.decoder.log →
        ∃ d2, get_surface_loop klass fuel decoder = some (s, d2)
          ∧ (d2.frames = [] → r.status = s ∧ r.out = none ∧ r.decoder = d2)
          ∧ (∀ f rest, d2.frames = f :: rest → r.status = SUCCESS ∧ r.out = some f))
    ∧ (∀ (d : GstVaapiDecoder σ) (at_eos : Bool),
        e ∈ new_events d.log (decode_step_body klass d at_eos).2.log →
        (decode_step_body klass d at_eos).1 = s)
    ∧ (∀ (m n : Nat) (d1 d2 : GstVaapiDecoder σ) (b : GstBuffer),
        gst_vaapi_decoder_check_status decoder = SUCCESS →
        outer_rounds klass fuel m decoder = some d1 →
        d1.buffers.head? = some b →
        inner_passes klass b.eos n (decode_step_feed d1 b) = some d2 →
        e ∈ new_events d2.log (decode_step_body klass d2 b.eos).2.log →
        decode_step klass (fuel + m + n + 1) decoder
          = some (s, (decode_step_body klass d2 b.eos).2))
    ∧ (∀ (k m n : Nat) (d0 d1 d2 : GstVaapiDecoder σ) (b : GstBuffer),
        decoder.frames = [] →
        pull_steps klass fuel k decoder = some d0 →
        gst_vaapi_decoder_check_status d0 = SUCCESS →
        outer_rounds klass fuel m d0 = some d1 →
        d1.buffers.head? = some b →
        inner_passes klass b.eos n (decode_step_feed d1 b) = some d2 →
        e ∈ new_events d2.log (decode_step_body klass d2 b.eos).2.log →
        get_surface_loop klass (fuel + m + n + 1 + k) decoder
          = some (s, (decode_step_body klass d2 b.eos).2)
        ∧ ∃ r, gst_vaapi_decoder_get_surface klass (fuel + m + n + 1 + k) decoder = some r
          ∧ ((decode_step_body klass d2 b.eos).2.frames = [] →
              r.status = s ∧ r.out = none ∧ r.decoder = (decode_step_body klass d2 b.eos).2)
          ∧ (∀ f rest, (decode_step_body klass d2 b.eos).2.frames = f :: rest →
              r.status = SUCCESS ∧ r.out = some f)) := by
  refine ⟨?_, ?_, ?_, ?_, ?_⟩
  · intro st d2 h he
    obtain ⟨es, hes, hst⟩ := decode_step_log klass fuel decoder st d2 h
    rw [hes, new_events_append] at he
    rcases hst e he s hstatus with h1 | h1 | h1
    · exact absurd h1 hs1
    · exact absurd h1 hs2
    · exact h1.symm
  · intro r h he
    unfold gst_vaapi_decoder_get_surface at h
    cases hf : decoder.frames with
    | cons f rest =>
      simp only [pop_frame, hf] at h
      injection h with h
      rw [← h] at he
      simp [new_events] at he
    | nil =>
      simp only [pop_frame, hf] at h
      split at h
      · simp at h
      · next st d2 hloop =>
        obtain ⟨hne, es, hes, hst⟩ := get_surface_loop_log klass fuel decoder st d2 hloop
        have hlog : r.decoder.log = d2.log := by
          cases hf2 : d2.frames with
          | nil => simp only [hf2] at h; injection h with h; rw [← h]
          | cons f2 rest2 => simp only [hf2] at h; injection h with h; rw [← h]
        rw [hlog, hes, new_events_append] at he
        have hst_eq : st = s := by
          rcases hst e he s hstatus with h1 | h1 | h1
          · exact absurd h1 hs1
          · exact absurd h1 hs2
          · exact h1.symm
        subst hst_eq
        refine ⟨d2, hloop, ?_, ?_⟩
        · intro hf2
          simp only [hf2, hs1, ↓reduceIte] at h
          injection h with h
          rw [← h]
          exact ⟨rfl, rfl, rfl⟩
        · intro f2 rest2 hf2
          simp only [hf2] at h
          injection h with h
          rw [← h]
          exact ⟨rfl, rfl⟩
  · intro d at_eos he
    exact decode_step_body_of_failing_hook klass d at_eos s e hstatus hs1 he
  · intro m n d1 d2 b hc hrounds hb hpasses he
    have hst := decode_step_body_of_failing_hook klass d2 b.eos s e hstatus hs1 he
    have h := decode_step_of_failing_pass klass fuel m n decoder d1 d2 b hc hrounds hb hpasses
      (by rw [hst]; exact hs1) (by rw [hst]; exact hs2)
    rw [h, ← hst]
  · intro k m n d0 d1 d2 b hframes hsteps hc hrounds hb hpasses he
    have hst := decode_step_body_of_failing_hook klass d2 b.eos s e hstatus hs1 he
    obtain ⟨h1, r, h2, h3, h4⟩ := get_surface_of_failing_pass klass fuel k m n decoder d0 d1 d2 b
      hframes hsteps hc hrounds hb hpasses (by rw [hst]; exact hs1) (by rw [hst]; exact hs2)
    refine ⟨by rw [h1, ← hst], r, h2, ?_, h4⟩
    intro hf
    rw [← hst]
    exact h3 hf

theorem error_status_bubbles_up_witness :
    (Event.parse [255, 0] false ERROR_BITSTREAM_PARSER none).status? = some ERROR_BITSTREAM_PARSER
    ∧ ERROR_BITSTREAM_PARSER ≠ SUCCESS ∧ ERROR_BITSTREAM_PARSER ≠ ERROR_NO_DATA
    ∧ (∃ d2, decode_step (toy_klass id) 4 toy_error_later = some (ERROR_BITSTREAM_PARSER, d2)
        ∧ Event.parse [255, 0] false ERROR_BITSTREAM_PARSER none
            ∈ new_events toy_error_later.log d2.log)
    ∧ (∃ r, gst_vaapi_decoder_get_surface (toy_klass id) 4 toy_error_later = some r
        ∧ r.status = ERROR_BITSTREAM_PARSER ∧ r.out = none) := by
  have h := error_status_bubbles_up (toy_klass id) 1 toy_error_later ERROR_BITSTREAM_PARSER
    (Event.parse [255, 0] false ERROR_BITSTREAM_PARSER none) rfl (by decide) (by decide)
  obtain ⟨-, -, -, h4, h5⟩ := h
  have k4 := h4 1 1 _ _ { data := some [0, 255, 0], eos := false } (by decide) rfl rfl rfl
    (by decide)
  obtain ⟨-, r, k5, k6, -⟩ := h5 0 1 1 _ _ _ { data := some [0, 255, 0], eos := false }
    (by decide) rfl (by decide) rfl rfl rfl (by decide)
  refine ⟨rfl, by decide, by decide, ⟨_, k4, by decide⟩, r, k5, (k6 (by decide)).1,
    (k6 (by decide)).2.1⟩

/-- The body of the inner loop when no unit is pending, the frame has a last
slice and the parse hook returns a unit flagged frame-start: the frame is
handed to `do_decode` as it is and the unit is kept pending. -/
theorem decode_step_body_of_lookahead {σ : Type} (klass : GstVaapiDecoderClass σ)
    (d : GstVaapiDecoder σ) (e : Bool) (u : GstVaapiDecoderUnit) (view : CodecView σ)
    (hp : d.parser_state.pending_unit = none)
    (hparse : klass.parse d.view d.parser_state.input_adapter e = (ParseResult.success u, view))
    (hstart : u.frame_start = true)
    (hslice : (current_decoder_frame d.parser_state).prev_slice.isSome = true) :
    (decode_step_body klass d e).2.parser_state.pending_unit = some u
    ∧ (decode_step_body klass d e).2.parser_state.input_adapter = d.parser_state.input_adapter
    ∧ (decode_step_body klass d e).2.parser_state.current_frame = none
    ∧ (decode_step_body klass d e).2.buffers = d.buffers
    ∧ ∃ es, (decode_step_body klass d e).2.log = d.log ++ es
        ∧ dispatched es =
          [{ user_data := some (got_frame (current_decoder_frame d.parser_state))
             input_buffer := payload_of d.parser_state.output_adapter.data }] := by
  obtain ⟨h1, h2, h3, h4, h5, h6, h7, h8, h9, h10, h11⟩ := decode_step_parse_spec klass d e
  simp only [hp, hparse, parse_core, hstart, hslice, Bool.and_self, ↓reduceIte,
    Option.isSome_none, Bool.false_eq_true, ParseResult.status, ParseResult.unit]
    at h1 h2 h3 h4 h8 h10 h11
  have ht : decode_step_take_unit (decode_step_parse klass d e).decoder 0
      = (decode_step_parse klass d e).decoder := by
    simp [decode_step_take_unit]
  have hb : decode_step_body klass d e = decode_step_got_frame klass
      (decode_step_parse klass d e).decoder (decode_step_parse klass d e).base_frame := by
    unfold decode_step_body
    simp only [h1, h2, h3, ne_eq, not_true_eq_false, ↓reduceIte, ht]
  rw [hb]
  obtain ⟨g1, g2⟩ := decode_step_got_frame_spec klass
    (decode_step_parse klass d e).decoder (decode_step_parse klass d e).base_frame
  obtain ⟨es, hes, -, hdis⟩ := decode_step_got_frame_log klass
    (decode_step_parse klass d e).decoder (decode_step_parse klass d e).base_frame
  refine ⟨by rw [g2]; exact h8, by rw [g2]; exact h6, by rw [g2], by rw [g1, h5],
    Event.parse d.parser_state.input_adapter.data e SUCCESS (some u) :: es, ?_, ?_⟩
  · rw [hes, h11, List.append_assoc]
    rfl
  · simp only [dispatched]
    rw [hdis, h4, (gst_adapter_take_buffer_all _).2, h7]
    rfl

/-- C10 (amended): the engine has no flush of its own at end of stream.  For
every decoder with a drained Input Queue, no decoded frame queued, a free
surface and no pending unit: submitting the EOS sentinel queues exactly that
sentinel and appends nothing to the input adapter, and the pull starts with a
pass through the body of the inner loop on the decoder as it was, with `at_eos`
set.  When the parse hook still reports `ERROR_NO_DATA`, queues no frame and
leaves the surface count alone, nothing is handed to `do_decode`, the partial
frame stays current with its units, and this pull and every later one return
`ERROR_NO_DATA`.  When the hook returns a unit flagged frame-end that takes all
the remaining input, and that is not a frame-start unit arriving after a
slice, exactly one frame is handed to `do_decode`, made of all the units
accumulated before, in stream order, followed by that unit.  When the hook
returns a frame-start unit and the frame has a last slice, the pass hands the
frame with exactly the units accumulated before to `do_decode` and keeps the
unit as the pending unit. -/
theorem eos_flush_by_parse_hook {σ : Type} (klass : GstVaapiDecoderClass σ) (fuel : Nat)
    (decoder : GstVaapiDecoder σ)
    (hbuffers : decoder.buffers = []) (hframes : decoder.frames = [])
    (hsurface : gst_vaapi_decoder_check_status decoder = SUCCESS)
    (hpending : decoder.parser_state.pending_unit = none) :
    (gst_vaapi_decoder_put_buffer decoder none).2.buffers = [{ data := none, eos := true }]
    ∧ (gst_vaapi_decoder_put_buffer decoder none).2.parser_state = decoder.parser_state
    ∧ (∀ (hne : ERROR_NO_DATA ≠ SUCCESS) (view : CodecView σ),
        klass.parse decoder.view decoder.parser_state.input_adapter true
          = (ParseResult.failure ERROR_NO_DATA hne, view) →
        view.frames = [] → view.context = decoder.context →
        ∃ r, gst_vaapi_decoder_get_surface klass (fuel + 2)
              (gst_vaapi_decoder_put_buffer decoder none).2 = some r
          ∧ r.status = ERROR_NO_DATA ∧ r.out = none
          ∧ r.decoder.buffers = []
          ∧ r.decoder.parser_state.input_adapter = decoder.parser_state.input_adapter
          ∧ r.decoder.parser_state.output_adapter = decoder.parser_state.output_adapter
          ∧ r.decoder.parser_state.current_frame
              = some { user_data := some (current_decoder_frame decoder.parser_state)
                       input_buffer :=
                        (current_frame_or_new decoder.parser_state).input_buffer }
          ∧ r.decoder.log = decoder.log
              ++ [Event.parse decoder.parser_state.input_adapter.data true ERROR_NO_DATA none]
          ∧ ∀ n, gst_vaapi_decoder_get_surface klass (n + 1) r.decoder
              = some { status := ERROR_NO_DATA, out := none, decoder := r.decoder })
    ∧ (∀ (u : GstVaapiDecoderUnit) (view : CodecView σ),
        klass.parse decoder.view decoder.parser_state.input_adapter true
          = (ParseResult.success u, view) →
        u.frame_end = true →
        (u.frame_start && (current_decoder_frame decoder.parser_state).prev_slice.isSome)
          = false →
        u.size = decoder.parser_state.input_adapter.data.length →
        ∃ r es, gst_vaapi_decoder_get_surface klass (fuel + 2)
              (gst_vaapi_decoder_put_buffer decoder none).2 = some r
          ∧ r.decoder.buffers = []
          ∧ r.decoder.parser_state.input_adapter.data = []
          ∧ r.decoder.parser_state.current_frame = none
          ∧ r.decoder.log = decoder.log ++ es
          ∧ dispatched es =
              [{ user_data := some
                  (got_frame (got_unit (current_decoder_frame decoder.parser_state) u))
                 input_buffer := payload_of (decoder.parser_state.output_adapter.data
                    ++ decoder.parser_state.input_adapter.data) }]
          ∧ (got_frame (got_unit (current_decoder_frame decoder.parser_state) u)).units
              = (current_decoder_frame decoder.parser_state).units.reverse
                ++ [{ u with offset :=
                      (current_decoder_frame decoder.parser_state).output_offset }])
    ∧ (∀ (u : GstVaapiDecoderUnit) (view : CodecView σ),
        klass.parse decoder.view decoder.parser_state.input_adapter true
          = (ParseResult.success u, view) →
        u.frame_start = true →
        (current_decoder_frame decoder.parser_state).prev_slice.isSome = true →
        ∃ es, (decode_step_body klass decoder true).2.log = decoder.log ++ es
          ∧ dispatched es =
              [{ user_data := some (got_frame (current_decoder_frame decoder.parser_state))
                 input_buffer := payload_of decoder.parser_state.output_adapter.data }]
          ∧ (got_frame (current_decoder_frame decoder.parser_state)).units
              = (current_decoder_frame decoder.parser_state).units.reverse
          ∧ (decode_step_body klass decoder true).2.parser_state.pending_unit = some u
          ∧ (decode_step_body klass decoder true).2.parser_state.input_adapter
              = decoder.parser_state.input_adapter
          ∧ (decode_step_body klass decoder true).2.parser_state.current_frame = none)
    ∧ decode_step_feed (gst_vaapi_decoder_put_buffer decoder none).2
        { data := none, eos := true } = decoder := by
  have hd0 : ({ (gst_vaapi_decoder_put_buffer decoder none).2 with buffers := [] } :
      GstVaapiDecoder σ) = decoder := by
    obtain ⟨codec, context, buffers, frames, ps, log⟩ := decoder
    simp only at hbuffers
    subst hbuffers
    rfl
  have hb1 : (gst_vaapi_decoder_put_buffer decoder none).2.buffers
      = [{ data := none, eos := true }] := by
    simp [gst_vaapi_decoder_put_buffer, push_buffer, hbuffers, gst_buffer_new]
  have hf1 : (gst_vaapi_decoder_put_buffer decoder none).2.frames = [] := hframes
  have hc1 : gst_vaapi_decoder_check_status (gst_vaapi_decoder_put_buffer decoder none).2
      = SUCCESS := hsurface
  refine ⟨hb1, rfl, ?_, ?_, ?_, ?_⟩
  · intro hne view hparse hvf hvc
    obtain ⟨b1, b2, b3, b4, b5, b6, b7, b8⟩ := decode_step_body_of_failure klass
      decoder true ERROR_NO_DATA hne view hpending hparse
    have hstop : ¬ ((decode_step_body klass decoder true).1 = SUCCESS
      ∧ gst_adapter_available
          (decode_step_body klass decoder true).2.parser_state.input_adapter > 0) := by
      rw [b1]; simp
    obtain ⟨st, hst, hloop, hst2⟩ := get_surface_loop_of_last_eos klass fuel
      (gst_vaapi_decoder_put_buffer decoder none).2 _ hb1 rfl hc1 decoder hd0 hstop
    have hst3 : st = ERROR_NO_DATA := by
      rw [hst2 (by rw [b1]; exact hne), b1]
    subst hst3
    have hfr : (decode_step_body klass decoder true).2.frames = [] :=
      (congrArg CodecView.frames b3).trans hvf
    have hctx : gst_vaapi_decoder_check_status (decode_step_body klass decoder true).2
        = SUCCESS := by
      have h2 : (decode_step_body klass decoder true).2.context = decoder.context :=
        (congrArg CodecView.context b3).trans hvc
      unfold gst_vaapi_decoder_check_status at hsurface ⊢
      rw [h2]
      exact hsurface
    refine ⟨{ status := ERROR_NO_DATA, out := none, decoder := _ }, ?_, rfl, rfl,
      b2.trans hbuffers, b5, b6, b8, b4, ?_⟩
    · unfold gst_vaapi_decoder_get_surface
      simp only [pop_frame, hf1, hloop, hfr]
      rfl
    · intro n
      exact get_surface_no_data klass n _ (b2.trans hbuffers) hfr hctx
  · intro u view hparse hend hstart hsize
    obtain ⟨b1, b2, b3, b4, b5, es, b6, b7⟩ := decode_step_body_of_closing_unit klass
      decoder true u view hpending hparse hend hstart
    have hin : (decode_step_body klass decoder true).2.parser_state.input_adapter.data
        = [] := by
      rw [b2, hsize]
      split
      · simp
      · next h =>
        have : decoder.parser_state.input_adapter.data.length = 0 := by omega
        exact List.length_eq_zero.mp this
    have hpay : (if 0 < u.size ∧ u.size ≤ decoder.parser_state.input_adapter.data.length
          then decoder.parser_state.output_adapter.data
            ++ decoder.parser_state.input_adapter.data.take u.size
          else decoder.parser_state.output_adapter.data)
        = decoder.parser_state.output_adapter.data
            ++ decoder.parser_state.input_adapter.data := by
      rw [hsize]
      split
      · simp
      · next h =>
        have : decoder.parser_state.input_adapter.data.length = 0 := by omega
        rw [List.length_eq_zero.mp this]; simp
    rw [hpay] at b7
    have hstop : ¬ ((decode_step_body klass decoder true).1 = SUCCESS
      ∧ gst_adapter_available
          (decode_step_body klass decoder true).2.parser_state.input_adapter > 0) := by
      unfold gst_adapter_available
      rw [hin]; simp
    obtain ⟨st, hst, hloop, -⟩ := get_surface_loop_of_last_eos klass fuel
      (gst_vaapi_decoder_put_buffer decoder none).2 _ hb1 rfl hc1 decoder hd0 hstop
    have hget : ∃ r, gst_vaapi_decoder_get_surface klass (fuel + 2)
        (gst_vaapi_decoder_put_buffer decoder none).2 = some r
        ∧ r.decoder.buffers = (decode_step_body klass decoder true).2.buffers
        ∧ r.decoder.parser_state = (decode_step_body klass decoder true).2.parser_state
        ∧ r.decoder.log = (decode_step_body klass decoder true).2.log := by
      unfold gst_vaapi_decoder_get_surface
      cases hfr : (decode_step_body klass decoder true).2.frames with
      | nil =>
        simp only [pop_frame, hf1, hloop, hfr]
        exact ⟨_, rfl, rfl, rfl, rfl⟩
      | cons f rest =>
        simp only [pop_frame, hf1, hloop, hfr]
        exact ⟨_, rfl, rfl, rfl, rfl⟩
    obtain ⟨r, hr, r1, r2, r3⟩ := hget
    refine ⟨r, _, hr, (r1.trans b1).trans hbuffers, by rw [r2]; exact hin, by rw [r2]; exact b5,
      r3.trans b6, ?_, got_frame_got_unit_units _ _⟩
    simp only [dispatched]
    exact b7
  · intro u view hparse hstart hslice
    obtain ⟨l1, l2, l3, l4, es, l5, l6⟩ := decode_step_body_of_lookahead klass decoder true u
      view hpending hparse hstart hslice
    exact ⟨_, l5, l6, rfl, l1, l2, l3⟩
  · simp only [decode_step_feed, pop_buffer, hb1, Bool.not_true, Bool.false_eq_true, ↓reduceIte]
    exact hd0
theorem eos_flush_by_parse_hook_witness :
    toy_partial_rest.buffers = [] ∧ toy_partial_rest.frames = []
    ∧ gst_vaapi_decoder_check_status toy_partial_rest = SUCCESS
    ∧ toy_partial_rest.parser_state.pending_unit = none
    ∧ toy_partial_rest.parser_state.input_adapter.data = [9]
    ∧ frame_units (current_frame_or_new toy_partial_rest.parser_state)
        = [{ toy_unit 4 with offset := 0 }]
    ∧ (∃ r, gst_vaapi_decoder_get_surface (toy_klass id) 3
          (gst_vaapi_decoder_put_buffer toy_partial_rest none).2 = some r
        ∧ r.status = ERROR_NO_DATA
        ∧ r.decoder.log = toy_partial_rest.log ++ [Event.parse [9] true ERROR_NO_DATA none])
    ∧ (∃ r es, gst_vaapi_decoder_get_surface toy_flushing_klass 3
          (gst_vaapi_decoder_put_buffer toy_partial_rest none).2 = some r
        ∧ r.decoder.log = toy_partial_rest.log ++ es
        ∧ dispatched es =
            [{ user_data := some
                { units := [{ toy_unit 4 with offset := 0 },
                            { size := 1, offset := 2, frame_start := false, frame_end := true
                              slice := true, skipped := false }]
                  output_offset := 3
                  prev_slice := some { size := 1, offset := 2, frame_start := false
                                       frame_end := true, slice := true, skipped := false } }
               input_buffer := some [4, 0, 9] }])
    ∧ (∃ es, (decode_step_body toy_restart_klass toy_partial_rest true).2.log
          = toy_partial_rest.log ++ es
        ∧ dispatched es =
            [{ user_data := some
                { units := [{ toy_unit 4 with offset := 0 }]
                  output_offset := 2
                  prev_slice := some { toy_unit 4 with offset := 0 } }
               input_buffer := some [4, 0] }]
        ∧ (decode_step_body toy_restart_klass toy_partial_rest true).2.parser_state.pending_unit
          = some { size := 1, offset := 0, frame_start := true, frame_end := true
                   slice := true, skipped := false }) := by
  have h1 := eos_flush_by_parse_hook (toy_klass id) 1 toy_partial_rest (by decide) (by decide)
    (by decide) (by decide)
  have h2 := eos_flush_by_parse_hook toy_flushing_klass 1 toy_partial_rest (by decide)
    (by decide) (by decide) (by decide)
  have h3 := eos_flush_by_parse_hook toy_restart_klass 1 toy_partial_rest (by decide)
    (by decide) (by decide) (by decide)
  refine ⟨by decide, by decide, by decide, by decide, by decide, by decide, ?_, ?_, ?_⟩
  · obtain ⟨r, hr, hs, -, -, -, -, -, hl, -⟩ := h1.2.2.1 (by decide) toy_partial_rest.view rfl
      (by decide) rfl
    exact ⟨r, hr, hs, hl⟩
  · obtain ⟨r, es, hr, -, -, -, hl, hd, -⟩ := h2.2.2.2.1
      { size := 1, offset := 0, frame_start := false, frame_end := true, slice := true
        skipped := false } toy_partial_rest.view rfl rfl (by decide) (by decide)
    exact ⟨r, es, hr, hl, hd.trans (by decide)⟩
  · obtain ⟨es, hl, hd, -, hp, -⟩ := h3.2.2.2.2.1
      { size := 1, offset := 0, frame_start := true, frame_end := true, slice := true
        skipped := false } toy_partial_rest.view rfl rfl (by decide)
    exact ⟨es, hl, hd.trans (by decide), hp⟩

end GstVaapi
